/-
Verification of the ACIS SAT/SAB entity-graph codec (ezdxf.acis).

The development has two layers, mirroring the repository:
 * `Acis` — the low-level string-based SAT reader/writer of
   `src/ezdxf/acis.py` (records, header, pointer resolution), translated
   function by function from the Python source.
 * `AcisEnt` — the typed entity layer of `src/ezdxf/acis/entities.py`
   (typed restore/write per entity kind, the loader orchestration, and the
   exporter).  The record/token framing of the missing modules
   `sat.py` / `sab.py` / `const.py` / `hdr.py` / `abstract.py` is modelled
   from the spec where noted.

Python strings are modelled as Lean `String`, Python `int` as `Int`/`Nat`,
Python `float` as exact rationals `ℚ` (see the notes at the definitions),
exceptions as `Except PyErr`.
-/
import Mathlib

namespace Acis

/-- Python exception kinds raised by the translated code.  The constructors
mirror the exception classes of `acis.py` (`ParsingError`,
`InvalidLinkStructure`, both subclasses of `AcisException`) plus the
builtin exceptions the code can raise. -/
inductive PyErr where
  | parsingError (msg : String)
  | invalidLink (msg : String)
  | exportError (msg : String)
  | valueError (msg : String)
  | keyError
  | indexError
  | typeError (msg : String)
  deriving Repr, DecidableEq

/-- Decidable equality of `Except` results (for concrete evaluations). -/
instance {ε α : Type} [DecidableEq ε] [DecidableEq α] :
    DecidableEq (Except ε α) := fun x y =>
  match x, y with
  | .ok a, .ok b =>
      if h : a = b then .isTrue (by rw [h])
      else .isFalse (fun hh => h (Except.ok.inj hh))
  | .error a, .error b =>
      if h : a = b then .isTrue (by rw [h])
      else .isFalse (fun hh => h (Except.error.inj hh))
  | .ok _, .error _ => .isFalse (fun hh => Except.noConfusion hh)
  | .error _, .ok _ => .isFalse (fun hh => Except.noConfusion hh)

/-- Is the character an ASCII decimal digit? -/
def isDigitCh (c : Char) : Bool :=
  ('0' ≤ c && c ≤ '9')

/-- Is the character whitespace (the inputs only use blanks and tabs)? -/
def isWsCh (c : Char) : Bool :=
  (c = ' ' || c = '\t')

/-- Numeric value of a digit character. -/
def digitVal (c : Char) : Nat :=
  c.toNat - '0'.toNat

/-- Parse a non-empty all-digit character list as a natural number
(most significant digit first). -/
def parseNatAux : List Char → Nat → Option Nat
  | [], acc => some acc
  | c :: cs, acc =>
      if isDigitCh c then parseNatAux cs (acc * 10 + digitVal c) else none

/-- Python `int(s)` for an unsigned digit string; `none` models `ValueError`. -/
def parseNatStr (s : String) : Option Nat :=
  match s.data with
  | [] => none
  | cs => parseNatAux cs 0

/-- Python `int(s)`: an optional sign followed by digits.  (Python also
tolerates surrounding whitespace and underscores; those shapes never occur
in the data handled here.) -/
def parseIntStr (s : String) : Option Int :=
  match s.data with
  | [] => none
  | '-' :: cs => (parseNatAux cs 0).map (fun n => -(n : Int))
  | '+' :: cs => (parseNatAux cs 0).map (fun n => (n : Int))
  | cs => (parseNatAux cs 0).map (fun n => (n : Int))

/-- Split a character list on whitespace, dropping empty chunks: Python
`str.split()` with no argument. -/
def splitWsAux : List Char → List Char → List String
  | [], [] => []
  | [], acc => [String.mk acc.reverse]
  | c :: cs, acc =>
      if isWsCh c then
        match acc with
        | [] => splitWsAux cs []
        | _ => String.mk acc.reverse :: splitWsAux cs []
      else
        splitWsAux cs (c :: acc)

/-- Python `s.split()`. -/
def splitWs (s : String) : List String :=
  splitWsAux s.data []

/-- Python `s.startswith(p)` on character lists. -/
def startsWithL : List Char → List Char → Bool
  | _, [] => true
  | [], _ :: _ => false
  | c :: cs, p :: ps => (c = p) && startsWithL cs ps

/-- Python `s.startswith(p)`. -/
def pyStartsWith (s p : String) : Bool :=
  startsWithL s.data p.data

/-- Python `s.endswith(p)`. -/
def pyEndsWith (s p : String) : Bool :=
  startsWithL s.data.reverse p.data.reverse

/-- Python `s.rstrip()`: drop trailing whitespace. -/
def pyRstrip (s : String) : String :=
  String.mk (s.data.reverse.dropWhile (fun c => isWsCh c)).reverse

/-- Last character of a string, `none` when empty (Python `s[-1]` raises
`IndexError` on an empty string). -/
def lastChar (s : String) : Option Char :=
  s.data.getLast?

/-- Leading run of digits of a character list, and the remainder. -/
def takeDigits : List Char → List Char × List Char
  | [] => ([], [])
  | c :: cs =>
      if isDigitCh c then
        let (d, r) := takeDigits cs
        (c :: d, r)
      else ([], c :: cs)

/-- Value of a digit list, most significant first. -/
def digitsVal (ds : List Char) : Nat :=
  ds.foldl (fun a c => a * 10 + digitVal c) 0

/-- Python `float(s)` for finite decimal notation (optional sign, digits,
optional fraction, optional `e`/`E` exponent), as an exact rational.
Shapes such as `inf`, `nan` or underscores are not modelled; they do not
occur in the fields the claims touch (floats are modelled as exact
rationals throughout, see the file comment). -/
def parseFloatQ (s : String) : Option ℚ :=
  let expPart : List Char → Option Int := fun es =>
    match es with
    | '-' :: ds => if ds = [] ∨ ¬(ds.all (fun c => isDigitCh c)) then none
                   else some (-(digitsVal ds : Int))
    | '+' :: ds => if ds = [] ∨ ¬(ds.all (fun c => isDigitCh c)) then none
                   else some (digitsVal ds : Int)
    | ds => if ds = [] ∨ ¬(ds.all (fun c => isDigitCh c)) then none
            else some (digitsVal ds : Int)
  let go : List Char → Option ℚ := fun cs =>
    let (ip, r1) := takeDigits cs
    let (fp, r2) :=
      match r1 with
      | '.' :: rest => takeDigits rest
      | _ => ([], r1)
    if ip = [] ∧ fp = [] then none
    else
      -- value = digits(ip ++ fp) / 10 ^ |fp|, then scaled by 10 ^ exp;
      -- assembled through integer arithmetic and one `mkRat`.
      let m : Nat := digitsVal (ip ++ fp)
      let d : Nat := 10 ^ fp.length
      match r2 with
      | [] => some (mkRat m d)
      | 'e' :: es => (expPart es).map (fun e =>
          if 0 ≤ e then mkRat (m * 10 ^ e.toNat) d
          else mkRat m (d * 10 ^ (-e).toNat))
      | 'E' :: es => (expPart es).map (fun e =>
          if 0 ≤ e then mkRat (m * 10 ^ e.toNat) d
          else mkRat m (d * 10 ^ (-e).toNat))
      | _ => none
  match s.data with
  | '-' :: cs => (go cs).map Neg.neg
  | '+' :: cs => go cs
  | cs => go cs

/-- Python `l[i]`, raising `IndexError` when out of range. -/
def pyGet (l : List α) (i : Nat) : Except PyErr α :=
  match l[i]? with
  | some a => .ok a
  | none => .error .indexError

/-- Left-to-right effectful map over `Except` (a Python `for` loop building
a list, stopping at the first exception). -/
def mapE (f : α → Except PyErr β) : List α → Except PyErr (List β)
  | [] => .ok []
  | a :: as =>
      match f a with
      | .error e => .error e
      | .ok b =>
        match mapE f as with
        | .error e => .error e
        | .ok bs => .ok (b :: bs)

/-- Python `" ".join(tokens)`. -/
def joinSp : List String → String
  | [] => ""
  | [t] => t
  | t :: rest => t ++ " " ++ joinSp rest

/-- Python `str.splitlines()` for newline-separated text (a trailing
newline produces no empty final line; `\r` line endings are not
modelled). -/
def splitLinesAux : List Char → List Char → List String
  | [], [] => []
  | [], acc => [String.mk acc.reverse]
  | c :: cs, acc =>
      if c = '\n' then String.mk acc.reverse :: splitLinesAux cs []
      else splitLinesAux cs (c :: acc)

/-- Python `s.splitlines()`. -/
def splitLines (s : String) : List String :=
  splitLinesAux s.data []

/- ===================  acis.py : data model  =================== -/

/-- `AcisHeader` of `acis.py`.  `creation_date` is informational: `acis.py`
parses it with `datetime.strptime` and silently falls back to "now"; here
the raw date token is kept verbatim and the `datetime` validation is not
modelled (no claim reads this field). -/
structure AcisHeader where
  version : Int := 400
  n_records : Int := 0
  n_entities : Int := 0
  history_flag : Int := 0
  product_id : String := "ezdxf ACIS Builder"
  acis_version : String := "ACIS 4.00 NT"
  creation_date : String := ""
  units_in_mm : ℚ := 1
  deriving Repr, DecidableEq

/-- `Record` of `acis.py`: running number and raw tokens. -/
structure SatRecord where
  num : Int
  tokens : List String
  deriving Repr, DecidableEq

/-- An `AcisEntity` of `acis.py` before pointer resolution: `attr_ptr` and
the data tokens are still raw strings. -/
structure RawEnt where
  name : String
  attr_ptr : String
  id : Int
  data : List String
  deriving Repr, DecidableEq

/-- A resolved reference: the `NULL_PTR` singleton or the entity stored
under dict key `k`.  Python references are object identities; each dict
value is a distinct object, so the dict key is a faithful identity. -/
inductive RRef where
  | null
  | key (k : Int)
  deriving Repr, DecidableEq

/-- A data item of a resolved `AcisEntity`: an entity reference or an
untouched string token. -/
inductive RTok where
  | ent (r : RRef)
  | tok (s : String)
  deriving Repr, DecidableEq

/-- An `AcisEntity` of `acis.py` after `resolve_str_pointers`. -/
structure ResEnt where
  name : String
  id : Int
  attr : RRef
  data : List RTok
  deriving Repr, DecidableEq

/-- `is_ptr` of `acis.py`: does the token denote an entity pointer? -/
def isPtr (s : String) : Bool :=
  match s.data with
  | [] => false
  | c :: _ => c = '$'

/-- Python dict assignment `d[k] = v` on an association list: replaces the
value at an existing key in place, else appends. -/
def dictInsert : List (Int × α) → Int → α → List (Int × α)
  | [], k, v => [(k, v)]
  | (k', v') :: rest, k, v =>
      if k' = k then (k, v) :: rest else (k', v') :: dictInsert rest k v

/-- Python dict lookup `d[k]` as an option. -/
def dictFind : List (Int × α) → Int → Option α
  | [], _ => none
  | (k', v) :: rest, k => if k' = k then some v else dictFind rest k

/-- Stable insertion into a key-sorted list (for Python `sorted`). -/
def insertByKey (p : Int × α) : List (Int × α) → List (Int × α)
  | [] => [p]
  | q :: rest => if p.1 ≤ q.1 then p :: q :: rest else q :: insertByKey p rest

/-- Python `sorted(d.items())` (keys are unique, so stability is moot). -/
def sortByKey : List (Int × α) → List (Int × α)
  | [] => []
  | p :: rest => insertByKey p (sortByKey rest)

/- ===================  acis.py : parsing  =================== -/

/-- `_parse_header_str` of `acis.py`: the state machine collecting
length-prefixed strings, translated character by character. -/
def parseHeaderStrAux : List Char → List Char → Nat → List Char → List String
  | [], _, _, _ => []
  | c :: cs, num, collect, token =>
      if 0 < collect then
        let token' := token ++ [c]
        if collect - 1 = 0 then String.mk token' :: parseHeaderStrAux cs num 0 []
        else parseHeaderStrAux cs num (collect - 1) token'
      else if c = '@' then parseHeaderStrAux cs num 0 token
      else if isDigitCh c then parseHeaderStrAux cs (num ++ [c]) 0 token
      else if c = ' ' ∧ num ≠ [] then parseHeaderStrAux cs [] (digitsVal num) token
      else parseHeaderStrAux cs num 0 token

/-- `_parse_header_str` of `acis.py`. -/
def parseHeaderStr (s : String) : List String :=
  parseHeaderStrAux (pyRstrip s).data [] 0 []

/-- `parse_sat_header` of `acis.py`: version line (trailing counts are
best-effort), product/version/date line, units line; returns the header
and the remaining lines. -/
def parseSatHeader (data : List String) : Except PyErr (AcisHeader × List String) := do
  let line0 ← pyGet data 0
  let tokens := splitWs line0
  let tok0 ← pyGet tokens 0
  let version ←
    match parseIntStr tok0 with
    | some v => Except.ok v
    | none => Except.error (.valueError "invalid literal for int()")
  let h : AcisHeader := { version := version }
  -- try: n_records / n_entities / history_flag; except (IndexError, ValueError): pass
  let h :=
    match tokens[1]?.bind parseIntStr with
    | none => h
    | some nr =>
      let h := { h with n_records := nr }
      match tokens[2]?.bind parseIntStr with
      | none => h
      | some ne =>
        let h := { h with n_entities := ne }
        match tokens[3]?.bind parseIntStr with
        | none => h
        | some hf => { h with history_flag := hf }
  let line1 ← pyGet data 1
  let toks := parseHeaderStr line1
  -- try: product_id / acis_version; except IndexError: pass
  let h :=
    match toks[0]? with
    | none => h
    | some p =>
      let h := { h with product_id := p }
      match toks[1]? with
      | none => h
      | some a => { h with acis_version := a }
  -- if len(tokens) > 2: creation date (strptime not modelled, raw token kept)
  let h :=
    match toks[2]? with
    | none => h
    | some d => { h with creation_date := d }
  let line2 ← pyGet data 2
  let h :=
    match (splitWs line2)[0]?.bind parseFloatQ with
    | none => h
    | some u => { h with units_in_mm := u }
  Except.ok (h, data.drop 3)

/-- `_merge_record_strings` of `acis.py`: accumulate physical lines into
one logical record until a line ends with `#`; stop at the end-of-data or
history markers.  `s[-1]` on an empty accumulated line is Python's
`IndexError`. -/
def mergeAux : List String → String → Except PyErr (List String)
  | [], _ => .ok []
  | line :: rest, cur =>
      if pyStartsWith line "End-of-ACIS-data" ∨
         pyStartsWith line "Begin-of-ACIS-History-Data" then
        .ok []
      else
        let cur' := cur ++ line
        match lastChar cur' with
        | none => .error .indexError
        | some c =>
          if c = '#' then
            match mergeAux rest "" with
            | .error e => .error e
            | .ok tail => .ok (cur' :: tail)
          else if c ≠ ' ' then mergeAux rest (cur' ++ " ")
          else mergeAux rest cur'

/-- `_merge_record_strings` of `acis.py`. -/
def mergeRecordStrings (data : List String) : Except PyErr (List String) :=
  mergeAux data ""

/-- Loop body of `parse_records` of `acis.py`: the running counter starts
at `num`; a first token `-N` renumbers the record to `N` (the directive
token is popped); the trailing `#` token is dropped; the counter then
advances by one. -/
def parseRecordsAux : List String → Int → Except PyErr (List SatRecord)
  | [], _ => .ok []
  | line :: rest, num =>
      let tokens := splitWs line
      match pyGet tokens 0 with
      | .error e => .error e
      | .ok first =>
        if pyStartsWith first "-" then
          match parseIntStr first with
          | none => .error (.valueError "invalid literal for int()")
          | some k =>
            match parseRecordsAux rest (-k + 1) with
            | .error e => .error e
            | .ok tail => .ok (SatRecord.mk (-k) (tokens.drop 1).dropLast :: tail)
        else
          match parseRecordsAux rest (num + 1) with
          | .error e => .error e
          | .ok tail => .ok (SatRecord.mk num tokens.dropLast :: tail)

/-- `parse_records` of `acis.py`. -/
def parseRecords (data : List String) : Except PyErr (List SatRecord) :=
  match mergeRecordStrings data with
  | .error e => .error e
  | .ok lines => parseRecordsAux lines 0

/-- `build_entities` of `acis.py`: one raw entity per record, keyed by the
record number (later duplicates overwrite, as in a Python dict); at
version ≥ 700 the third token is the integer entity id. -/
def buildEntitiesAux : List SatRecord → Int → List (Int × RawEnt) →
    Except PyErr (List (Int × RawEnt))
  | [], _, acc => .ok acc
  | r :: rs, version, acc => do
      let name ← pyGet r.tokens 0
      let attr ← pyGet r.tokens 1
      if version ≥ 700 then do
        let idTok ← pyGet r.tokens 2
        match parseIntStr idTok with
        | none => .error (.valueError "invalid literal for int()")
        | some id =>
          buildEntitiesAux rs version
            (dictInsert acc r.num ⟨name, attr, id, r.tokens.drop 3⟩)
      else
        buildEntitiesAux rs version
          (dictInsert acc r.num ⟨name, attr, -1, r.tokens.drop 2⟩)

/-- `build_entities` of `acis.py`. -/
def buildEntities (records : List SatRecord) (version : Int) :
    Except PyErr (List (Int × RawEnt)) :=
  buildEntitiesAux records version []

/-- The inner `ptr` function of `resolve_str_pointers`: `$-1` is the
`NULL_PTR` singleton; any other `$n` is looked up in the dict (a missing
key is Python's `KeyError`); a non-pointer token is a `ValueError`. -/
def resolvePtr (dict : List (Int × RawEnt)) (s : String) : Except PyErr RRef :=
  if isPtr s then
    match parseIntStr (String.mk s.data.tail) with
    | none => .error (.valueError "invalid literal for int()")
    | some num =>
      if num = -1 then .ok .null
      else
        match dictFind dict num with
        | some _ => .ok (.key num)
        | none => .error .keyError
  else .error (.valueError ("not a pointer: " ++ s))

/-- Per-entity body of `resolve_str_pointers`: the attribute pointer and
every pointer-shaped data token are resolved; other tokens are kept. -/
def resolveEntity (dict : List (Int × RawEnt)) (e : RawEnt) :
    Except PyErr ResEnt :=
  match resolvePtr dict e.attr_ptr with
  | .error err => .error err
  | .ok attr =>
    match mapE (fun t =>
      if isPtr t then (resolvePtr dict t).map RTok.ent else .ok (.tok t)) e.data with
    | .error err => .error err
    | .ok data => .ok ⟨e.name, e.id, attr, data⟩

/-- `resolve_str_pointers` of `acis.py`: resolve every entity of the dict,
then return the entities sorted by record number (the key tags model
Python object identity and correspond to `sorted(entities.items())`). -/
def resolveStrPointers (dict : List (Int × RawEnt)) :
    Except PyErr (List (Int × ResEnt)) :=
  match mapE (fun p => (resolveEntity dict p.2).map (fun e => (p.1, e))) dict with
  | .error err => .error err
  | .ok rs => .ok (sortByKey rs)

/- ===================  acis.py : export  =================== -/

/-- Position of the entity with identity key `k` in the storage list:
Python `entities.index(e)` (list search by object identity). -/
def posOfKey : List (Int × ResEnt) → Int → Option Nat
  | [], _ => none
  | (k', _) :: rest, k =>
      if k' = k then some 0 else (posOfKey rest k).map (· + 1)

/-- The inner `ptr_str` of `build_str_records`: `NULL_PTR` serializes as
`$-1`; any other entity serializes as `$index` of its position in the
storage, and an entity absent from the storage raises
`InvalidLinkStructure`. -/
def ptrStr (entities : List (Int × ResEnt)) (r : RRef) : Except PyErr String :=
  match r with
  | .null => .ok "$-1"
  | .key k =>
    match posOfKey entities k with
    | some i => .ok ("$" ++ toString i)
    | none => .error (.invalidLink "entity not in record storage")

/-- Token list of one record of `build_str_records`: name, attribute
pointer, the id at version ≥ 700, the data tokens, and the `#` marker. -/
def recordTokens (version : Int) (entities : List (Int × ResEnt)) (e : ResEnt) :
    Except PyErr (List String) :=
  match ptrStr entities e.attr with
  | .error err => .error err
  | .ok attrTok =>
    match mapE (fun t =>
      match t with
      | .ent r => ptrStr entities r
      | .tok s => .ok s) e.data with
    | .error err => .error err
    | .ok dataToks =>
      .ok ([e.name, attrTok] ++ (if version ≥ 700 then [toString e.id] else [])
            ++ dataToks ++ ["#"])

/-- `build_str_records` of `acis.py` (the generator, fully consumed as in
`dump_sat`): one line per stored entity. -/
def buildStrRecords (entities : List (Int × ResEnt)) (version : Int) :
    Except PyErr (List String) :=
  mapE (fun p => (recordTokens version entities p.2).map joinSp) entities

/- ===================  acis.py : parse_sat  =================== -/

/-- `AcisBuilder` of `acis.py` (the fields the claims read). -/
structure AcisBuilder where
  header : AcisHeader
  bodies : List (Int × ResEnt)
  entities : List (Int × ResEnt)
  deriving Repr, DecidableEq

/-- `parse_sat` of `acis.py` on a list of lines: header, records, raw
entities, pointer resolution, and the body list (`set_entities`). -/
def parseSatLines (data : List String) : Except PyErr AcisBuilder := do
  let (header, rest) ← parseSatHeader data
  let records ← parseRecords rest
  let ents ← buildEntities records header.version
  let resolved ← resolveStrPointers ents
  .ok ⟨header, resolved.filter (fun p => p.2.name = "body"), resolved⟩

/-- `parse_sat` of `acis.py` on a single string (split into lines). -/
def parseSatStr (s : String) : Except PyErr AcisBuilder :=
  parseSatLines (splitLines s)

/- ===================  helper lemmas  =================== -/

theorem mapE_ok_length (f : α → Except PyErr β) :
    ∀ (l : List α) (out : List β), mapE f l = .ok out → out.length = l.length := by
  intro l
  induction l with
  | nil => intro out h; simp only [mapE, Except.ok.injEq] at h; simp [← h]
  | cons a as ih =>
      intro out h
      simp only [mapE] at h
      cases hfa : f a with
      | error e => rw [hfa] at h; exact absurd h (by simp)
      | ok b =>
          rw [hfa] at h
          cases hm : mapE f as with
          | error e => rw [hm] at h; exact absurd h (by simp)
          | ok bs =>
              rw [hm] at h
              simp only [Except.ok.injEq] at h
              simp [← h, ih bs hm]

theorem mapE_ok_get (f : α → Except PyErr β) :
    ∀ (l : List α) (out : List β), mapE f l = .ok out →
      ∀ (j : Nat) (x : α), l[j]? = some x →
        ∃ y, f x = .ok y ∧ out[j]? = some y := by
  intro l
  induction l with
  | nil => intro out _ j x hx; simp at hx
  | cons a as ih =>
      intro out h j x hx
      simp only [mapE] at h
      cases hfa : f a with
      | error e => rw [hfa] at h; exact absurd h (by simp)
      | ok b =>
          rw [hfa] at h
          cases hm : mapE f as with
          | error e => rw [hm] at h; exact absurd h (by simp)
          | ok bs =>
              rw [hm] at h
              simp only [Except.ok.injEq] at h
              subst h
              cases j with
              | zero =>
                  simp only [List.getElem?_cons_zero, Option.some.injEq] at hx
                  subst hx
                  exact ⟨b, hfa, by simp⟩
              | succ j =>
                  simp only [List.getElem?_cons_succ] at hx ⊢
                  exact ih bs hm j x hx

theorem mapE_ok_mem (f : α → Except PyErr β) :
    ∀ (l : List α) (out : List β), mapE f l = .ok out →
      ∀ x ∈ l, ∃ y, f x = .ok y := by
  intro l
  induction l with
  | nil => intro out _ x hx; simp at hx
  | cons a as ih =>
      intro out h x hx
      simp only [mapE] at h
      cases hfa : f a with
      | error e => rw [hfa] at h; exact absurd h (by simp)
      | ok b =>
          rw [hfa] at h
          cases hm : mapE f as with
          | error e => rw [hm] at h; exact absurd h (by simp)
          | ok bs =>
              rcases List.mem_cons.mp hx with rfl | hx'
              · exact ⟨b, hfa⟩
              · exact ih bs hm x hx'

theorem mapE_error_mem (f : α → Except PyErr β) :
    ∀ (l : List α) (err : PyErr), mapE f l = .error err →
      ∃ x ∈ l, f x = .error err := by
  intro l
  induction l with
  | nil => intro err h; simp [mapE] at h
  | cons a as ih =>
      intro err h
      simp only [mapE] at h
      cases hfa : f a with
      | error e =>
          rw [hfa] at h
          simp only [Except.error.injEq] at h
          exact ⟨a, by simp, by rw [hfa, h]⟩
      | ok b =>
          rw [hfa] at h
          cases hm : mapE f as with
          | error e =>
              rw [hm] at h
              simp only [Except.error.injEq] at h
              rcases ih e hm with ⟨x, hx, hfx⟩
              exact ⟨x, by simp [hx], by rw [hfx, h]⟩
          | ok bs => rw [hm] at h; exact absurd h (by simp)

/- ===================  null sentinel (C3)  =================== -/

/-- The reference positions of a resolved entity: the attribute reference
followed by the entity references among the data items. -/
def entRefs (e : ResEnt) : List RRef :=
  e.attr :: e.data.filterMap (fun t =>
    match t with
    | .ent r => some r
    | .tok _ => none)

/-- Membership of a reference target in the export storage (the null
sentinel needs no membership). -/
def memberRef (entities : List (Int × ResEnt)) : RRef → Prop
  | .null => True
  | .key k => posOfKey entities k ≠ none

theorem resolvePtr_null_tok (dict : List (Int × RawEnt)) :
    resolvePtr dict "$-1" = .ok .null := rfl

theorem resolveEntity_ok_parts (dict : List (Int × RawEnt)) (e : RawEnt)
    (out : ResEnt) (h : resolveEntity dict e = .ok out) :
    ∃ attr data,
      resolvePtr dict e.attr_ptr = .ok attr ∧
      mapE (fun t =>
        if isPtr t then (resolvePtr dict t).map RTok.ent else .ok (.tok t))
        e.data = .ok data ∧
      out = ⟨e.name, e.id, attr, data⟩ := by
  unfold resolveEntity at h
  cases ha : resolvePtr dict e.attr_ptr with
  | error err => rw [ha] at h; exact absurd h (by simp)
  | ok attr =>
      rw [ha] at h
      cases hd : mapE (fun t =>
        if isPtr t then (resolvePtr dict t).map RTok.ent else .ok (.tok t))
        e.data with
      | error err => rw [hd] at h; exact absurd h (by simp)
      | ok data =>
          rw [hd] at h
          simp only [Except.ok.injEq] at h
          exact ⟨attr, data, rfl, rfl, h.symm⟩

theorem recordTokens_ok_parts (v : Int) (es : List (Int × ResEnt)) (e : ResEnt)
    (toks : List String) (h : recordTokens v es e = .ok toks) :
    ∃ attrTok dataToks,
      ptrStr es e.attr = .ok attrTok ∧
      mapE (fun t =>
        match t with
        | RTok.ent r => ptrStr es r
        | RTok.tok s => .ok s) e.data = .ok dataToks ∧
      toks = [e.name, attrTok] ++ (if v ≥ 700 then [toString e.id] else [])
              ++ dataToks ++ ["#"] := by
  unfold recordTokens at h
  cases ha : ptrStr es e.attr with
  | error err => rw [ha] at h; exact absurd h (by simp)
  | ok attrTok =>
      rw [ha] at h
      cases hd : mapE (fun t =>
        match t with
        | RTok.ent r => ptrStr es r
        | RTok.tok s => .ok s) e.data with
      | error err => rw [hd] at h; exact absurd h (by simp)
      | ok dataToks =>
          rw [hd] at h
          simp only [Except.ok.injEq] at h
          exact ⟨attrTok, dataToks, rfl, rfl, h.symm⟩

/-- C3: on load every pointer token `$-1` resolves to the null sentinel
(stated for the `ptr` helper and for every data position of
`resolve_str_pointers`' per-entity body), and on export the null sentinel
always serializes back to `$-1` (stated for `ptr_str` and for the
attribute token and every data token of a `build_str_records` record). -/
theorem C3_null_sentinel :
    (∀ dict : List (Int × RawEnt), resolvePtr dict "$-1" = .ok .null) ∧
    (∀ (dict : List (Int × RawEnt)) (e : RawEnt) (out : ResEnt),
        resolveEntity dict e = .ok out →
          (e.attr_ptr = "$-1" → out.attr = .null) ∧
          (∀ j : Nat, e.data[j]? = some "$-1" →
             out.data[j]? = some (.ent .null))) ∧
    (∀ entities : List (Int × ResEnt), ptrStr entities .null = .ok "$-1") ∧
    (∀ (v : Int) (es : List (Int × ResEnt)) (e : ResEnt) (toks : List String),
        recordTokens v es e = .ok toks →
          ∃ attrTok dataToks,
            toks = [e.name, attrTok]
                    ++ (if v ≥ 700 then [toString e.id] else [])
                    ++ dataToks ++ ["#"] ∧
            (e.attr = .null → attrTok = "$-1") ∧
            (∀ j : Nat, e.data[j]? = some (.ent .null) →
               dataToks[j]? = some "$-1")) := by
  refine ⟨fun _ => rfl, ?_, fun _ => rfl, ?_⟩
  · intro dict e out h
    obtain ⟨attr, data, ha, hd, hout⟩ := resolveEntity_ok_parts dict e out h
    subst hout
    constructor
    · intro hattr
      rw [hattr, resolvePtr_null_tok] at ha
      simpa using ha.symm
    · intro j hj
      obtain ⟨y, hy, hget⟩ := mapE_ok_get _ e.data data hd j _ hj
      have : y = RTok.ent .null := by
        have hiptr : isPtr "$-1" = true := rfl
        rw [if_pos hiptr, resolvePtr_null_tok] at hy
        simpa [Except.map] using hy.symm
      rw [this] at hget
      exact hget
  · intro v es e toks h
    obtain ⟨attrTok, dataToks, ha, hd, htoks⟩ := recordTokens_ok_parts v es e toks h
    refine ⟨attrTok, dataToks, htoks, ?_, ?_⟩
    · intro hattr
      rw [hattr] at ha
      simpa [ptrStr] using ha.symm
    · intro j hj
      obtain ⟨y, hy, hget⟩ := mapE_ok_get _ e.data dataToks hd j _ hj
      have : y = "$-1" := by simpa [ptrStr] using hy.symm
      rw [this] at hget
      exact hget

/-- Witness for C3: a concrete entity whose attribute pointer and first
data token are `$-1` resolves both to the null sentinel, and a concrete
record with a null attribute and a null data reference serializes both
back to `$-1`. -/
theorem C3_null_sentinel_witness :
    resolvePtr ([] : List (Int × RawEnt)) "$-1" = .ok .null ∧
    (∃ out : ResEnt,
      resolveEntity [(0, ⟨"body", "$-1", -1, ["$-1", "x"]⟩)]
        ⟨"body", "$-1", -1, ["$-1", "x"]⟩ = .ok out ∧
      out.attr = .null ∧ out.data[0]? = some (.ent .null)) ∧
    (∃ (toks : List String) (attrTok : String) (dataToks : List String),
      recordTokens 700 [(0, ⟨"body", -1, .null, [.ent .null]⟩)]
        ⟨"body", -1, .null, [.ent .null]⟩ = .ok toks ∧
      toks = ["body", attrTok, "-1"] ++ dataToks ++ ["#"] ∧
      attrTok = "$-1" ∧ dataToks[0]? = some "$-1") := by
  have hres : resolveEntity [(0, ⟨"body", "$-1", -1, ["$-1", "x"]⟩)]
      ⟨"body", "$-1", -1, ["$-1", "x"]⟩ =
      .ok ⟨"body", -1, .null, [.ent .null, .tok "x"]⟩ := rfl
  have hrec : recordTokens 700 [(0, ⟨"body", -1, .null, [.ent .null]⟩)]
      ⟨"body", -1, .null, [.ent .null]⟩ =
      .ok ["body", "$-1", "-1", "$-1", "#"] := rfl
  refine ⟨C3_null_sentinel.1 [], ⟨_, hres,
    (C3_null_sentinel.2.1 _ _ _ hres).1 rfl,
    (C3_null_sentinel.2.1 _ _ _ hres).2 0 rfl⟩, ?_⟩
  obtain ⟨a, d, ht, hat, hd⟩ := C3_null_sentinel.2.2.2 700 _ _ _ hrec
  refine ⟨_, a, d, hrec, ?_, hat rfl, hd 0 rfl⟩
  rw [ht]
  have hif : ((if (700 : Int) ≥ 700 then [toString (-1 : Int)] else []) :
      List String) = ["-1"] := rfl
  have hts : toString (-1 : Int) = "-1" := rfl
  simp [hif, hts]

/- ===================  invalid links (C4)  =================== -/

theorem ptrStr_ok_member (es : List (Int × ResEnt)) (r : RRef) (s : String)
    (h : ptrStr es r = .ok s) : memberRef es r := by
  cases r with
  | null => trivial
  | key k =>
      simp only [memberRef]
      intro hnone
      simp only [ptrStr, hnone] at h
      exact absurd h (by simp)

theorem ptrStr_error_kind (es : List (Int × ResEnt)) (r : RRef) (err : PyErr)
    (h : ptrStr es r = .error err) : ∃ m, err = .invalidLink m := by
  cases r with
  | null => exact absurd h (by simp [ptrStr])
  | key k =>
      simp only [ptrStr] at h
      cases hp : posOfKey es k with
      | some i => rw [hp] at h; exact absurd h (by simp)
      | none =>
          rw [hp] at h
          simp only [Except.error.injEq] at h
          exact ⟨_, h.symm⟩

theorem dataTok_error_kind (es : List (Int × ResEnt)) (t : RTok) (err : PyErr)
    (h : (match t with
          | RTok.ent r => ptrStr es r
          | RTok.tok s => Except.ok s) = .error err) :
    ∃ m, err = .invalidLink m := by
  cases t with
  | ent r => exact ptrStr_error_kind es r err h
  | tok s => exact absurd h (by simp)

theorem recordTokens_ok_refs (v : Int) (es : List (Int × ResEnt)) (e : ResEnt)
    (toks : List String) (h : recordTokens v es e = .ok toks) :
    ∀ r ∈ entRefs e, memberRef es r := by
  obtain ⟨attrTok, dataToks, ha, hd, _⟩ := recordTokens_ok_parts v es e toks h
  intro r hr
  rcases List.mem_cons.mp hr with rfl | hr'
  · exact ptrStr_ok_member es e.attr attrTok ha
  · rcases List.mem_filterMap.mp hr' with ⟨t, ht, htr⟩
    obtain ⟨y, hy⟩ := mapE_ok_mem _ e.data dataToks hd t ht
    cases t with
    | ent r' =>
        simp only [Option.some.injEq] at htr
        subst htr
        exact ptrStr_ok_member es r' y hy
    | tok s => exact absurd htr (by simp)

theorem recordTokens_error_kind (v : Int) (es : List (Int × ResEnt))
    (e : ResEnt) (err : PyErr) (h : recordTokens v es e = .error err) :
    ∃ m, err = .invalidLink m := by
  unfold recordTokens at h
  cases ha : ptrStr es e.attr with
  | error e' =>
      rw [ha] at h
      simp only [Except.error.injEq] at h
      subst h
      exact ptrStr_error_kind es e.attr _ ha
  | ok attrTok =>
      rw [ha] at h
      cases hd : mapE (fun t =>
        match t with
        | RTok.ent r => ptrStr es r
        | RTok.tok s => .ok s) e.data with
      | error e' =>
          rw [hd] at h
          simp only [Except.error.injEq] at h
          subst h
          obtain ⟨t, _, hft⟩ := mapE_error_mem _ e.data _ hd
          exact dataTok_error_kind es t _ hft
      | ok dataToks => rw [hd] at h; exact absurd h (by simp)

theorem buildStrRecords_error_kind (es : List (Int × ResEnt)) (v : Int)
    (err : PyErr) (h : buildStrRecords es v = .error err) :
    ∃ m, err = .invalidLink m := by
  obtain ⟨p, _, hp⟩ := mapE_error_mem _ es err h
  cases hr : recordTokens v es p.2 with
  | error e' =>
      rw [hr] at hp
      simp only [Except.map] at hp
      simp only [Except.error.injEq] at hp
      subst hp
      exact recordTokens_error_kind v es p.2 _ hr
  | ok toks => rw [hr] at hp; exact absurd hp (by simp [Except.map])

theorem buildStrRecords_ok_refs (es : List (Int × ResEnt)) (v : Int)
    (out : List String) (h : buildStrRecords es v = .ok out) :
    ∀ p ∈ es, ∀ r ∈ entRefs p.2, memberRef es r := by
  intro p hp r hr
  obtain ⟨y, hy⟩ := mapE_ok_mem _ es out h p hp
  cases hrt : recordTokens v es p.2 with
  | error e' => rw [hrt] at hy; exact absurd hy (by simp [Except.map])
  | ok toks => exact recordTokens_ok_refs v es p.2 toks hrt r hr

/-- C4: serializing a reference to an entity that is not a member of the
serialized entity list raises `InvalidLinkStructure` — `build_str_records`
succeeds only when every attribute and data reference of every stored
entity resolves to a member of the storage, and whenever some reference
targets a key absent from the storage the whole export fails with an
`InvalidLinkStructure` error (so a dangling reference is never silently
replaced by a null pointer). -/
theorem C4_invalid_link :
    (∀ (es : List (Int × ResEnt)) (v : Int) (out : List String),
        buildStrRecords es v = .ok out →
          ∀ p ∈ es, ∀ r ∈ entRefs p.2, memberRef es r) ∧
    (∀ (es : List (Int × ResEnt)) (v : Int),
        (∃ p ∈ es, ∃ k : Int, RRef.key k ∈ entRefs p.2 ∧ posOfKey es k = none) →
          ∃ m, buildStrRecords es v = .error (.invalidLink m)) := by
  refine ⟨buildStrRecords_ok_refs, ?_⟩
  intro es v ⟨p, hp, k, hk, hnone⟩
  cases hres : buildStrRecords es v with
  | ok out =>
      have := buildStrRecords_ok_refs es v out hres p hp (RRef.key k) hk
      simp only [memberRef] at this
      exact absurd hnone this
  | error err =>
      obtain ⟨m, hm⟩ := buildStrRecords_error_kind es v err hres
      exact ⟨m, by rw [hm]⟩

/-- Witness for C4: a concrete storage holding one entity whose data
references key 7, which is not stored, fails to serialize with an
`InvalidLinkStructure` error. -/
theorem C4_invalid_link_witness :
    ∃ m, buildStrRecords [(0, ⟨"body", -1, .null, [.ent (.key 7)]⟩)] 700 =
      .error (.invalidLink m) := by
  apply C4_invalid_link.2
  exact ⟨(0, ⟨"body", -1, .null, [.ent (.key 7)]⟩), by simp, 7, by decide, rfl⟩

/- ===================  record numbering (C7)  =================== -/

/-- Decidable well-formedness of a merged record line for the numbering
theorem: the line has a first token, and a first token starting with `-`
parses as an integer (the claim's `-N` directives satisfy this). -/
def wfFirstTokB (line : String) : Bool :=
  match (splitWs line)[0]? with
  | none => false
  | some t => !(pyStartsWith t "-") || (parseIntStr t).isSome

/-- The directive of a merged record line: `some N` when its first token
is `-N` (so `-int(token)` of the source), else `none`. -/
def recDirective (line : String) : Option Int :=
  match (splitWs line)[0]? with
  | none => none
  | some t =>
    if pyStartsWith t "-" then (parseIntStr t).map (fun k => -k) else none

/-- The numbering described by the claim: a record with directive `N`
receives index `N` and the next record continues at `N + 1`; a record
without a directive receives the running counter, which then advances by
one; the counter starts at 0. -/
def claimNums : List (Option Int) → Int → List Int
  | [], _ => []
  | none :: rest, c => c :: claimNums rest (c + 1)
  | some n :: rest, _ => n :: claimNums rest (n + 1)

theorem parseRecordsAux_nums :
    ∀ (lines : List String) (c : Int),
      (∀ l ∈ lines, wfFirstTokB l = true) →
      ∃ recs, parseRecordsAux lines c = .ok recs ∧
        recs.map SatRecord.num = claimNums (lines.map recDirective) c := by
  intro lines
  induction lines with
  | nil => intro c _; exact ⟨[], rfl, rfl⟩
  | cons line rest ih =>
      intro c hwf
      have hw := hwf line (by simp)
      have hrest : ∀ l ∈ rest, wfFirstTokB l = true :=
        fun l hl => hwf l (by simp [hl])
      unfold wfFirstTokB at hw
      cases h0 : (splitWs line)[0]? with
      | none => rw [h0] at hw; exact absurd hw (by simp)
      | some t =>
          rw [h0] at hw
          simp only [Bool.or_eq_true, Bool.not_eq_eq_eq_not, Bool.not_true,
            Option.isSome_iff_exists] at hw
          by_cases hneg : pyStartsWith t "-" = true
          · have hk : ∃ k, parseIntStr t = some k := by
              rcases hw with hw | hw
              · rw [hneg] at hw; exact absurd hw (by simp)
              · exact hw
            obtain ⟨k, hk⟩ := hk
            obtain ⟨recs, h1, h2⟩ := ih (-k + 1) hrest
            refine ⟨SatRecord.mk (-k) ((splitWs line).drop 1).dropLast :: recs, ?_, ?_⟩
            · simp only [parseRecordsAux, pyGet, h0, hneg, if_true, hk, h1]
            · have hdir : recDirective line = some (-k) := by
                simp only [recDirective, h0, hneg, if_true, hk]
                rfl
              simp only [List.map_cons, hdir, claimNums, h2]
          · have hneg' : pyStartsWith t "-" = false := by
              simpa using hneg
            obtain ⟨recs, h1, h2⟩ := ih (c + 1) hrest
            refine ⟨SatRecord.mk c (splitWs line).dropLast :: recs, ?_, ?_⟩
            · simp only [parseRecordsAux, pyGet, h0, hneg', Bool.false_eq_true,
                if_false, h1]
            · have hdir : recDirective line = none := by
                simp only [recDirective, h0, hneg', Bool.false_eq_true, if_false]
              simp only [List.map_cons, hdir, claimNums, h2]

/-- C7: record numbering of `parse_records` — a record line whose first
token is a `-N` directive is assigned index `N`, each following record
without a directive receives the previous index plus one, and without any
directive records are numbered consecutively from 0.  This is stated as:
the numbers of the parsed records equal `claimNums` (the numbering the
claim describes) applied to the per-line directives with starting
counter 0. -/
theorem C7_renumbering (data lines : List String)
    (hm : mergeRecordStrings data = .ok lines)
    (hwf : ∀ l ∈ lines, wfFirstTokB l = true) :
    ∃ recs, parseRecords data = .ok recs ∧
      recs.map SatRecord.num = claimNums (lines.map recDirective) 0 := by
  obtain ⟨recs, h1, h2⟩ := parseRecordsAux_nums lines 0 hwf
  refine ⟨recs, ?_, h2⟩
  unfold parseRecords
  rw [hm]
  exact h1

/-- Witness for C7: the stream `a b # / -5 c # / d # / e #` parses with
record numbers `[0, 5, 6, 7]` — the `-5` directive renumbers its record
to 5 and the following records continue with 6 and 7. -/
theorem C7_renumbering_witness :
    (∃ recs, parseRecords ["a b #", "-5 c #", "d #", "e #"] = .ok recs ∧
      recs.map SatRecord.num =
        claimNums ((["a b #", "-5 c #", "d #", "e #"]).map recDirective) 0) ∧
    claimNums ((["a b #", "-5 c #", "d #", "e #"]).map recDirective) 0 =
      [0, 5, 6, 7] :=
  ⟨C7_renumbering ["a b #", "-5 c #", "d #", "e #"]
      ["a b #", "-5 c #", "d #", "e #"] (by decide) (by decide), by decide⟩

/- ===================  dangling pointers (C5)  =================== -/

/-- C5: resolving a pointer to an unregistered record index raises the
builtin `KeyError` (the bare dict lookup `entities[num]` of
`resolve_str_pointers`), not the library's `ParsingError` — here the
record `body $-1 -1 $5 $-1 $-1 #` references record 5, no record 5
exists, and `parse_sat` fails with `KeyError`. -/
theorem C5_dangling_keyerror :
    parseSatLines ["700 0 0 0 ", "@4 test @4 test ", "1 ",
      "body $-1 -1 $5 $-1 $-1 #"] = .error .keyError := rfl

/-- General form for C5: whenever a pointer token `$n` names a key not in
the dict (and `n ≠ -1`), the `ptr` helper of `resolve_str_pointers`
raises `KeyError`. -/
theorem C5_dangling_keyerror_general
    (dict : List (Int × RawEnt)) (s : String) (n : Int)
    (hptr : isPtr s = true) (hn : parseIntStr (String.mk s.data.tail) = some n)
    (hne : n ≠ -1) (hmiss : dictFind dict n = none) :
    resolvePtr dict s = .error .keyError := by
  unfold resolvePtr
  rw [if_pos hptr, hn]
  show (if n = -1 then (Except.ok RRef.null : Except PyErr RRef)
        else match dictFind dict n with
          | some _ => Except.ok (RRef.key n)
          | none => Except.error PyErr.keyError) = Except.error PyErr.keyError
  rw [if_neg hne, hmiss]

/-- Witness for the general C5 theorem: `$5` against an empty dict. -/
theorem C5_dangling_keyerror_general_witness :
    resolvePtr [] "$5" = .error .keyError :=
  C5_dangling_keyerror_general [] "$5" 5 (by decide) (by decide)
    (by decide) (by decide)

/- ===================  concrete scenario (C9)  =================== -/

/-- C9 counterexample: the claimed stream — header `700 10 5 0`, a
product/version line, a units line, and the single record
`body $-1 $2 $-1 $-1 #` — does not load: at version ≥ 700 the third
record token must be the integer entity id, and `int("$2")` raises
`ValueError`. -/
theorem C9_counterexample :
    parseSatLines ["700 10 5 0 ", "@4 test @4 test ", "1 ",
      "body $-1 $2 $-1 $-1 #"] =
    .error (.valueError "invalid literal for int()") := rfl

/-- C9 amended: with the id token present (`body $-1 -1 $2 $-1 $-1 #`)
and records 1 and 2 present so that the written pointer index 2 exists,
loading succeeds and yields exactly one body, whose lump reference
resolves to the record with index 2 and whose wire and transform
references are the null sentinel. -/
theorem C9_amended_scenario :
    parseSatLines ["700 10 5 0 ", "@4 test @4 test ", "1 ",
      "body $-1 -1 $2 $-1 $-1 #", "lump $-1 -1 $-1 $-1 $0 #",
      "lump $-1 -1 $-1 $-1 $0 #"] =
    .ok ⟨⟨700, 10, 5, 0, "test", "test", "", 1⟩,
      [(0, ⟨"body", -1, .null, [.ent (.key 2), .ent .null, .ent .null]⟩)],
      [(0, ⟨"body", -1, .null, [.ent (.key 2), .ent .null, .ent .null]⟩),
       (1, ⟨"lump", -1, .null, [.ent .null, .ent .null, .ent (.key 0)]⟩),
       (2, ⟨"lump", -1, .null, [.ent .null, .ent .null, .ent (.key 0)]⟩)]⟩ := by decide

end Acis

namespace AcisEnt

open Acis (PyErr)

/- ===================  entities.py : versions & thresholds  =================== -/

/-- Modelled from the spec: `const.is_valid_export_version` is in the
missing `const.py`; §6 requires version ≥ 700 and rejects unrecognized
codes, and the version table holds the codes 400, 700 and 20800 (400 is
below the export minimum). -/
def validExportVersion (v : Int) : Bool :=
  v = 700 || v = 20800

/-- Modelled from the spec: the numeric value of `Features.PATTERN`
(missing `const.py`).  §4.4 places the pattern back-reference threshold
strictly below the tolerance-modeling threshold; only
`PATTERN ≤ TOL_MODELING ≤ 700` (the minimum export version) is relevant
to the claims, so the value 600 stands in for the unknown constant. -/
def featPATTERN : Int := 600

/-- Modelled from the spec: the numeric value of `Features.TOL_MODELING`
(missing `const.py`).  Edge start/end parameters and the convexity
string exist from this threshold on (§4.4); `Edge.write_common` is
documented in src as "write support >= version 700 only", so the
threshold is at most 700, and tolerant modeling is an ACIS 7.0 feature. -/
def featTOL_MODELING : Int := 700

/- ===================  entities.py : data model  =================== -/

/-- A typed entity reference: the `NONE_REF` sentinel of `entities.py`
or the entity stored at arena index `i`.  The arena-index representation
models Python object identity (design note §9: handles into an arena). -/
inductive ERef where
  | none
  | ent (i : Nat)
  deriving Repr, DecidableEq

/-- A data token of a SAT record at the typed layer.  Modelled from the
spec: the string framing of the missing `sat.py` is elided — a record's
data is the list of its typed tokens (§4.2): a pointer token `$n`/`$-1`,
a numeric token (exact rational standing for the trimmed general
notation of §4.1), or a string token (named-pair booleans, string
constants and user strings; the `@`-length prefix convention is folded
into the single token). -/
inductive DTok where
  | ptr (r : Option Nat)
  | num (q : ℚ)
  | str (s : String)
  deriving Repr, DecidableEq

/-- A serialized SAT record at the typed layer: type name, attribute
pointer, integer id (dense export index, §3 invariant b), data tokens. -/
structure SRecord where
  name : String
  attr : Option Nat
  id : Int
  data : List DTok
  deriving Repr, DecidableEq

/-- A vector of the opaque external math library, as exact components. -/
structure V3 where
  x : ℚ
  y : ℚ
  z : ℚ
  deriving Repr, DecidableEq

/-- The typed entity kinds of `entities.py` with their fields, in the
order their `restore_common`/`restore_data` read them (which is the
order the writers emit them).  Intervals (`read_interval`) are
`Option ℚ` with `none` for the unbounded token `I`; `transform` holds
the 16 entries of the `Matrix44` in row-major order (the external math
library's representation); `unsupported` is the catch-all for
unregistered type names and carries no data. -/
inductive TEntity where
  | body (pattern lump wire transform : ERef)
  | lump (pattern next_lump shell body : ERef)
  | shell (pattern next_shell subshell face wire lump : ERef)
  | subshell (pattern : ERef)
  | wire (pattern : ERef)
  | pattern
  | face (pattern next_face loop shell subshell surface : ERef)
         (sense double_sided containment : Bool)
  | loop (pattern next_loop coedge face : ERef)
  | coedge (pattern next_coedge prev_coedge partner_coedge edge : ERef)
           (sense : Bool) (loop : ERef) (unknown : Int) (pcurve : ERef)
  | edge (pattern start_vertex : ERef) (start_param : ℚ) (end_vertex : ERef)
         (end_param : ℚ) (coedge curve : ERef) (sense : Bool)
         (convexity : String)
  | pcurve (pattern : ERef)
  | vertex (pattern edge : ERef) (unknown : Int) (point : ERef)
  | curve (pattern : ERef) (b1 b2 : Option ℚ)
  | straightCurve (pattern : ERef) (origin direction : V3) (b1 b2 : Option ℚ)
  | point (pattern : ERef) (location : V3)
  | surface (pattern : ERef) (u1 u2 v1 v2 : Option ℚ)
  | plane (pattern : ERef) (origin normal u_dir : V3) (reverse_v : Bool)
          (u1 u2 v1 v2 : Option ℚ)
  | transform (m : List ℚ)
  | asmheader (version : String)
  | unsupported (name : String)
  deriving Repr, DecidableEq

/-- An arena slot: the attribute back-reference plus the typed entity.
The integer `id` attribute is not modelled: the loader copies it from
the record and the exporter reassigns dense ids equal to the record
indices (§3 invariant b), so no claim reads it. -/
structure TNode where
  attributes : ERef := .none
  entity : TEntity
  deriving Repr, DecidableEq

/-- The registered `type` tag of each kind (`ENTITY_TYPES` keys). -/
def kindName : TEntity → String
  | .body _ _ _ _ => "body"
  | .lump _ _ _ _ => "lump"
  | .shell _ _ _ _ _ _ => "shell"
  | .subshell _ => "subshell"
  | .wire _ => "wire"
  | .pattern => "pattern"
  | .face _ _ _ _ _ _ _ _ _ => "face"
  | .loop _ _ _ _ => "loop"
  | .coedge _ _ _ _ _ _ _ _ _ => "coedge"
  | .edge _ _ _ _ _ _ _ _ _ => "edge"
  | .pcurve _ => "pcurve"
  | .vertex _ _ _ _ => "vertex"
  | .curve _ _ _ => "curve"
  | .straightCurve _ _ _ _ _ => "straight-curve"
  | .point _ _ => "point"
  | .surface _ _ _ _ _ => "surface"
  | .plane _ _ _ _ _ _ _ _ _ => "plane-surface"
  | .transform _ => "transform"
  | .asmheader _ => "asmheader"
  | .unsupported n => n

/-- A field of an entity's wire layout: a pointer field annotated with
the expected-type string its restore counterpart checks, a numeric or
string token, or the Coedge/Vertex integer the SAT format omits. -/
inductive FTok where
  | ref (expected : String) (r : ERef)
  | num (q : ℚ)
  | str (s : String)
  | skipInt
  deriving Repr, DecidableEq

/-- A boolean as its named-pair token (`write_bool(value, t, f)`). -/
def boolTok (b : Bool) (t f : String) : String :=
  if b then t else f

/-- An interval as its token (`write_interval`): `I` when unbounded. -/
def intervalFTok : Option ℚ → FTok
  | Option.none => .str "I"
  | some q => .num q

/-- Entry `i` of a `Matrix44` data list (the external math library keeps
exactly 16 row-major entries; an absent entry reads as 0). -/
def getQ (m : List ℚ) (i : Nat) : ℚ :=
  m.getD i 0

/-- The 12 matrix entries `Transform.write_common` emits: the first
three entries of each of the four rows. -/
def extract12 (m : List ℚ) : List ℚ :=
  [getQ m 0, getQ m 1, getQ m 2, getQ m 4, getQ m 5, getQ m 6,
   getQ m 8, getQ m 9, getQ m 10, getQ m 12, getQ m 13, getQ m 14]

/-- Modelled from the spec: the trailing scale factor and
rotate/reflect/shear flags of a `Transform` record are computed by the
external math library (`magnitude`/`normalize`/`isclose` — real-valued
square roots and float comparisons, out of scope per §1); they are
emitted on write and never read on restore, so only their determinism
matters, and they are modelled as fixed tokens. -/
def transformTrailer (m12 : List ℚ) : List FTok :=
  [.num 1, .str "no_rotate", .str "no_reflect", .str "no_shear"]

/-- The field layout each kind's `write_common`/`write_data` pair emits,
annotated with the expected-type string its restore counterpart checks
(`skipInt` marks the Coedge/Vertex integer the SAT format omits).  The
clauses mirror the `write_common`/`write_data` methods of src in
emission order; `pattern` and `unsupported` have no layout because their
`write_common` raises `ExportError` (handled in `writeEntity`). -/
def fieldsOf : TEntity → List FTok
  | .body pat lu wi tr =>
      [.ref "pattern" pat, .ref "lump" lu, .ref "wire" wi,
       .ref "transform" tr]
  | .lump pat nl sh bo =>
      [.ref "pattern" pat, .ref "lump" nl, .ref "shell" sh, .ref "body" bo]
  | .shell pat ns ss fa wi lu =>
      [.ref "pattern" pat, .ref "next_shell" ns, .ref "subshell" ss,
       .ref "face" fa, .ref "wire" wi, .ref "lump" lu]
  | .subshell pat => [.ref "pattern" pat]
  | .wire pat => [.ref "pattern" pat]
  | .pattern => []
  | .face pat nf lo sh ss su sense ds ct =>
      [.ref "pattern" pat, .ref "face" nf, .ref "loop" lo, .ref "shell" sh,
       .ref "subshell" ss, .ref "surface" su,
       .str (boolTok sense "reversed" "forward"),
       .str (boolTok ds "double" "single")]
      ++ (if ds then [.str (boolTok ct "in" "out")] else [])
  | .loop pat nl co fa =>
      [.ref "pattern" pat, .ref "loop" nl, .ref "coedge" co, .ref "face" fa]
  | .coedge pat nc pc partner ed sense lo _ pcv =>
      [.ref "pattern" pat, .ref "coedge" nc, .ref "coedge" pc,
       .ref "coedge" partner, .ref "edge" ed,
       .str (boolTok sense "reversed" "forward"), .ref "loop" lo,
       .skipInt, .ref "pcurve" pcv]
  | .edge pat sv sp ev ep co cu sense cx =>
      [.ref "pattern" pat, .ref "vertex" sv, .num sp, .ref "vertex" ev,
       .num ep, .ref "coedge" co, .ref "curve" cu,
       .str (boolTok sense "reversed" "forward"), .str cx]
  | .pcurve pat => [.ref "pattern" pat]
  | .vertex pat ed _ po =>
      [.ref "pattern" pat, .ref "edge" ed, .skipInt, .ref "point" po]
  | .curve pat b1 b2 =>
      [.ref "pattern" pat, intervalFTok b1, intervalFTok b2]
  | .straightCurve pat origin direction b1 b2 =>
      [.ref "pattern" pat, .num origin.x, .num origin.y, .num origin.z,
       .num direction.x, .num direction.y, .num direction.z,
       intervalFTok b1, intervalFTok b2]
  | .point pat loc =>
      [.ref "pattern" pat, .num loc.x, .num loc.y, .num loc.z]
  | .surface pat u1 u2 v1 v2 =>
      [.ref "pattern" pat, intervalFTok u1, intervalFTok u2,
       intervalFTok v1, intervalFTok v2]
  | .plane pat origin normal ud rv u1 u2 v1 v2 =>
      [.ref "pattern" pat, .num origin.x, .num origin.y, .num origin.z,
       .num normal.x, .num normal.y, .num normal.z,
       .num ud.x, .num ud.y, .num ud.z,
       .str (boolTok rv "reverse_v" "forward_v"),
       intervalFTok u1, intervalFTok u2, intervalFTok v1, intervalFTok v2]
  | .transform m =>
      (extract12 m).map FTok.num ++ transformTrailer (extract12 m)
  | .asmheader ver => [.str ver]
  | .unsupported _ => []

/-- A reference as the field token's payload ref, if any. -/
def refOfFTok : FTok → Option ERef
  | .ref _ r => some r
  | _ => Option.none

/-- The reference fields of an entity in the order the restore/write
pair touches them (excluding the attribute back-reference): the
references of its field layout. -/
def refList (e : TEntity) : List ERef :=
  (fieldsOf e).filterMap refOfFTok

/-- All references of an arena node: the attribute back-reference
followed by the field references. -/
def nodeRefs (nd : TNode) : List ERef :=
  nd.attributes :: refList nd.entity

/-- Append an arena index unless already present. -/
def pushNew (l : List Nat) (a : Nat) : List Nat :=
  if a ∈ l then l else l ++ [a]

/-- Fold a reference into an assignment or creation order. -/
def pushRef (l : List Nat) : ERef → List Nat
  | .none => l
  | .ent i => pushNew l i

/-- Is the entity serializable?  `write_common` raises `ExportError` for
the unsupported placeholder and for `Pattern` (which inherits the
raising base method); every other registered kind writes its layout. -/
def serializable : TEntity → Bool
  | .pattern => false
  | .unsupported _ => false
  | _ => true

/- ===================  entities.py : typed reads  =================== -/

/-- Modelled from the spec: the SAT `DataLoader` of the missing
`sat.py`/`abstract.py`, over typed tokens.  Each reader consumes the
front of the data-token list of one record; a missing or wrongly shaped
token is a structural `ParsingError` (§7). -/
def readPtr : List DTok → Except PyErr (Option Nat × List DTok)
  | .ptr r :: rest => .ok (r, rest)
  | _ => .error (.parsingError "expected a pointer token")

/-- Read one double (numeric token). -/
def readDouble : List DTok → Except PyErr (ℚ × List DTok)
  | .num q :: rest => .ok (q, rest)
  | _ => .error (.parsingError "expected a double token")

/-- Read one string token (`read_str`; the `@`-length prefix of the text
format is folded into the token, see `DTok`). -/
def readStr : List DTok → Except PyErr (String × List DTok)
  | .str s :: rest => .ok (s, rest)
  | _ => .error (.parsingError "expected a string token")

/-- `read_bool(true_s, false_s)`: a named-pair boolean token. -/
def readBool (t f : String) : List DTok → Except PyErr (Bool × List DTok)
  | .str s :: rest =>
      if s = t then .ok (true, rest)
      else if s = f then .ok (false, rest)
      else .error (.parsingError "unexpected boolean constant")
  | _ => .error (.parsingError "expected a boolean token")

/-- `read_interval`: the literal `I` is the unbounded interval, any
number is a finite bound. -/
def readInterval : List DTok → Except PyErr (Option ℚ × List DTok)
  | .str s :: rest =>
      if s = "I" then .ok (none, rest)
      else .error (.parsingError "expected an interval token")
  | .num q :: rest => .ok (some q, rest)
  | _ => .error (.parsingError "expected an interval token")

/-- `read_vec3`: three doubles. -/
def readVec3 (toks : List DTok) : Except PyErr (V3 × List DTok) :=
  match readDouble toks with
  | .error e => .error e
  | .ok (x, t1) =>
    match readDouble t1 with
    | .error e => .error e
    | .ok (y, t2) =>
      match readDouble t2 with
      | .error e => .error e
      | .ok (z, t3) => .ok (⟨x, y, z⟩, t3)

/-- `read_int(skip_sat=d)`: the SAT format does not store this integer,
so the reader returns the default without consuming a token (the
`unknown` fields of Coedge and Vertex, marked "only in SAB" in src). -/
def readIntSkipSat (d : Int) (toks : List DTok) : Int × List DTok :=
  (d, toks)

/-- `restore_entity` of `entities.py`: read a pointer; the null pointer
restores to `NONE_REF`; otherwise the raw record's type name must end
with the expected type name, else a `ParsingError` is raised.  `names`
maps record indices to record type names (pointers were resolved to raw
records during parsing, so the lookup itself cannot fail on loader
inputs; a missing index is reported as a `ParsingError`). -/
def restoreEntityRef (expected : String) (names : Nat → Option String)
    (toks : List DTok) : Except PyErr (ERef × List DTok) :=
  match readPtr toks with
  | .error e => .error e
  | .ok (none, rest) => .ok (.none, rest)
  | .ok (some i, rest) =>
    match names i with
    | none => .error (.parsingError "unresolved record index")
    | some nm =>
      if Acis.pyEndsWith nm expected then .ok (.ent i, rest)
      else .error (.parsingError
        ("expected entity type " ++ expected ++ ", got " ++ nm))

/-- `SupportsPattern.restore_common`: the pattern back-reference exists
only from the `PATTERN` feature threshold on. -/
def restorePattern (v : Int) (names : Nat → Option String)
    (toks : List DTok) : Except PyErr (ERef × List DTok) :=
  if v ≥ featPATTERN then restoreEntityRef "pattern" names toks
  else .ok (.none, toks)

/- ===================  entities.py : per-kind restore  =================== -/

/-- `Body.restore_common`. -/
def restoreBody (v : Int) (names : Nat → Option String) (toks : List DTok) :
    Except PyErr TEntity :=
  match restorePattern v names toks with
  | .error e => .error e
  | .ok (pat, t1) =>
    match restoreEntityRef "lump" names t1 with
    | .error e => .error e
    | .ok (lu, t2) =>
      match restoreEntityRef "wire" names t2 with
      | .error e => .error e
      | .ok (wi, t3) =>
        match restoreEntityRef "transform" names t3 with
        | .error e => .error e
        | .ok (tr, _) => .ok (.body pat lu wi tr)

/-- `Lump.restore_common`. -/
def restoreLump (v : Int) (names : Nat → Option String) (toks : List DTok) :
    Except PyErr TEntity :=
  match restorePattern v names toks with
  | .error e => .error e
  | .ok (pat, t1) =>
    match restoreEntityRef "lump" names t1 with
    | .error e => .error e
    | .ok (nl, t2) =>
      match restoreEntityRef "shell" names t2 with
      | .error e => .error e
      | .ok (sh, t3) =>
        match restoreEntityRef "body" names t3 with
        | .error e => .error e
        | .ok (bo, _) => .ok (.lump pat nl sh bo)

/-- `Shell.restore_common`.  Note: the expected type name for the
`next_shell` field is the string `"next_shell"` in src, so a non-null
link to a record named `shell` fails the suffix check (see C8). -/
def restoreShell (v : Int) (names : Nat → Option String) (toks : List DTok) :
    Except PyErr TEntity :=
  match restorePattern v names toks with
  | .error e => .error e
  | .ok (pat, t1) =>
    match restoreEntityRef "next_shell" names t1 with
    | .error e => .error e
    | .ok (ns, t2) =>
      match restoreEntityRef "subshell" names t2 with
      | .error e => .error e
      | .ok (ss, t3) =>
        match restoreEntityRef "face" names t3 with
        | .error e => .error e
        | .ok (fa, t4) =>
          match restoreEntityRef "wire" names t4 with
          | .error e => .error e
          | .ok (wi, t5) =>
            match restoreEntityRef "lump" names t5 with
            | .error e => .error e
            | .ok (lu, _) => .ok (.shell pat ns ss fa wi lu)

/-- `Face.restore_common`: references, then sense and sides booleans,
and the containment boolean only when double sided. -/
def restoreFace (v : Int) (names : Nat → Option String) (toks : List DTok) :
    Except PyErr TEntity :=
  match restorePattern v names toks with
  | .error e => .error e
  | .ok (pat, t1) =>
    match restoreEntityRef "face" names t1 with
    | .error e => .error e
    | .ok (nf, t2) =>
      match restoreEntityRef "loop" names t2 with
      | .error e => .error e
      | .ok (lo, t3) =>
        match restoreEntityRef "shell" names t3 with
        | .error e => .error e
        | .ok (sh, t4) =>
          match restoreEntityRef "subshell" names t4 with
          | .error e => .error e
          | .ok (ss, t5) =>
            match restoreEntityRef "surface" names t5 with
            | .error e => .error e
            | .ok (su, t6) =>
              match readBool "reversed" "forward" t6 with
              | .error e => .error e
              | .ok (sense, t7) =>
                match readBool "double" "single" t7 with
                | .error e => .error e
                | .ok (ds, t8) =>
                  if ds then
                    match readBool "in" "out" t8 with
                    | .error e => .error e
                    | .ok (ct, _) => .ok (.face pat nf lo sh ss su sense ds ct)
                  else .ok (.face pat nf lo sh ss su sense ds false)

/-- `Loop.restore_common`. -/
def restoreLoop (v : Int) (names : Nat → Option String) (toks : List DTok) :
    Except PyErr TEntity :=
  match restorePattern v names toks with
  | .error e => .error e
  | .ok (pat, t1) =>
    match restoreEntityRef "loop" names t1 with
    | .error e => .error e
    | .ok (nl, t2) =>
      match restoreEntityRef "coedge" names t2 with
      | .error e => .error e
      | .ok (co, t3) =>
        match restoreEntityRef "face" names t3 with
        | .error e => .error e
        | .ok (fa, _) => .ok (.loop pat nl co fa)

/-- `Coedge.restore_common`: the `unknown` integer is not stored in the
SAT format (`read_int(skip_sat=0)`). -/
def restoreCoedge (v : Int) (names : Nat → Option String) (toks : List DTok) :
    Except PyErr TEntity :=
  match restorePattern v names toks with
  | .error e => .error e
  | .ok (pat, t1) =>
    match restoreEntityRef "coedge" names t1 with
    | .error e => .error e
    | .ok (nc, t2) =>
      match restoreEntityRef "coedge" names t2 with
      | .error e => .error e
      | .ok (pc, t3) =>
        match restoreEntityRef "coedge" names t3 with
        | .error e => .error e
        | .ok (partner, t4) =>
          match restoreEntityRef "edge" names t4 with
          | .error e => .error e
          | .ok (ed, t5) =>
            match readBool "reversed" "forward" t5 with
            | .error e => .error e
            | .ok (sense, t6) =>
              match restoreEntityRef "loop" names t6 with
              | .error e => .error e
              | .ok (lo, t7) =>
                let (unk, t8) := readIntSkipSat 0 t7
                match restoreEntityRef "pcurve" names t8 with
                | .error e => .error e
                | .ok (pcv, _) =>
                  .ok (.coedge pat nc pc partner ed sense lo unk pcv)

/-- `Edge.restore_common`: the start/end parameters and the convexity
string exist only from the `TOL_MODELING` feature threshold on. -/
def restoreEdge (v : Int) (names : Nat → Option String) (toks : List DTok) :
    Except PyErr TEntity :=
  match restorePattern v names toks with
  | .error e => .error e
  | .ok (pat, t1) =>
    match restoreEntityRef "vertex" names t1 with
    | .error e => .error e
    | .ok (sv, t2) =>
      match (if v ≥ featTOL_MODELING then readDouble t2 else .ok (0, t2)) with
      | .error e => .error e
      | .ok (sp, t3) =>
        match restoreEntityRef "vertex" names t3 with
        | .error e => .error e
        | .ok (ev, t4) =>
          match (if v ≥ featTOL_MODELING then readDouble t4 else .ok (0, t4)) with
          | .error e => .error e
          | .ok (ep, t5) =>
            match restoreEntityRef "coedge" names t5 with
            | .error e => .error e
            | .ok (co, t6) =>
              match restoreEntityRef "curve" names t6 with
              | .error e => .error e
              | .ok (cu, t7) =>
                match readBool "reversed" "forward" t7 with
                | .error e => .error e
                | .ok (sense, t8) =>
                  match (if v ≥ featTOL_MODELING then readStr t8
                         else .ok ("unknown", t8)) with
                  | .error e => .error e
                  | .ok (cx, _) => .ok (.edge pat sv sp ev ep co cu sense cx)

/-- `Vertex.restore_common` (the `unknown` integer is SAB-only). -/
def restoreVertex (v : Int) (names : Nat → Option String) (toks : List DTok) :
    Except PyErr TEntity :=
  match restorePattern v names toks with
  | .error e => .error e
  | .ok (pat, t1) =>
    match restoreEntityRef "edge" names t1 with
    | .error e => .error e
    | .ok (ed, t2) =>
      let (unk, t3) := readIntSkipSat 0 t2
      match restoreEntityRef "point" names t3 with
      | .error e => .error e
      | .ok (po, _) => .ok (.vertex pat ed unk po)

/-- `Curve.restore_data` after `SupportsPattern.restore_common`. -/
def restoreCurve (v : Int) (names : Nat → Option String) (toks : List DTok) :
    Except PyErr TEntity :=
  match restorePattern v names toks with
  | .error e => .error e
  | .ok (pat, t1) =>
    match readInterval t1 with
    | .error e => .error e
    | .ok (b1, t2) =>
      match readInterval t2 with
      | .error e => .error e
      | .ok (b2, _) => .ok (.curve pat b1 b2)

/-- `StraightCurve.restore_data`: origin and direction, then the
inherited bounds. -/
def restoreStraightCurve (v : Int) (names : Nat → Option String)
    (toks : List DTok) : Except PyErr TEntity :=
  match restorePattern v names toks with
  | .error e => .error e
  | .ok (pat, t1) =>
    match readVec3 t1 with
    | .error e => .error e
    | .ok (origin, t2) =>
      match readVec3 t2 with
      | .error e => .error e
      | .ok (direction, t3) =>
        match readInterval t3 with
        | .error e => .error e
        | .ok (b1, t4) =>
          match readInterval t4 with
          | .error e => .error e
          | .ok (b2, _) => .ok (.straightCurve pat origin direction b1 b2)

/-- `Point.restore_data`. -/
def restorePoint (v : Int) (names : Nat → Option String) (toks : List DTok) :
    Except PyErr TEntity :=
  match restorePattern v names toks with
  | .error e => .error e
  | .ok (pat, t1) =>
    match readVec3 t1 with
    | .error e => .error e
    | .ok (loc, _) => .ok (.point pat loc)

/-- `Surface.restore_data` after `SupportsPattern.restore_common`. -/
def restoreSurface (v : Int) (names : Nat → Option String) (toks : List DTok) :
    Except PyErr TEntity :=
  match restorePattern v names toks with
  | .error e => .error e
  | .ok (pat, t1) =>
    match readInterval t1 with
    | .error e => .error e
    | .ok (u1, t2) =>
      match readInterval t2 with
      | .error e => .error e
      | .ok (u2, t3) =>
        match readInterval t3 with
        | .error e => .error e
        | .ok (v1, t4) =>
          match readInterval t4 with
          | .error e => .error e
          | .ok (v2, _) => .ok (.surface pat u1 u2 v1 v2)

/-- `Plane.restore_common` (pattern, origin, normal, u_dir, reverse_v)
followed by the inherited `Surface.restore_data` bounds. -/
def restorePlane (v : Int) (names : Nat → Option String) (toks : List DTok) :
    Except PyErr TEntity :=
  match restorePattern v names toks with
  | .error e => .error e
  | .ok (pat, t1) =>
    match readVec3 t1 with
    | .error e => .error e
    | .ok (origin, t2) =>
      match readVec3 t2 with
      | .error e => .error e
      | .ok (normal, t3) =>
        match readVec3 t3 with
        | .error e => .error e
        | .ok (ud, t4) =>
          match readBool "reverse_v" "forward_v" t4 with
          | .error e => .error e
          | .ok (rv, t5) =>
            match readInterval t5 with
            | .error e => .error e
            | .ok (u1, t6) =>
              match readInterval t6 with
              | .error e => .error e
              | .ok (u2, t7) =>
                match readInterval t7 with
                | .error e => .error e
                | .ok (v1, t8) =>
                  match readInterval t8 with
                  | .error e => .error e
                  | .ok (v2, _) =>
                    .ok (.plane pat origin normal ud rv u1 u2 v1 v2)

/-- `Transform.restore_data`: reads exactly 12 doubles (the trailing
scale factor and flag tokens are never read) and rebuilds the 16-entry
matrix with the fixed fourth column 0, 0, 0, 1. -/
def restoreTransform (v : Int) (names : Nat → Option String)
    (toks : List DTok) : Except PyErr TEntity :=
  match readDouble toks with
  | .error e => .error e
  | .ok (d0, t1) => match readDouble t1 with
    | .error e => .error e
    | .ok (d1, t2) => match readDouble t2 with
      | .error e => .error e
      | .ok (d2, t3) => match readDouble t3 with
        | .error e => .error e
        | .ok (d3, t4) => match readDouble t4 with
          | .error e => .error e
          | .ok (d4, t5) => match readDouble t5 with
            | .error e => .error e
            | .ok (d5, t6) => match readDouble t6 with
              | .error e => .error e
              | .ok (d6, t7) => match readDouble t7 with
                | .error e => .error e
                | .ok (d7, t8) => match readDouble t8 with
                  | .error e => .error e
                  | .ok (d8, t9) => match readDouble t9 with
                    | .error e => .error e
                    | .ok (d9, t10) => match readDouble t10 with
                      | .error e => .error e
                      | .ok (d10, t11) => match readDouble t11 with
                        | .error e => .error e
                        | .ok (d11, _) =>
                          .ok (.transform [d0, d1, d2, 0, d3, d4, d5, 0,
                                           d6, d7, d8, 0, d9, d10, d11, 1])

/-- `AsmHeader.restore_common`. -/
def restoreAsmHeader (v : Int) (names : Nat → Option String)
    (toks : List DTok) : Except PyErr TEntity :=
  match readStr toks with
  | .error e => .error e
  | .ok (ver, _) => .ok (.asmheader ver)

/-- `Wire`, `Pattern`, `Subshell`, `PCurve`: restore only the common
part they inherit (`SupportsPattern` reads the pattern reference;
`Pattern` inherits the empty `AcisEntity.restore_common`). -/
def restorePatternOnly (mk : ERef → TEntity) (v : Int)
    (names : Nat → Option String) (toks : List DTok) : Except PyErr TEntity :=
  match restorePattern v names toks with
  | .error e => .error e
  | .ok (pat, _) => .ok (mk pat)

/-- The `ENTITY_TYPES` registry dispatch of the loader
(`entity_factory`): a registered name restores its typed fields, any
other name yields the unsupported placeholder, which restores nothing
and keeps no data. -/
def restoreByName (name : String) (v : Int) (names : Nat → Option String)
    (toks : List DTok) : Except PyErr TEntity :=
  if name = "body" then restoreBody v names toks
  else if name = "lump" then restoreLump v names toks
  else if name = "shell" then restoreShell v names toks
  else if name = "subshell" then restorePatternOnly TEntity.subshell v names toks
  else if name = "wire" then restorePatternOnly TEntity.wire v names toks
  else if name = "pattern" then .ok .pattern
  else if name = "face" then restoreFace v names toks
  else if name = "loop" then restoreLoop v names toks
  else if name = "coedge" then restoreCoedge v names toks
  else if name = "edge" then restoreEdge v names toks
  else if name = "pcurve" then restorePatternOnly TEntity.pcurve v names toks
  else if name = "vertex" then restoreVertex v names toks
  else if name = "curve" then restoreCurve v names toks
  else if name = "straight-curve" then restoreStraightCurve v names toks
  else if name = "point" then restorePoint v names toks
  else if name = "surface" then restoreSurface v names toks
  else if name = "plane-surface" then restorePlane v names toks
  else if name = "transform" then restoreTransform v names toks
  else if name = "asmheader" then restoreAsmHeader v names toks
  else .ok (.unsupported name)

/- ===================  entities.py : export  =================== -/

/-- First position of arena index `a` in the assignment list. -/
def posOf : List Nat → Nat → Option Nat
  | [], _ => none
  | b :: rest, a =>
      if b = a then some 0 else (posOf rest a).map (· + 1)

/-- Modelled from the spec (§4.3): the exporter's pointer assignment —
`NONE_REF` serializes as the null pointer; an entity already assigned an
index keeps it; an unassigned entity is appended and receives the next
dense index (dense 0-based indices in first-visit order). -/
def assignRef (st : List Nat) : ERef → List Nat × Option Nat
  | .none => (st, none)
  | .ent i =>
      match posOf st i with
      | some p => (st, some p)
      | none => (st ++ [i], some st.length)

/-- Emit one field token, threading the index assignment. -/
def writeFTok (st : List Nat) : FTok → List Nat × Option DTok
  | .ref _ r =>
      let (st', p) := assignRef st r
      (st', some (.ptr p))
  | .num q => (st, some (.num q))
  | .str s => (st, some (.str s))
  | .skipInt => (st, none)

/-- Emit a field list, threading the index assignment left to right. -/
def writeFields (st : List Nat) : List FTok → List Nat × List DTok
  | [] => (st, [])
  | f :: fs =>
      let (st1, t?) := writeFTok st f
      let (st2, ts) := writeFields st1 fs
      (st2, match t? with
            | some t => t :: ts
            | Option.none => ts)

/-- `AcisEntity.export` on the write side: `write_common` of the base
class raises `ExportError` for the unsupported placeholder, and
`Pattern` inherits exactly that raising method; every other registered
kind emits its field layout. -/
def writeEntity (st : List Nat) (e : TEntity) :
    Except PyErr (List Nat × List DTok) :=
  match e with
  | .pattern => .error (.exportError "unsupported entity type: pattern")
  | .unsupported n => .error (.exportError ("unsupported entity type: " ++ n))
  | _ => .ok (writeFields st (fieldsOf e))

/-- Serialize one node: the attribute back-reference is assigned first,
then the entity's fields. -/
def serializeNode (st : List Nat) (nd : TNode) :
    Except PyErr (List Nat × Option Nat × List DTok) :=
  let (st1, a) := assignRef st nd.attributes
  match writeEntity st1 nd.entity with
  | .error e => .error e
  | .ok (st2, toks) => .ok (st2, a, toks)

/-- Modelled from the spec (§4.3/§4.5): the exporter's traversal loop —
entities are serialized in assigned-index order; serializing an entity
assigns fresh dense indices to its not-yet-assigned references, which
are then serialized in turn.  `k` is the next index to serialize, `acc`
collects finished records in reverse; the fuel only bounds the loop (a
successful traversal serializes at most one record per arena slot). -/
def exportLoop (g : List TNode) : Nat → List Nat → Nat → List SRecord →
    Except PyErr (List SRecord × List Nat)
  | 0, st, k, acc =>
      if k < st.length then .error (.exportError "traversal fuel exhausted")
      else .ok (acc, st)
  | fuel + 1, st, k, acc =>
      match st[k]? with
      | Option.none => .ok (acc, st)
      | some a =>
        match g[a]? with
        | Option.none => .error (.invalidLink "reference outside the graph")
        | some nd =>
          match serializeNode st nd with
          | .error e => .error e
          | .ok (st', ap, toks) =>
            exportLoop g fuel st' (k + 1)
              (⟨kindName nd.entity, ap, (k : Int), toks⟩ :: acc)

/-- Modelled from the spec (§4.5): `exporter.export(body)` is called per
root — the root is assigned an index if new, then the traversal runs to
completion before the next root. -/
def exportRoots (g : List TNode) : List Nat → List Nat → Nat →
    List SRecord → Except PyErr (List SRecord × List Nat)
  | [], st, _, acc => .ok (acc, st)
  | r :: rs, st, k, acc =>
      let st' := pushNew st r
      match exportLoop g (g.length + 1) st' k acc with
      | .error e => .error e
      | .ok (acc', st'') => exportRoots g rs st'' st''.length acc'

/-- `export_sat` of `entities.py` at the record level: reject invalid
export versions before any work (`_setup_export_header`), then traverse
from the body roots; the header lines and the string rendering of the
records belong to the missing `sat.py`/`hdr.py` and are not modelled —
the logical record list is the output.  Record ids are the dense
indices (§3 invariant b). -/
def exportSat (bodies : List Nat) (g : List TNode) (v : Int) :
    Except PyErr (List SRecord) :=
  if validExportVersion v then
    match exportRoots g bodies [] 0 [] with
    | .error e => .error e
    | .ok (acc, _) => .ok acc.reverse
  else .error (.exportError "invalid export version")

/-- Modelled from the spec: `export_sab` drives the same traversal and
emits the same logical records over byte framing (§4.2 leaves the
framing itself unspecified); the `SabData` wrapper stands for the byte
buffer. -/
structure SabData where
  records : List SRecord
  deriving Repr, DecidableEq

/-- `export_sab` of `entities.py` at the record level. -/
def exportSab (bodies : List Nat) (g : List TNode) (v : Int) :
    Except PyErr SabData :=
  match exportSat bodies g v with
  | .error e => .error e
  | .ok recs => .ok ⟨recs⟩

/- ===================  entities.py : loader  =================== -/

/-- Record-index-to-type-name lookup used by the reference validation. -/
def recNames (recs : List SRecord) : Nat → Option String :=
  fun i => (recs[i]?).map SRecord.name

/-- The pointer-resolution condition of the record layer: every pointer
index (attribute or data) names a registered record.  This mirrors the
index-to-entity map of the parsing stage (§4.3): an unregistered target
is a load-time error there. -/
def wfRecPtrs (recs : List SRecord) : Bool :=
  recs.all (fun r =>
    (match r.attr with
     | some i => decide (i < recs.length)
     | Option.none => true) &&
    r.data.all (fun t =>
      match t with
      | .ptr (some i) => decide (i < recs.length)
      | _ => true))

/-- The two-pass `load_entities` of `entities.py`, collapsed over the
arena: every record yields one typed node whose fields are restored from
its own data tokens with references kept as record indices (first pass:
one still-empty entity per record; second pass: attach the attribute
back-reference and restore — since references are plain indices the
passes compose into one map). -/
def loadNodes (v : Int) (recs : List SRecord) : Except PyErr (List TNode) :=
  Acis.mapE (fun r =>
    match restoreByName r.name v (recNames recs) r.data with
    | .error e => .error e
    | .ok ent =>
      .ok ⟨match r.attr with
           | some i => ERef.ent i
           | Option.none => ERef.none, ent⟩) recs

/-- The creation order of `entity_factory`: processing record `i` first
materializes the record's own entity, then its attribute target, then
each reference target in restore order (`refList`); an entity already
created keeps its earlier position.  `FileLoader.bodies()` lists bodies
in this order (dict insertion order). -/
def creationOrderAux : List (Nat × TNode) → List Nat → List Nat
  | [], acc => acc
  | (i, nd) :: rest, acc =>
      creationOrderAux rest
        (((refList nd.entity).foldl pushRef
          (pushRef (pushNew acc i) nd.attributes)))

/-- Creation order over a whole arena. -/
def creationOrder (g : List TNode) : List Nat :=
  creationOrderAux g.enum []

/-- Does arena slot `i` hold a `Body`? -/
def isBodyIdx (g : List TNode) (i : Nat) : Bool :=
  match g[i]? with
  | some nd =>
      match nd.entity with
      | .body _ _ _ _ => true
      | _ => false
  | Option.none => false

/-- The record-level SAT load: validate pointer targets (the resolution
step; an unregistered index is the load-time error of §4.3, raised as
`KeyError` exactly as in `acis.py`), restore all typed nodes, and
collect the `Body` entities in creation order. -/
def loadSatRecords (v : Int) (recs : List SRecord) :
    Except PyErr (List TNode × List Nat) :=
  if wfRecPtrs recs then
    match loadNodes v recs with
    | .error e => .error e
    | .ok g => .ok (g, (creationOrder g).filter (isBodyIdx g))
  else .error .keyError

/- ===================  entities.py : load dispatch  =================== -/

/-- Bridge from the string-level resolved tokens of `acis.py` to the
typed tokens of the record layer.  Modelled from the spec: the typed
`SatDataLoader` of the missing `sat.py` types tokens by the declared
schema; here a token that parses as a number becomes a numeric token and
anything else stays a string (the `@`-length prefix convention for user
strings is not modelled — no claim exercises the string-level typed
load). -/
def tokBridge (ents : List (Int × Acis.ResEnt)) : Acis.RTok → DTok
  | .ent .null => .ptr Option.none
  | .ent (.key k) => .ptr (Acis.posOfKey ents k)
  | .tok s =>
      match Acis.parseFloatQ s with
      | some q => .num q
      | Option.none => .str s

/-- Bridge a parsed `AcisBuilder` to typed records (pointers become the
positions of their target entities, exactly the object references the
resolution step produced). -/
def bridgeRecords (b : Acis.AcisBuilder) : List SRecord :=
  b.entities.map (fun p =>
    { name := p.2.name, id := p.2.id,
      attr := match p.2.attr with
              | .null => Option.none
              | .key k => Acis.posOfKey b.entities k,
      data := p.2.data.map (tokBridge b.entities) })

/-- `SatLoader.load` on a sequence of lines. -/
def satLoadLines (ls : List String) : Except PyErr (List TNode × List Nat) :=
  match Acis.parseSatLines ls with
  | .error e => .error e
  | .ok b => loadSatRecords b.header.version (bridgeRecords b)

/-- `SatLoader.load` on a single string. -/
def satLoadStr (s : String) : Except PyErr (List TNode × List Nat) :=
  match Acis.parseSatStr s with
  | .error e => .error e
  | .ok b => loadSatRecords b.header.version (bridgeRecords b)

/-- Modelled from the spec: `sab.py` is absent from src and §4.2 leaves
the SAB byte framing unspecified, so parsing bytes is not modelled (no
claim exercises it: the empty-input path of `load` returns before any
detection, and the other SAB-related claim is about export). -/
def parseSab (bs : List Nat) : Except PyErr (Int × List SRecord) :=
  .error (.parsingError "SAB byte framing not modelled")

/-- `SabLoader.load`. -/
def sabLoad (bs : List Nat) : Except PyErr (List TNode × List Nat) :=
  match parseSab bs with
  | .error e => .error e
  | .ok (v, recs) => loadSatRecords v recs

/-- The input shapes `load` accepts: SAT as one string or a sequence of
line strings, SAB as a byte buffer (`bytes` and `bytearray` behave
identically, both are registered `Sequence`s of ints) or a sequence of
byte chunks. -/
inductive LoadInput where
  | satText (s : String)
  | satLines (ls : List String)
  | sabBytes (bs : List Nat)
  | sabChunks (cs : List (List Nat))
  deriving Repr, DecidableEq

/-- Python `len(data)` of a load input. -/
def pyLen : LoadInput → Nat
  | .satText s => s.length
  | .satLines ls => ls.length
  | .sabBytes bs => bs.length
  | .sabChunks cs => cs.length

/-- `load` of `entities.py`.  All four input shapes satisfy
`isinstance(data, Sequence)` (str, bytes, bytearray and lists are all
registered `Sequence`s), so `len(data) == 0` returns the empty body list
before any text/binary detection.  Otherwise `data[0]` dispatches: a
string (a one-character slice of a str, or a line of a line sequence)
selects the SAT loader; a bytes chunk selects the SAB loader; an int (an
element of bytes/bytearray) matches neither, falling through to the
`isinstance(data, (bytes, bytearray))` test, which selects the SAB
loader.  The result pairs the arena with the body list (Python returns
the body objects). -/
def load (input : LoadInput) : Except PyErr (List TNode × List Nat) :=
  if pyLen input = 0 then .ok ([], [])
  else
    match input with
    | .satText s => satLoadStr s
    | .satLines ls => satLoadLines ls
    | .sabChunks cs => sabLoad cs.join
    | .sabBytes bs => sabLoad bs

/- ===================  empty inputs (C10)  =================== -/

/-- C10: every empty input — the empty string, the empty byte buffer
(`bytes` and `bytearray` share the `sabBytes` shape), the empty line
sequence and the empty chunk sequence — loads to the empty body list
without error: all four shapes are Python `Sequence`s, so the
`len(data) == 0` check returns before any text/binary detection. -/
theorem C10_empty_load :
    load (.satText "") = .ok ([], []) ∧
    load (.satLines []) = .ok ([], []) ∧
    load (.sabBytes []) = .ok ([], []) ∧
    load (.sabChunks []) = .ok ([], []) :=
  ⟨rfl, rfl, rfl, rfl⟩

/- ===================  next_shell validation (C8)  =================== -/

/-- C8: `Shell.restore_common` validates the `next_shell` field against
the expected type-name suffix `"next_shell"` — which the type name
`"shell"` of an actual shell record does not end with.  Exporting a body
whose shell has a non-null `next_shell` link to another shell succeeds,
but loading the exported records raises
`ParsingError "expected entity type next_shell, got shell"` instead of
accepting the link: the code rejects its own output. -/
theorem C8_next_shell_bug :
    ∃ recs,
      exportSat [0]
        [⟨.none, .body .none (.ent 1) .none .none⟩,
         ⟨.none, .lump .none .none (.ent 2) (.ent 0)⟩,
         ⟨.none, .shell .none (.ent 3) .none .none .none (.ent 1)⟩,
         ⟨.none, .shell .none .none .none .none .none (.ent 1)⟩] 700 =
        .ok recs ∧
      loadSatRecords 700 recs =
        .error (.parsingError "expected entity type next_shell, got shell") :=
  ⟨_, rfl, rfl⟩

/- ===================  edge version gating (C6)  =================== -/

/-- The Edge reader as the spec's words describe it below the
tolerance-modeling threshold: the start parameter, the end parameter and
the convexity string are never read — the reader has no access to those
fields and the restored entity keeps the defaults 0, 0, `"unknown"`. -/
def restoreEdgeBelowSpec (v : Int) (names : Nat → Option String)
    (toks : List DTok) : Except PyErr TEntity :=
  match restorePattern v names toks with
  | .error e => .error e
  | .ok (pat, t1) =>
    match restoreEntityRef "vertex" names t1 with
    | .error e => .error e
    | .ok (sv, t3) =>
      match restoreEntityRef "vertex" names t3 with
      | .error e => .error e
      | .ok (ev, t5) =>
        match restoreEntityRef "coedge" names t5 with
        | .error e => .error e
        | .ok (co, t6) =>
          match restoreEntityRef "curve" names t6 with
          | .error e => .error e
          | .ok (cu, t7) =>
            match readBool "reversed" "forward" t7 with
            | .error e => .error e
            | .ok (sense, _) => .ok (.edge pat sv 0 ev 0 co cu sense "unknown")

/-- The start/end parameter and convexity fields of an edge. -/
def edgeParams : TEntity → Option (ℚ × ℚ × String)
  | .edge _ _ sp _ ep _ _ _ cx => some (sp, ep, cx)
  | _ => Option.none

theorem writeFTok_ref (st : List Nat) (exp : String) (r : ERef) :
    writeFTok st (.ref exp r) =
      ((assignRef st r).1, some (.ptr (assignRef st r).2)) := by
  rcases ha : assignRef st r with ⟨a, b⟩
  simp only [writeFTok, ha]

theorem writeFields_nil (st : List Nat) : writeFields st [] = (st, []) := rfl

theorem writeFields_cons_ref (st : List Nat) (exp : String) (r : ERef)
    (fs : List FTok) :
    writeFields st (.ref exp r :: fs) =
      ((writeFields (assignRef st r).1 fs).1,
        .ptr (assignRef st r).2 :: (writeFields (assignRef st r).1 fs).2) := by
  rcases ha : assignRef st r with ⟨s1, p⟩
  rcases h : writeFields s1 fs with ⟨a, b⟩
  simp only [writeFields, writeFTok, ha, h]

theorem writeFields_cons_num (st : List Nat) (q : ℚ) (fs : List FTok) :
    writeFields st (.num q :: fs) =
      ((writeFields st fs).1, .num q :: (writeFields st fs).2) := by
  rcases h : writeFields st fs with ⟨a, b⟩
  simp only [writeFields, writeFTok, h]

theorem writeFields_cons_str (st : List Nat) (s : String) (fs : List FTok) :
    writeFields st (.str s :: fs) =
      ((writeFields st fs).1, .str s :: (writeFields st fs).2) := by
  rcases h : writeFields st fs with ⟨a, b⟩
  simp only [writeFields, writeFTok, h]

theorem writeFields_cons_skip (st : List Nat) (fs : List FTok) :
    writeFields st (.skipInt :: fs) = writeFields st fs := by
  rcases h : writeFields st fs with ⟨a, b⟩
  simp only [writeFields, writeFTok, h]

/-- On success, `restore_entity` consumes exactly the pointer token. -/
theorem restoreEntityRef_ok_rest (exp : String) (names : Nat → Option String)
    (p : Option Nat) (rest rest' : List DTok) (r : ERef)
    (h : restoreEntityRef exp names (.ptr p :: rest) = .ok (r, rest')) :
    rest' = rest := by
  cases p with
  | none =>
      have hstep : restoreEntityRef exp names (.ptr Option.none :: rest) =
          .ok (ERef.none, rest) := rfl
      rw [hstep] at h
      simp only [Except.ok.injEq, Prod.mk.injEq] at h
      exact h.2.symm
  | some i =>
      have hstep : restoreEntityRef exp names (.ptr (some i) :: rest) =
          (match names i with
           | Option.none => .error (.parsingError "unresolved record index")
           | some nm =>
             if Acis.pyEndsWith nm exp then .ok (.ent i, rest)
             else .error (.parsingError
               ("expected entity type " ++ exp ++ ", got " ++ nm))) := rfl
      rw [hstep] at h
      cases hn : names i with
      | none => simp only [hn] at h; exact absurd h (by simp)
      | some nm =>
          simp only [hn] at h
          by_cases he : Acis.pyEndsWith nm exp = true
          · rw [if_pos he] at h
            simp only [Except.ok.injEq, Prod.mk.injEq] at h
            exact h.2.symm
          · rw [if_neg he] at h
            exact absurd h (by simp)

/-- On success, `SupportsPattern.restore_common` consumes exactly the
pattern pointer token when the version gates it in. -/
theorem restorePattern_ok_rest (v : Int) (names : Nat → Option String)
    (hv : v ≥ featPATTERN) (p : Option Nat) (rest rest' : List DTok) (r : ERef)
    (h : restorePattern v names (.ptr p :: rest) = .ok (r, rest')) :
    rest' = rest := by
  unfold restorePattern at h
  rw [if_pos hv] at h
  exact restoreEntityRef_ok_rest _ names p rest rest' r h

/-- Restoring an edge record of the written shape at a version at or
above the tolerance-modeling threshold recovers the written start
parameter, end parameter and convexity string. -/
theorem restoreEdge_shape (v : Int) (names : Nat → Option String)
    (p0 p1 p2 p3 p4 : Option Nat) (sp ep : ℚ) (bs cx : String) (e' : TEntity)
    (hv : v ≥ featTOL_MODELING)
    (hres : restoreEdge v names
      [.ptr p0, .ptr p1, .num sp, .ptr p2, .num ep, .ptr p3, .ptr p4,
       .str bs, .str cx] = .ok e') :
    edgeParams e' = some (sp, ep, cx) := by
  have h6 : v ≥ featPATTERN := by
    unfold featPATTERN
    unfold featTOL_MODELING at hv
    omega
  unfold restoreEdge at hres
  simp only [if_pos hv] at hres
  cases h0 : restorePattern v names
      [.ptr p0, .ptr p1, .num sp, .ptr p2, .num ep, .ptr p3, .ptr p4,
       .str bs, .str cx] with
  | error e => rw [h0] at hres; exact absurd hres (by simp)
  | ok pr0 =>
      obtain ⟨r0, t1⟩ := pr0
      rw [h0] at hres; simp only [] at hres
      have := restorePattern_ok_rest v names h6 p0 _ t1 r0 h0
      subst this
      cases h1 : restoreEntityRef "vertex" names
          [DTok.ptr p1, .num sp, .ptr p2, .num ep, .ptr p3, .ptr p4,
           .str bs, .str cx] with
      | error e => rw [h1] at hres; exact absurd hres (by simp)
      | ok pr1 =>
          obtain ⟨r1, t2⟩ := pr1
          rw [h1] at hres; simp only [] at hres
          have := restoreEntityRef_ok_rest "vertex" names p1 _ t2 r1 h1
          subst this
          have hrd : readDouble (DTok.num sp :: [DTok.ptr p2, .num ep,
              .ptr p3, .ptr p4, .str bs, .str cx]) =
            .ok (sp, [DTok.ptr p2, .num ep, .ptr p3, .ptr p4,
              .str bs, .str cx]) := rfl
          rw [hrd] at hres
          simp only at hres
          cases h2 : restoreEntityRef "vertex" names
              [DTok.ptr p2, .num ep, .ptr p3, .ptr p4, .str bs,
               .str cx] with
          | error e => rw [h2] at hres; exact absurd hres (by simp)
          | ok pr2 =>
              obtain ⟨r2, t3⟩ := pr2
              rw [h2] at hres; simp only [] at hres
              have := restoreEntityRef_ok_rest "vertex" names p2 _ t3 r2 h2
              subst this
              have hrd2 : readDouble (DTok.num ep :: [DTok.ptr p3,
                  .ptr p4, .str bs, .str cx]) =
                .ok (ep, [DTok.ptr p3, .ptr p4, .str bs, .str cx]) := rfl
              rw [hrd2] at hres
              simp only at hres
              cases h3 : restoreEntityRef "coedge" names
                  [DTok.ptr p3, .ptr p4, .str bs, .str cx] with
              | error e => rw [h3] at hres; exact absurd hres (by simp)
              | ok pr3 =>
                  obtain ⟨r3, t4⟩ := pr3
                  rw [h3] at hres; simp only [] at hres
                  have := restoreEntityRef_ok_rest "coedge" names p3 _ t4 r3 h3
                  subst this
                  cases h4 : restoreEntityRef "curve" names
                      [DTok.ptr p4, .str bs, .str cx] with
                  | error e => rw [h4] at hres; exact absurd hres (by simp)
                  | ok pr4 =>
                      obtain ⟨r4, t5⟩ := pr4
                      rw [h4] at hres; simp only [] at hres
                      have := restoreEntityRef_ok_rest "curve" names p4 _ t5 r4 h4
                      subst this
                      cases h5 : readBool "reversed" "forward"
                          [DTok.str bs, .str cx] with
                      | error e => rw [h5] at hres; exact absurd hres (by simp)
                      | ok pr5 =>
                          obtain ⟨sense', t6⟩ := pr5
                          rw [h5] at hres; simp only [] at hres
                          have ht6 : t6 = [DTok.str cx] := by
                            unfold readBool at h5
                            by_cases hb1 : bs = "reversed"
                            · simp only [hb1, if_pos] at h5
                              simp only [Except.ok.injEq, Prod.mk.injEq] at h5
                              exact h5.2.symm
                            · simp only [if_neg hb1] at h5
                              by_cases hb2 : bs = "forward"
                              · rw [hb2, if_pos rfl] at h5
                                simp only [Except.ok.injEq, Prod.mk.injEq] at h5
                                exact h5.2.symm
                              · simp only [if_neg hb2] at h5
                                exact absurd h5 (by simp)
                          subst ht6
                          have hrs : readStr [DTok.str cx] = .ok (cx, []) := rfl
                          rw [hrs] at hres
                          simp only [Except.ok.injEq] at hres
                          rw [← hres]
                          rfl

/-- C6: version gating of the Edge start/end parameters and convexity.
(1) Below the tolerance-modeling threshold `restore_common` never
touches the three fields: the reader equals `restoreEdgeBelowSpec`,
which has no access to them and keeps the defaults.  (2) Below the
threshold nothing is ever written: export rejects any version < 700 =
`TOL_MODELING` before writing a single token.  (3) At or above the
threshold the writer always emits the three fields (data positions 2, 4
and 8 of the edge record, unconditionally).  (4) At or above the
threshold restoring what the writer wrote recovers exactly the written
start parameter, end parameter and convexity — the fields are equal
after a round-trip. -/
theorem C6_edge_version_gate :
    (∀ v : Int, v < featTOL_MODELING →
      ∀ (names : Nat → Option String) (toks : List DTok),
        restoreEdge v names toks = restoreEdgeBelowSpec v names toks) ∧
    (∀ (bodies : List Nat) (g : List TNode) (v : Int), v < featTOL_MODELING →
        exportSat bodies g v = .error (.exportError "invalid export version")) ∧
    (∀ (pat sv ev co cu : ERef) (sp ep : ℚ) (sense : Bool) (cx : String)
        (st : List Nat),
        ((writeFields st (fieldsOf (.edge pat sv sp ev ep co cu sense cx))).2)[2]?
            = some (.num sp) ∧
        ((writeFields st (fieldsOf (.edge pat sv sp ev ep co cu sense cx))).2)[4]?
            = some (.num ep) ∧
        ((writeFields st (fieldsOf (.edge pat sv sp ev ep co cu sense cx))).2)[8]?
            = some (.str cx)) ∧
    (∀ (v : Int) (names : Nat → Option String) (st : List Nat)
        (pat sv ev co cu : ERef) (sp ep : ℚ) (sense : Bool) (cx : String)
        (e' : TEntity),
        v ≥ featTOL_MODELING →
        restoreEdge v names
          ((writeFields st (fieldsOf (.edge pat sv sp ev ep co cu sense cx))).2)
          = .ok e' →
        edgeParams e' = some (sp, ep, cx)) := by
  refine ⟨?_, ?_, ?_, ?_⟩
  · intro v hv names toks
    have hneg : ¬(v ≥ featTOL_MODELING) := not_le.mpr hv
    unfold restoreEdge restoreEdgeBelowSpec
    simp only [if_neg hneg]
  · intro bodies g v hv
    unfold exportSat
    have : validExportVersion v = false := by
      unfold validExportVersion
      unfold featTOL_MODELING at hv
      simp only [Bool.or_eq_false_iff, decide_eq_false_iff_not]
      omega
    rw [this]
    simp
  · intro pat sv ev co cu sp ep sense cx st
    simp only [fieldsOf, writeFields_cons_ref, writeFields_cons_num,
      writeFields_cons_str, writeFields_nil]
    refine ⟨rfl, rfl, rfl⟩
  · intro v names st pat sv ev co cu sp ep sense cx e' hv hres
    simp only [fieldsOf, writeFields_cons_ref, writeFields_cons_num,
      writeFields_cons_str, writeFields_nil] at hres
    exact restoreEdge_shape v names _ _ _ _ _ sp ep _ cx e' hv hres

/-- Witness for C6: below the threshold (version 650) the reader equals
the no-tolerance reader and export rejects the version outright; at
version 700 a concrete edge writes its parameters 1/2, 3/4 and convexity
`"convex"` at the expected positions and restoring the written record
recovers exactly those values. -/
theorem C6_edge_version_gate_witness :
    restoreEdge 650 (fun _ => Option.none) [] =
      restoreEdgeBelowSpec 650 (fun _ => Option.none) [] ∧
    exportSat [] [] 650 = .error (.exportError "invalid export version") ∧
    ((writeFields [] (fieldsOf
        (.edge .none .none (1/2) .none (3/4) .none .none true "convex"))).2)[2]?
      = some (.num (1/2)) ∧
    edgeParams (.edge .none .none (1/2) .none (3/4) .none .none true "convex")
      = some (1/2, 3/4, "convex") ∧
    (∀ e' : TEntity,
      restoreEdge 700 (fun _ => Option.none)
        ((writeFields [] (fieldsOf
          (.edge .none .none (1/2) .none (3/4) .none .none true "convex"))).2)
        = .ok e' →
      edgeParams e' = some (1/2, 3/4, "convex")) := by
  refine ⟨C6_edge_version_gate.1 650 (by decide) _ _,
    C6_edge_version_gate.2.1 [] [] 650 (by decide),
    (C6_edge_version_gate.2.2.1 .none .none .none .none .none (1/2) (3/4)
      true "convex" []).1, rfl, ?_⟩
  intro e' h
  exact C6_edge_version_gate.2.2.2 700 _ [] .none .none .none .none .none
    (1/2) (3/4) true "convex" e' (by decide) h

/- ===================  traversal toolkit  =================== -/

/-- `a` is an initial segment of `b`. -/
def PrefixOf (a b : List Nat) : Prop :=
  ∃ t, b = a ++ t

theorem prefixOf_rfl (a : List Nat) : PrefixOf a a :=
  ⟨[], by simp⟩

theorem prefixOf_trans {a b c : List Nat}
    (h1 : PrefixOf a b) (h2 : PrefixOf b c) : PrefixOf a c := by
  obtain ⟨t1, rfl⟩ := h1
  obtain ⟨t2, rfl⟩ := h2
  exact ⟨t1 ++ t2, by simp⟩

theorem prefixOf_mem {a b : List Nat} {x : Nat}
    (h : PrefixOf a b) (hx : x ∈ a) : x ∈ b := by
  obtain ⟨t, rfl⟩ := h
  exact List.mem_append_left t hx

theorem prefixOf_length {a b : List Nat} (h : PrefixOf a b) :
    a.length ≤ b.length := by
  obtain ⟨t, rfl⟩ := h
  simp

theorem prefixOf_getElem {a b : List Nat} {i : Nat}
    (h : PrefixOf a b) (hi : i < a.length) : b[i]? = a[i]? := by
  obtain ⟨t, rfl⟩ := h
  exact List.getElem?_append_left hi

theorem memOfGetElem {α : Type} {l : List α} {p : Nat} {i : α}
    (h : l[p]? = some i) : i ∈ l := by
  induction l generalizing p with
  | nil => simp at h
  | cons b rest ih =>
      cases p with
      | zero =>
          simp only [List.getElem?_cons_zero, Option.some.injEq] at h
          simp [h]
      | succ q =>
          simp only [List.getElem?_cons_succ] at h
          exact List.mem_cons_of_mem _ (ih h)

theorem posOf_lt_length {l : List Nat} {i p : Nat}
    (h : posOf l i = some p) : p < l.length := by
  induction l generalizing p with
  | nil => simp [posOf] at h
  | cons b rest ih =>
      simp only [posOf] at h
      by_cases hb : b = i
      · rw [if_pos hb] at h
        simp only [Option.some.injEq] at h
        simp [← h]
      · rw [if_neg hb] at h
        cases hp : posOf rest i with
        | none => rw [hp] at h; exact absurd h (by simp)
        | some q =>
            rw [hp] at h
            simp only [Option.map_some', Option.some.injEq] at h
            have := ih hp
            simp only [List.length_cons]
            omega

theorem posOf_getElem {l : List Nat} {i p : Nat}
    (h : posOf l i = some p) : l[p]? = some i := by
  induction l generalizing p with
  | nil => simp [posOf] at h
  | cons b rest ih =>
      simp only [posOf] at h
      by_cases hb : b = i
      · rw [if_pos hb] at h
        simp only [Option.some.injEq] at h
        subst hb
        simp [← h]
      · rw [if_neg hb] at h
        cases hp : posOf rest i with
        | none => rw [hp] at h; exact absurd h (by simp)
        | some q =>
            rw [hp] at h
            simp only [Option.map_some', Option.some.injEq] at h
            subst h
            simpa using ih hp

theorem posOf_isSome_iff_mem (l : List Nat) (i : Nat) :
    (posOf l i).isSome ↔ i ∈ l := by
  induction l with
  | nil => simp [posOf]
  | cons b rest ih =>
      simp only [posOf]
      by_cases hb : b = i
      · subst hb; simp
      · rw [if_neg hb]
        cases hp : posOf rest i with
        | none =>
            rw [hp] at ih
            simp only [Option.map_none', List.mem_cons]
            simp only [Option.isSome_none, Bool.false_eq_true, false_iff] at ih ⊢
            intro hor
            rcases hor with h | h
            · exact hb h.symm
            · exact ih h
        | some q =>
            rw [hp] at ih
            simp only [Option.map_some', List.mem_cons]
            simp only [Option.isSome_some, true_iff] at ih
            simp [ih]

theorem posOf_eq_none_iff (l : List Nat) (i : Nat) :
    posOf l i = none ↔ i ∉ l := by
  rw [← posOf_isSome_iff_mem]
  cases posOf l i <;> simp

theorem posOf_grows {a b : List Nat} {i : Nat}
    (h : PrefixOf a b) (hi : i ∈ a) : posOf b i = posOf a i := by
  obtain ⟨t, rfl⟩ := h
  induction a with
  | nil => simp at hi
  | cons x rest ih =>
      rw [List.cons_append]
      simp only [posOf]
      by_cases hx : x = i
      · simp [hx]
      · rw [if_neg hx, if_neg hx]
        have hi' : i ∈ rest := by
          rcases List.mem_cons.mp hi with h | h
          · exact absurd h.symm hx
          · exact h
        rw [ih hi']

theorem posOf_append_new {a : List Nat} {i : Nat} (hni : i ∉ a) :
    posOf (a ++ [i]) i = some a.length := by
  induction a with
  | nil => simp [posOf]
  | cons x rest ih =>
      have hx : x ≠ i := fun h => hni (by simp [h])
      have hni' : i ∉ rest := fun h => hni (by simp [h])
      rw [List.cons_append]
      simp only [posOf, if_neg hx, ih hni']
      simp

theorem posOf_nodup_getElem {l : List Nat} {i p : Nat}
    (hd : l.Nodup) (h : l[p]? = some i) : posOf l i = some p := by
  induction l generalizing p with
  | nil => simp at h
  | cons b rest ih =>
      cases p with
      | zero =>
          simp only [List.getElem?_cons_zero, Option.some.injEq] at h
          subst h
          simp [posOf]
      | succ q =>
          simp only [List.getElem?_cons_succ] at h
          have hd' := (List.nodup_cons.mp hd).2
          have hbni := (List.nodup_cons.mp hd).1
          have hb : b ≠ i := by
            intro hbi
            subst hbi
            exact hbni (memOfGetElem h)
          simp only [posOf, if_neg hb, ih hd' h]
          rfl

theorem posOf_range {i n : Nat} (h : i < n) :
    posOf (List.range n) i = some i := by
  have hd : (List.range n).Nodup := List.nodup_range n
  exact posOf_nodup_getElem hd (by simp [h])

theorem pushNew_grows (l : List Nat) (a : Nat) : PrefixOf l (pushNew l a) := by
  unfold pushNew
  by_cases h : a ∈ l
  · rw [if_pos h]; exact prefixOf_rfl l
  · rw [if_neg h]; exact ⟨[a], rfl⟩

theorem mem_pushNew (l : List Nat) (a : Nat) : a ∈ pushNew l a := by
  unfold pushNew
  by_cases h : a ∈ l
  · rw [if_pos h]; exact h
  · rw [if_neg h]; simp

theorem pushNew_cases {l : List Nat} {a x : Nat} (h : x ∈ pushNew l a) :
    x ∈ l ∨ x = a := by
  unfold pushNew at h
  by_cases hm : a ∈ l
  · rw [if_pos hm] at h; exact Or.inl h
  · rw [if_neg hm] at h
    rcases List.mem_append.mp h with h | h
    · exact Or.inl h
    · simp at h; exact Or.inr h

theorem pushNew_nodup {l : List Nat} {a : Nat} (hd : l.Nodup) :
    (pushNew l a).Nodup := by
  unfold pushNew
  by_cases h : a ∈ l
  · rw [if_pos h]; exact hd
  · rw [if_neg h]
    refine List.Nodup.append hd (List.nodup_singleton a) ?_
    intro x hx hxa
    simp only [List.mem_singleton] at hxa
    subst hxa
    exact h hx

theorem pushRef_grows (l : List Nat) (r : ERef) : PrefixOf l (pushRef l r) := by
  cases r with
  | none => exact prefixOf_rfl l
  | ent i => exact pushNew_grows l i

theorem pushRef_cases {l : List Nat} {r : ERef} {x : Nat}
    (h : x ∈ pushRef l r) : x ∈ l ∨ r = .ent x := by
  cases r with
  | none => exact Or.inl h
  | ent i =>
      rcases pushNew_cases h with h | h
      · exact Or.inl h
      · exact Or.inr (by rw [h])

theorem pushRef_nodup {l : List Nat} {r : ERef} (hd : l.Nodup) :
    (pushRef l r).Nodup := by
  cases r with
  | none => exact hd
  | ent i => exact pushNew_nodup hd

theorem foldl_pushRef_grows (rs : List ERef) (l : List Nat) :
    PrefixOf l (rs.foldl pushRef l) := by
  induction rs generalizing l with
  | nil => exact prefixOf_rfl l
  | cons r rest ih =>
      exact prefixOf_trans (pushRef_grows l r) (ih (pushRef l r))

theorem mem_foldl_pushRef {rs : List ERef} {l : List Nat} {i : Nat}
    (h : ERef.ent i ∈ rs) : i ∈ rs.foldl pushRef l := by
  induction rs generalizing l with
  | nil => simp at h
  | cons r rest ih =>
      rcases List.mem_cons.mp h with h | h
      · subst h
        exact prefixOf_mem (foldl_pushRef_grows rest (pushRef l (.ent i)))
          (mem_pushNew l i)
      · exact ih h

theorem foldl_pushRef_cases {rs : List ERef} {l : List Nat} {x : Nat}
    (h : x ∈ rs.foldl pushRef l) : x ∈ l ∨ ERef.ent x ∈ rs := by
  induction rs generalizing l with
  | nil => exact Or.inl h
  | cons r rest ih =>
      rcases ih h with h' | h'
      · rcases pushRef_cases h' with h2 | h2
        · exact Or.inl h2
        · exact Or.inr (by simp [h2])
      · exact Or.inr (by simp [h'])

theorem foldl_pushRef_nodup {rs : List ERef} {l : List Nat} (hd : l.Nodup) :
    (rs.foldl pushRef l).Nodup := by
  induction rs generalizing l with
  | nil => exact hd
  | cons r rest ih => exact ih (pushRef_nodup hd)

theorem assignRef_fst (st : List Nat) (r : ERef) :
    (assignRef st r).1 = pushRef st r := by
  cases r with
  | none => rfl
  | ent i =>
      simp only [assignRef, pushRef, pushNew]
      cases hp : posOf st i with
      | none =>
          simp only [hp]
          rw [if_neg ((posOf_eq_none_iff st i).mp hp)]
      | some p =>
          simp only [hp]
          rw [if_pos (by
            have := posOf_isSome_iff_mem st i
            rw [hp] at this
            simpa using this)]

/-- The pointer a reference serializes to, relative to a final
assignment list. -/
def refPtr (stF : List Nat) : ERef → Option Nat
  | .none => Option.none
  | .ent i => posOf stF i

/-- The pointer token emitted for a reference is the final-assignment
pointer, provided the evolving state stays a prefix of the final list. -/
theorem assignRef_snd (st stF : List Nat) (r : ERef)
    (h1 : PrefixOf st stF) (h2 : PrefixOf (assignRef st r).1 stF) :
    (assignRef st r).2 = refPtr stF r := by
  cases r with
  | none => rfl
  | ent i =>
      simp only [assignRef, refPtr]
      cases hp : posOf st i with
      | some p =>
          simp only [hp]
          have hmem : i ∈ st := by
            have := posOf_isSome_iff_mem st i
            rw [hp] at this
            simpa using this
          rw [posOf_grows h1 hmem, hp]
      | none =>
          simp only [hp]
          have hni : i ∉ st := (posOf_eq_none_iff st i).mp hp
          rw [assignRef_fst] at h2
          simp only [pushRef, pushNew] at h2
          rw [if_neg hni] at h2
          obtain ⟨t, ht⟩ := h2
          have : posOf stF i = some st.length := by
            rw [ht, List.append_assoc]
            have : posOf (st ++ ([i] ++ t)) i = posOf (st ++ [i]) i := by
              rw [← List.append_assoc]
              exact posOf_grows ⟨t, by simp⟩ (by simp)
            rw [this]
            exact posOf_append_new hni
          rw [this]

/-- The data token a field serializes to, relative to a final
assignment. -/
def fieldDTok (stF : List Nat) : FTok → Option DTok
  | .ref _ r => some (.ptr (refPtr stF r))
  | .num q => some (.num q)
  | .str s => some (.str s)
  | .skipInt => Option.none

/-- The data tokens a field layout serializes to, relative to a final
assignment. -/
def fieldDToks (stF : List Nat) (fs : List FTok) : List DTok :=
  fs.filterMap (fieldDTok stF)

theorem writeFields_fst (st : List Nat) (fs : List FTok) :
    (writeFields st fs).1 = (fs.filterMap refOfFTok).foldl pushRef st := by
  induction fs generalizing st with
  | nil => rfl
  | cons f rest ih =>
      cases f with
      | ref exp r =>
          rw [writeFields_cons_ref]
          simp only [List.filterMap_cons]
          simp only [refOfFTok]
          rw [List.foldl_cons, ih, assignRef_fst]
      | num q =>
          rw [writeFields_cons_num]
          simpa only [List.filterMap_cons, refOfFTok] using ih st
      | str s =>
          rw [writeFields_cons_str]
          simpa only [List.filterMap_cons, refOfFTok] using ih st
      | skipInt =>
          rw [writeFields_cons_skip]
          simpa only [List.filterMap_cons, refOfFTok] using ih st

theorem writeFields_grows (st : List Nat) (fs : List FTok) :
    PrefixOf st (writeFields st fs).1 := by
  rw [writeFields_fst]
  exact foldl_pushRef_grows _ st

theorem writeFields_snd (st stF : List Nat) (fs : List FTok)
    (h2 : PrefixOf (writeFields st fs).1 stF) :
    (writeFields st fs).2 = fieldDToks stF fs := by
  induction fs generalizing st with
  | nil => rfl
  | cons f rest ih =>
      cases f with
      | ref exp r =>
          rw [writeFields_cons_ref] at h2 ⊢
          have hpre1 : PrefixOf (assignRef st r).1 stF :=
            prefixOf_trans (writeFields_grows (assignRef st r).1 rest) h2
          have hpre0 : PrefixOf st stF := by
            refine prefixOf_trans ?_ hpre1
            rw [assignRef_fst]
            exact pushRef_grows st r
          have := assignRef_snd st stF r hpre0 hpre1
          simp only [fieldDToks, List.filterMap_cons, fieldDTok]
          rw [this] at *
          simp only [List.cons.injEq]
          exact ⟨trivial, ih (assignRef st r).1 h2⟩
      | num q =>
          rw [writeFields_cons_num] at h2 ⊢
          simp only [fieldDToks, List.filterMap_cons, fieldDTok]
          simp only [List.cons.injEq]
          exact ⟨trivial, ih st h2⟩
      | str s =>
          rw [writeFields_cons_str] at h2 ⊢
          simp only [fieldDToks, List.filterMap_cons, fieldDTok]
          simp only [List.cons.injEq]
          exact ⟨trivial, ih st h2⟩
      | skipInt =>
          rw [writeFields_cons_skip] at h2 ⊢
          simp only [fieldDToks, List.filterMap_cons, fieldDTok]
          exact ih st h2

theorem writeEntity_ok_of {e : TEntity} (st : List Nat)
    (h : serializable e = true) :
    writeEntity st e = .ok (writeFields st (fieldsOf e)) := by
  cases e <;> first
    | rfl
    | simp [serializable] at h

theorem writeEntity_serializable {e : TEntity} {st : List Nat}
    {x : List Nat × List DTok} (h : writeEntity st e = .ok x) :
    serializable e = true := by
  cases e <;> first
    | rfl
    | simp [writeEntity] at h

theorem serializeNode_ok_of {nd : TNode} (st : List Nat)
    (h : serializable nd.entity = true) :
    serializeNode st nd =
      .ok ((writeFields (assignRef st nd.attributes).1 (fieldsOf nd.entity)).1,
           (assignRef st nd.attributes).2,
           (writeFields (assignRef st nd.attributes).1 (fieldsOf nd.entity)).2) := by
  unfold serializeNode
  rcases ha : assignRef st nd.attributes with ⟨s1, ap⟩
  simp only []
  rw [writeEntity_ok_of s1 h]

/-- The state after serializing one node is the fold of its references
into the assignment. -/
theorem serializeNode_state {nd : TNode} (st : List Nat)
    (h : serializable nd.entity = true) :
    (writeFields (assignRef st nd.attributes).1 (fieldsOf nd.entity)).1 =
      (nodeRefs nd).foldl pushRef st := by
  rw [writeFields_fst, assignRef_fst]
  rfl

theorem nodup_bounded_length {l : List Nat} {n : Nat} (hd : l.Nodup)
    (hb : ∀ a ∈ l, a < n) : l.length ≤ n := by
  have h1 : l.toFinset.card = l.length := List.toFinset_card_of_nodup hd
  have h2 : l.toFinset ⊆ Finset.range n := by
    intro x hx
    simp only [List.mem_toFinset] at hx
    exact Finset.mem_range.mpr (hb x hx)
  have h3 := Finset.card_le_card h2
  rw [h1, Finset.card_range] at h3
  exact h3

/-- The record the exporter emits for traversal position `p`, relative
to the final assignment `stF` (junk outside the traversal range). -/
def recOfD (g : List TNode) (stF : List Nat) (p : Nat) : SRecord :=
  match stF[p]? with
  | some a =>
    match g[a]? with
    | some nd =>
        ⟨kindName nd.entity, refPtr stF nd.attributes, (p : Int),
         fieldDToks stF (fieldsOf nd.entity)⟩
    | Option.none => ⟨"", Option.none, 0, []⟩
  | Option.none => ⟨"", Option.none, 0, []⟩

/-- Export-side well-formedness of an arena: every entity is
serializable (no unsupported placeholders, no patterns) and every
reference stays inside the arena. -/
def WfG (g : List TNode) : Prop :=
  ∀ nd ∈ g, serializable nd.entity = true ∧
    ∀ i : Nat, ERef.ent i ∈ nodeRefs nd → i < g.length

/-- Master characterization of the exporter's traversal loop on a
well-formed arena: the loop succeeds, the assignment list only grows,
stays duplicate-free and in range, every position from `k` on is
serialized to its `recOfD` record, and the final assignment is closed
under the references of the entities it reaches. -/
theorem exportLoop_master (g : List TNode) (hg : WfG g) :
    ∀ (fuel : Nat) (st : List Nat) (k : Nat) (acc : List SRecord),
      st.Nodup → (∀ a ∈ st, a < g.length) → g.length - k < fuel →
      ∃ st',
        exportLoop g fuel st k acc =
          .ok ((((List.range' k (st'.length - k)).map (recOfD g st')).reverse)
                ++ acc, st') ∧
        PrefixOf st st' ∧ st'.Nodup ∧ (∀ a ∈ st', a < g.length) ∧
        (∀ p a nd, k ≤ p → st'[p]? = some a → g[a]? = some nd →
          ∀ i : Nat, ERef.ent i ∈ nodeRefs nd → i ∈ st') := by
  intro fuel
  induction fuel with
  | zero => intro st k acc _ _ hfuel; exact absurd hfuel (by omega)
  | succ fuel ih =>
      intro st k acc hd hb hfuel
      cases hak : st[k]? with
      | none =>
          have hk : ¬ k < st.length := by
            intro hk
            rw [List.getElem?_eq_getElem hk] at hak
            exact absurd hak (by simp)
          refine ⟨st, ?_, prefixOf_rfl st, hd, hb, ?_⟩
          · have h0 : st.length - k = 0 := by omega
            rw [h0]
            show exportLoop g (fuel + 1) st k acc = _
            unfold exportLoop
            rw [hak]
            simp
          · intro p a nd hkp hpa hnd i hi
            have hp : p < st.length := by
              by_contra hge
              rw [List.getElem?_eq_none (by omega)] at hpa
              exact absurd hpa (by simp)
            omega
      | some a =>
          have hk : k < st.length := by
            by_contra hge
            rw [List.getElem?_eq_none (by omega)] at hak
            exact absurd hak (by simp)
          have hmem : a ∈ st := memOfGetElem hak
          have halt : a < g.length := hb a hmem
          cases hga : g[a]? with
          | none =>
              exact absurd hga (by rw [List.getElem?_eq_getElem halt]; simp)
          | some nd =>
              have hndmem : nd ∈ g := memOfGetElem hga
              obtain ⟨hser, hrefs⟩ := hg nd hndmem
              have hser' := serializeNode_ok_of st hser
              have hstep : (writeFields (assignRef st nd.attributes).1
                  (fieldsOf nd.entity)).1 = (nodeRefs nd).foldl pushRef st :=
                serializeNode_state st hser
              set st1 := (nodeRefs nd).foldl pushRef st with hst1
              have hd1 : st1.Nodup := foldl_pushRef_nodup hd
              have hb1 : ∀ x ∈ st1, x < g.length := by
                intro x hx
                rcases foldl_pushRef_cases hx with h | h
                · exact hb x h
                · exact hrefs x h
              have hlen : st.length ≤ g.length := nodup_bounded_length hd hb
              have hfuel1 : g.length - (k + 1) < fuel := by omega
              obtain ⟨st', hloop, hpre, hd', hb', hclosed⟩ :=
                ih st1 (k + 1)
                  (⟨kindName nd.entity, (assignRef st nd.attributes).2, (k : Int),
                    (writeFields (assignRef st nd.attributes).1
                      (fieldsOf nd.entity)).2⟩ :: acc) hd1 hb1 hfuel1
              have hpre01 : PrefixOf st st1 := by
                rw [hst1]
                exact foldl_pushRef_grows _ st
              have hpre0 : PrefixOf st st' := prefixOf_trans hpre01 hpre
              have hpA : PrefixOf st (assignRef st nd.attributes).1 := by
                rw [assignRef_fst]
                exact pushRef_grows _ _
              have hpB : PrefixOf (assignRef st nd.attributes).1 st' := by
                refine prefixOf_trans ?_ hpre
                have h1 := writeFields_grows (assignRef st nd.attributes).1
                  (fieldsOf nd.entity)
                rw [hstep] at h1
                exact h1
              refine ⟨st', ?_, hpre0, hd', hb', ?_⟩
              · have hstepEq : exportLoop g (fuel + 1) st k acc =
                    exportLoop g fuel st1 (k + 1)
                      (⟨kindName nd.entity, (assignRef st nd.attributes).2,
                        (k : Int),
                        (writeFields (assignRef st nd.attributes).1
                          (fieldsOf nd.entity)).2⟩ :: acc) := by
                  conv_lhs => unfold exportLoop
                  rw [hak]
                  simp only []
                  rw [hga]
                  simp only []
                  rw [hser']
                  simp only []
                  rw [hstep]
                rw [hstepEq, hloop]
                have hk' : k < st'.length :=
                  lt_of_lt_of_le hk (prefixOf_length hpre0)
                have hrange : st'.length - k = (st'.length - (k + 1)) + 1 := by
                  omega
                rw [hrange, List.range'_succ, List.map_cons, List.reverse_cons]
                have hrec : recOfD g st' k = ⟨kindName nd.entity,
                    (assignRef st nd.attributes).2, (k : Int),
                    (writeFields (assignRef st nd.attributes).1
                      (fieldsOf nd.entity)).2⟩ := by
                  unfold recOfD
                  rw [prefixOf_getElem hpre0 hk, hak]
                  simp only []
                  rw [hga]
                  simp only []
                  rw [assignRef_snd st st' nd.attributes hpre0 hpB]
                  rw [writeFields_snd (assignRef st nd.attributes).1 st'
                    (fieldsOf nd.entity) (by rw [hstep]; exact hpre)]
                rw [hrec]
                simp [List.append_assoc]
              · intro p x nd' hkp hpa hnd i hi
                by_cases hpk : p = k
                · subst hpk
                  rw [prefixOf_getElem hpre0 hk, hak] at hpa
                  simp only [Option.some.injEq] at hpa
                  subst hpa
                  rw [hga] at hnd
                  simp only [Option.some.injEq] at hnd
                  subst hnd
                  exact prefixOf_mem hpre (mem_foldl_pushRef hi)
                · exact hclosed p x nd' (by omega) hpa hnd i hi

theorem writeEntity_ok_inv {e : TEntity} {st : List Nat}
    {x : List Nat × List DTok} (h : writeEntity st e = .ok x) :
    serializable e = true ∧ x = writeFields st (fieldsOf e) := by
  cases e <;> simp_all [writeEntity, serializable]

theorem writeEntity_err_kind {e : TEntity} {st : List Nat} {err : PyErr}
    (h : writeEntity st e = .error err) : ∃ m, err = .exportError m := by
  cases e <;> simp_all [writeEntity] <;> exact ⟨_, h.symm⟩

theorem serializeNode_ok_inv {nd : TNode} {st st1 : List Nat}
    {ap : Option Nat} {toks : List DTok}
    (h : serializeNode st nd = .ok (st1, ap, toks)) :
    serializable nd.entity = true ∧ st1 = (nodeRefs nd).foldl pushRef st := by
  unfold serializeNode at h
  rcases ha : assignRef st nd.attributes with ⟨s1, a⟩
  rw [ha] at h
  simp only [] at h
  cases hw : writeEntity s1 nd.entity with
  | error e => rw [hw] at h; exact absurd h (by simp)
  | ok pr =>
      obtain ⟨s2, tk⟩ := pr
      rw [hw] at h
      simp only [Except.ok.injEq, Prod.mk.injEq] at h
      obtain ⟨hser, hx⟩ := writeEntity_ok_inv hw
      refine ⟨hser, ?_⟩
      rw [← h.1]
      have h2 : s2 = (writeFields s1 (fieldsOf nd.entity)).1 := by rw [← hx]
      rw [h2, writeFields_fst]
      have h1 : s1 = pushRef st nd.attributes := by
        rw [← assignRef_fst, ha]
      rw [h1]
      rfl

theorem serializeNode_err_kind {nd : TNode} {st : List Nat} {err : PyErr}
    (h : serializeNode st nd = .error err) : ∃ m, err = .exportError m := by
  unfold serializeNode at h
  rcases ha : assignRef st nd.attributes with ⟨s1, a⟩
  rw [ha] at h
  simp only [] at h
  cases hw : writeEntity s1 nd.entity with
  | error e =>
      rw [hw] at h
      simp only [Except.error.injEq] at h
      subst h
      exact writeEntity_err_kind hw
  | ok pr => obtain ⟨s2, tk⟩ := pr; rw [hw] at h; exact absurd h (by simp)

/-- Reference well-formedness alone: every reference of every node stays
inside the arena.  In Python a reference field holds an entity object of
the graph, so this is implicit there; the arena embedding states it
explicitly. -/
def WfRefs (g : List TNode) : Prop :=
  ∀ nd ∈ g, ∀ i : Nat, ERef.ent i ∈ nodeRefs nd → i < g.length

/-- The executable form of [WfRefs]. -/
def wfRefsB (g : List TNode) : Bool :=
  g.all (fun nd => (nodeRefs nd).all (fun r =>
    match r with
    | .none => true
    | .ent i => decide (i < g.length)))

theorem wfRefs_of_bool {g : List TNode} (h : wfRefsB g = true) : WfRefs g := by
  intro nd hnd i hi
  have h1 := List.all_eq_true.mp h nd hnd
  have h2 := List.all_eq_true.mp h1 _ hi
  simpa using h2

/-- Entities reachable from the export roots along the attribute and
field references. -/
inductive Reach (g : List TNode) (roots : List Nat) : Nat → Prop
  | root {r : Nat} : r ∈ roots → Reach g roots r
  | step {i j : Nat} {nd : TNode} : Reach g roots i → g[i]? = some nd →
      ERef.ent j ∈ nodeRefs nd → Reach g roots j

/-- Success analysis of the traversal loop: a successful run extends the
assignment, preserves freedom from duplicates and the range bound, and
every traversed position holds a serializable entity all of whose
references got assigned. -/
theorem exportLoop_ok_closure (g : List TNode) :
    ∀ (fuel : Nat) (st : List Nat) (k : Nat) (acc acc' : List SRecord)
      (st' : List Nat), exportLoop g fuel st k acc = .ok (acc', st') →
      PrefixOf st st' ∧ (st.Nodup → st'.Nodup) ∧
      (WfRefs g → (∀ a ∈ st, a < g.length) → ∀ a ∈ st', a < g.length) ∧
      (∀ p a nd, k ≤ p → st'[p]? = some a → g[a]? = some nd →
        serializable nd.entity = true ∧
        ∀ i : Nat, ERef.ent i ∈ nodeRefs nd → i ∈ st') := by
  intro fuel
  induction fuel with
  | zero =>
      intro st k acc acc' st' h
      unfold exportLoop at h
      by_cases hk : k < st.length
      · rw [if_pos hk] at h; exact absurd h (by simp)
      · rw [if_neg hk] at h
        simp only [Except.ok.injEq, Prod.mk.injEq] at h
        obtain ⟨-, h2⟩ := h
        subst h2
        refine ⟨prefixOf_rfl st, fun hd => hd, fun _ hb => hb, ?_⟩
        intro p a nd hkp hpa _
        have hp : p < st.length := by
          by_contra hge
          rw [List.getElem?_eq_none (by omega)] at hpa
          exact absurd hpa (by simp)
        omega
  | succ fuel ih =>
      intro st k acc acc' st' h
      cases hak : st[k]? with
      | none =>
          have hrun : exportLoop g (fuel + 1) st k acc = .ok (acc, st) := by
            unfold exportLoop
            rw [hak]
          rw [hrun] at h
          simp only [Except.ok.injEq, Prod.mk.injEq] at h
          obtain ⟨-, h2⟩ := h
          subst h2
          refine ⟨prefixOf_rfl st, fun hd => hd, fun _ hb => hb, ?_⟩
          intro p a nd hkp hpa _
          have hp : p < st.length := by
            by_contra hge
            rw [List.getElem?_eq_none (by omega)] at hpa
            exact absurd hpa (by simp)
          have hk : ¬ k < st.length := by
            intro hk
            rw [List.getElem?_eq_getElem hk] at hak
            exact absurd hak (by simp)
          omega
      | some a =>
          have hk : k < st.length := by
            by_contra hge
            rw [List.getElem?_eq_none (by omega)] at hak
            exact absurd hak (by simp)
          cases hga : g[a]? with
          | none =>
              have hrun : exportLoop g (fuel + 1) st k acc =
                  .error (.invalidLink "reference outside the graph") := by
                unfold exportLoop
                rw [hak]
                simp only []
                rw [hga]
              rw [hrun] at h
              exact absurd h (by simp)
          | some nd =>
              have hndmem : nd ∈ g := memOfGetElem hga
              cases hsn : serializeNode st nd with
              | error e =>
                  have hrun : exportLoop g (fuel + 1) st k acc = .error e := by
                    unfold exportLoop
                    rw [hak]
                    simp only []
                    rw [hga]
                    simp only []
                    rw [hsn]
                  rw [hrun] at h
                  exact absurd h (by simp)
              | ok pr =>
                  obtain ⟨st1, ap, toks⟩ := pr
                  have hrun : exportLoop g (fuel + 1) st k acc =
                      exportLoop g fuel st1 (k + 1)
                        (⟨kindName nd.entity, ap, (k : Int), toks⟩ :: acc) := by
                    conv_lhs => unfold exportLoop
                    rw [hak]
                    simp only []
                    rw [hga]
                    simp only []
                    rw [hsn]
                  rw [hrun] at h
                  obtain ⟨hser, hst1⟩ := serializeNode_ok_inv hsn
                  obtain ⟨hpre, hnd', hbd', hclosed⟩ :=
                    ih st1 (k + 1) _ acc' st' h
                  have hpre01 : PrefixOf st st1 := by
                    rw [hst1]
                    exact foldl_pushRef_grows _ st
                  have hpre0 : PrefixOf st st' := prefixOf_trans hpre01 hpre
                  refine ⟨hpre0, ?_, ?_, ?_⟩
                  · intro hd
                    refine hnd' ?_
                    rw [hst1]
                    exact foldl_pushRef_nodup hd
                  · intro hrefs hb
                    refine hbd' hrefs ?_
                    intro x hx
                    rw [hst1] at hx
                    rcases foldl_pushRef_cases hx with hx1 | hx1
                    · exact hb x hx1
                    · exact hrefs nd hndmem x hx1
                  · intro p x nd' hkp hpa hnd
                    by_cases hpk : p = k
                    · subst hpk
                      rw [prefixOf_getElem hpre0 hk, hak] at hpa
                      simp only [Option.some.injEq] at hpa
                      subst hpa
                      rw [hga] at hnd
                      simp only [Option.some.injEq] at hnd
                      subst hnd
                      refine ⟨hser, ?_⟩
                      intro i hi
                      refine prefixOf_mem hpre ?_
                      rw [hst1]
                      exact mem_foldl_pushRef hi
                    · exact hclosed p x nd' (by omega) hpa hnd

/-- Progress of the traversal loop on a reference-closed arena: the run
either succeeds or stops with an error of the export-error kind (the
`write_common` rejections); no other error kind can surface. -/
theorem exportLoop_progress (g : List TNode) (hrefs : WfRefs g) :
    ∀ (fuel : Nat) (st : List Nat) (k : Nat) (acc : List SRecord),
      st.Nodup → (∀ a ∈ st, a < g.length) → g.length - k < fuel →
      (∃ res, exportLoop g fuel st k acc = .ok res) ∨
      (∃ m, exportLoop g fuel st k acc = .error (.exportError m)) := by
  intro fuel
  induction fuel with
  | zero => intro st k acc _ _ hfuel; exact absurd hfuel (by omega)
  | succ fuel ih =>
      intro st k acc hd hb hfuel
      cases hak : st[k]? with
      | none =>
          left
          refine ⟨(acc, st), ?_⟩
          unfold exportLoop
          rw [hak]
      | some a =>
          have hk : k < st.length := by
            by_contra hge
            rw [List.getElem?_eq_none (by omega)] at hak
            exact absurd hak (by simp)
          have hmem : a ∈ st := memOfGetElem hak
          have halt : a < g.length := hb a hmem
          cases hga : g[a]? with
          | none =>
              exact absurd hga (by rw [List.getElem?_eq_getElem halt]; simp)
          | some nd =>
              have hndmem : nd ∈ g := memOfGetElem hga
              cases hsn : serializeNode st nd with
              | error e =>
                  right
                  obtain ⟨m, hm⟩ := serializeNode_err_kind hsn
                  refine ⟨m, ?_⟩
                  rw [← hm]
                  unfold exportLoop
                  rw [hak]
                  simp only []
                  rw [hga]
                  simp only []
                  rw [hsn]
              | ok pr =>
                  obtain ⟨st1, ap, toks⟩ := pr
                  obtain ⟨hser, hst1⟩ := serializeNode_ok_inv hsn
                  have hd1 : st1.Nodup := by
                    rw [hst1]
                    exact foldl_pushRef_nodup hd
                  have hb1 : ∀ x ∈ st1, x < g.length := by
                    intro x hx
                    rw [hst1] at hx
                    rcases foldl_pushRef_cases hx with hx1 | hx1
                    · exact hb x hx1
                    · exact hrefs nd hndmem x hx1
                  have hlen : st.length ≤ g.length := nodup_bounded_length hd hb
                  have hfuel1 : g.length - (k + 1) < fuel := by omega
                  have hrun : exportLoop g (fuel + 1) st k acc =
                      exportLoop g fuel st1 (k + 1)
                        (⟨kindName nd.entity, ap, (k : Int), toks⟩ :: acc) := by
                    conv_lhs => unfold exportLoop
                    rw [hak]
                    simp only []
                    rw [hga]
                    simp only []
                    rw [hsn]
                  rcases ih st1 (k + 1)
                      (⟨kindName nd.entity, ap, (k : Int), toks⟩ :: acc)
                      hd1 hb1 hfuel1 with hok | herr
                  · left; obtain ⟨res, hres⟩ := hok
                    exact ⟨res, by rw [hrun, hres]⟩
                  · right; obtain ⟨m, hm⟩ := herr
                    exact ⟨m, by rw [hrun, hm]⟩

/-- Success analysis of the per-root driver: every root ends up
assigned, and the traversed-position property holds from the entry
position on (which is the assignment length at entry). -/
theorem exportRoots_ok_closure (g : List TNode) :
    ∀ (roots st : List Nat) (k : Nat) (acc acc' : List SRecord)
      (st' : List Nat), k = st.length →
      exportRoots g roots st k acc = .ok (acc', st') →
      PrefixOf st st' ∧ (∀ r ∈ roots, r ∈ st') ∧
      (∀ p a nd, k ≤ p → st'[p]? = some a → g[a]? = some nd →
        serializable nd.entity = true ∧
        ∀ i : Nat, ERef.ent i ∈ nodeRefs nd → i ∈ st') := by
  intro roots
  induction roots with
  | nil =>
      intro st k acc acc' st' hkst h
      unfold exportRoots at h
      simp only [Except.ok.injEq, Prod.mk.injEq] at h
      obtain ⟨-, h2⟩ := h
      subst h2
      refine ⟨prefixOf_rfl st, by simp, ?_⟩
      intro p a nd hkp hpa _
      have hp : p < st.length := by
        by_contra hge
        rw [List.getElem?_eq_none (by omega)] at hpa
        exact absurd hpa (by simp)
      omega
  | cons r rs ih =>
      intro st k acc acc' st' hkst h
      have hrunM : exportRoots g (r :: rs) st k acc =
          (match exportLoop g (g.length + 1) (pushNew st r) k acc with
           | .error e => .error e
           | .ok (acc1, st2) => exportRoots g rs st2 st2.length acc1) := rfl
      rw [hrunM] at h
      cases hL : exportLoop g (g.length + 1) (pushNew st r) k acc with
      | error e => rw [hL] at h; exact absurd h (by simp)
      | ok pr =>
          obtain ⟨acc1, st2⟩ := pr
          rw [hL] at h
          simp only [] at h
          obtain ⟨hpreL, -, -, hclL⟩ :=
            exportLoop_ok_closure g (g.length + 1) (pushNew st r) k acc acc1
              st2 hL
          obtain ⟨hpre2, hroots2, hcl2⟩ := ih st2 st2.length acc1 acc' st' rfl h
          have hpre01 : PrefixOf st (pushNew st r) := pushNew_grows st r
          have hpre0 : PrefixOf st st' :=
            prefixOf_trans hpre01 (prefixOf_trans hpreL hpre2)
          refine ⟨hpre0, ?_, ?_⟩
          · intro x hx
            rcases List.mem_cons.mp hx with rfl | hx1
            · exact prefixOf_mem hpre2 (prefixOf_mem hpreL (mem_pushNew st x))
            · exact hroots2 x hx1
          · intro p a nd hkp hpa hnd
            by_cases hplt : p < st2.length
            · rw [prefixOf_getElem hpre2 hplt] at hpa
              obtain ⟨hser, hmems⟩ := hclL p a nd hkp hpa hnd
              exact ⟨hser, fun i hi => prefixOf_mem hpre2 (hmems i hi)⟩
            · exact hcl2 p a nd (by omega) hpa hnd

/-- Progress of the per-root driver: on a reference-closed arena with
in-range roots a run either succeeds or fails with an export error. -/
theorem exportRoots_progress (g : List TNode) (hrefs : WfRefs g) :
    ∀ (roots st : List Nat) (k : Nat) (acc : List SRecord),
      st.Nodup → (∀ a ∈ st, a < g.length) → (∀ r ∈ roots, r < g.length) →
      (∃ res, exportRoots g roots st k acc = .ok res) ∨
      (∃ m, exportRoots g roots st k acc = .error (.exportError m)) := by
  intro roots
  induction roots with
  | nil =>
      intro st k acc _ _ _
      exact Or.inl ⟨(acc, st), rfl⟩
  | cons r rs ih =>
      intro st k acc hd hb hroots
      have hrunM : exportRoots g (r :: rs) st k acc =
          (match exportLoop g (g.length + 1) (pushNew st r) k acc with
           | .error e => .error e
           | .ok (acc1, st2) => exportRoots g rs st2 st2.length acc1) := rfl
      have hd1 : (pushNew st r).Nodup := pushNew_nodup hd
      have hb1 : ∀ x ∈ pushNew st r, x < g.length := by
        intro x hx
        rcases pushNew_cases hx with hx1 | rfl
        · exact hb x hx1
        · exact hroots x (List.mem_cons_self x rs)
      rcases exportLoop_progress g hrefs (g.length + 1) (pushNew st r) k acc
          hd1 hb1 (by omega) with hok | herr
      · obtain ⟨res, hres⟩ := hok
        obtain ⟨acc1, st2⟩ := res
        obtain ⟨-, hndL, hbdL, -⟩ :=
          exportLoop_ok_closure g (g.length + 1) (pushNew st r) k acc acc1
            st2 hres
        have hroots1 : ∀ x ∈ rs, x < g.length :=
          fun x hx => hroots x (List.mem_cons_of_mem r hx)
        rcases ih st2 st2.length acc1 (hndL hd1) (hbdL hrefs hb1) hroots1
            with hok2 | herr2
        · obtain ⟨res2, hres2⟩ := hok2
          refine Or.inl ⟨res2, ?_⟩
          rw [hrunM, hres]
          exact hres2
        · obtain ⟨m, hm⟩ := herr2
          refine Or.inr ⟨m, ?_⟩
          rw [hrunM, hres]
          exact hm
      · obtain ⟨m, hm⟩ := herr
        refine Or.inr ⟨m, ?_⟩
        rw [hrunM, hm]

/-- Every entity reachable from the roots is assigned by a successful
run whose final assignment carries the closure property. -/
theorem reach_mem {g : List TNode} {roots stF : List Nat}
    (hroots : ∀ r ∈ roots, r ∈ stF)
    (hclosed : ∀ p a nd, 0 ≤ p → stF[p]? = some a → g[a]? = some nd →
      serializable nd.entity = true ∧
      ∀ i : Nat, ERef.ent i ∈ nodeRefs nd → i ∈ stF) :
    ∀ j, Reach g roots j → j ∈ stF := by
  intro j hj
  induction hj with
  | root hr => exact hroots _ hr
  | step _ hnd href ih =>
      have hps := (posOf_isSome_iff_mem stF _).mpr ih
      obtain ⟨p, hp⟩ := Option.isSome_iff_exists.mp hps
      have hsf := posOf_getElem hp
      obtain ⟨-, hmems⟩ := hclosed p _ _ (Nat.zero_le p) hsf hnd
      exact hmems _ href

/-- C2: on a graph whose references all stay inside the arena and whose
export roots are in range, if an Unsupported-kind entity is reachable
from the roots (directly or transitively), then `export_sat` and
`export_sab` both fail with an export error — no output is produced. -/
theorem C2_unsupported_export (g : List TNode) (roots : List Nat) (v : Int)
    (hrefs : wfRefsB g = true)
    (hroots : roots.all (fun r => decide (r < g.length)) = true)
    (hbad : ∃ j nd nm, Reach g roots j ∧ g[j]? = some nd ∧
      nd.entity = .unsupported nm) :
    (∃ m, exportSat roots g v = .error (.exportError m)) ∧
    (∃ m, exportSab roots g v = .error (.exportError m)) := by
  have hrefsP : WfRefs g := wfRefs_of_bool hrefs
  have hrootsP : ∀ r ∈ roots, r < g.length := by
    intro r hr
    simpa using List.all_eq_true.mp hroots r hr
  suffices hS : ∃ m, exportSat roots g v = .error (.exportError m) by
    obtain ⟨m, hm⟩ := hS
    refine ⟨⟨m, hm⟩, ⟨m, ?_⟩⟩
    unfold exportSab
    rw [hm]
  by_cases hv : validExportVersion v = true
  · rcases exportRoots_progress g hrefsP roots [] 0 [] (by simp) (by simp)
        hrootsP with hok | herr
    · exfalso
      obtain ⟨res, hres⟩ := hok
      obtain ⟨acc1, stF⟩ := res
      obtain ⟨-, hmemroots, hclosed⟩ :=
        exportRoots_ok_closure g roots [] 0 [] acc1 stF rfl hres
      obtain ⟨j, nd, nm, hreach, hj, hent⟩ := hbad
      have hjmem : j ∈ stF := reach_mem hmemroots hclosed j hreach
      have hps := (posOf_isSome_iff_mem stF j).mpr hjmem
      obtain ⟨p, hp⟩ := Option.isSome_iff_exists.mp hps
      obtain ⟨hser, -⟩ := hclosed p j nd (Nat.zero_le p) (posOf_getElem hp) hj
      rw [hent] at hser
      exact absurd hser (by simp [serializable])
    · obtain ⟨m, hm⟩ := herr
      refine ⟨m, ?_⟩
      unfold exportSat
      rw [if_pos hv, hm]
  · refine ⟨"invalid export version", ?_⟩
    unfold exportSat
    rw [if_neg hv]

theorem C2_unsupported_export_witness :
    (∃ m, exportSat [0]
        [⟨.none, .body .none (.ent 1) .none .none⟩,
         ⟨.none, .unsupported "xref"⟩] 700 = .error (.exportError m)) ∧
    (∃ m, exportSab [0]
        [⟨.none, .body .none (.ent 1) .none .none⟩,
         ⟨.none, .unsupported "xref"⟩] 700 = .error (.exportError m)) :=
  C2_unsupported_export
    [⟨.none, .body .none (.ent 1) .none .none⟩,
     ⟨.none, .unsupported "xref"⟩] [0] 700
    (by decide) (by decide)
    ⟨1, ⟨.none, .unsupported "xref"⟩, "xref",
      Reach.step (Reach.root (List.mem_singleton.mpr rfl)) rfl (by decide),
      rfl, rfl⟩

/-- The assignment-only projection of the traversal loop: the assignment
list evolves independently of record emission (serialization only folds
the node's references into the list). -/
def stLoop (g : List TNode) : Nat → List Nat → Nat → List Nat
  | 0, st, _ => st
  | fuel + 1, st, k =>
      match st[k]? with
      | Option.none => st
      | some a =>
          match g[a]? with
          | Option.none => st
          | some nd => stLoop g fuel ((nodeRefs nd).foldl pushRef st) (k + 1)

/-- A successful traversal's final assignment is its state projection. -/
theorem exportLoop_state (g : List TNode) :
    ∀ (fuel : Nat) (st : List Nat) (k : Nat) (acc acc' : List SRecord)
      (st' : List Nat), exportLoop g fuel st k acc = .ok (acc', st') →
      st' = stLoop g fuel st k := by
  intro fuel
  induction fuel with
  | zero =>
      intro st k acc acc' st' h
      unfold exportLoop at h
      by_cases hk : k < st.length
      · rw [if_pos hk] at h; exact absurd h (by simp)
      · rw [if_neg hk] at h
        simp only [Except.ok.injEq, Prod.mk.injEq] at h
        exact h.2.symm
  | succ fuel ih =>
      intro st k acc acc' st' h
      cases hak : st[k]? with
      | none =>
          have hrun : exportLoop g (fuel + 1) st k acc = .ok (acc, st) := by
            unfold exportLoop
            rw [hak]
          rw [hrun] at h
          simp only [Except.ok.injEq, Prod.mk.injEq] at h
          have hst : stLoop g (fuel + 1) st k = st := by
            unfold stLoop
            rw [hak]
          rw [hst]
          exact h.2.symm
      | some a =>
          cases hga : g[a]? with
          | none =>
              have hrun : exportLoop g (fuel + 1) st k acc =
                  .error (.invalidLink "reference outside the graph") := by
                conv_lhs => unfold exportLoop
                rw [hak]
                simp only []
                rw [hga]
              rw [hrun] at h
              exact absurd h (by simp)
          | some nd =>
              cases hsn : serializeNode st nd with
              | error e =>
                  have hrun : exportLoop g (fuel + 1) st k acc = .error e := by
                    conv_lhs => unfold exportLoop
                    rw [hak]
                    simp only []
                    rw [hga]
                    simp only []
                    rw [hsn]
                  rw [hrun] at h
                  exact absurd h (by simp)
              | ok pr =>
                  obtain ⟨st1, ap, toks⟩ := pr
                  have hrun : exportLoop g (fuel + 1) st k acc =
                      exportLoop g fuel st1 (k + 1)
                        (⟨kindName nd.entity, ap, (k : Int), toks⟩ :: acc) := by
                    conv_lhs => unfold exportLoop
                    rw [hak]
                    simp only []
                    rw [hga]
                    simp only []
                    rw [hsn]
                  rw [hrun] at h
                  obtain ⟨-, hst1⟩ := serializeNode_ok_inv hsn
                  have hst : stLoop g (fuel + 1) st k =
                      stLoop g fuel ((nodeRefs nd).foldl pushRef st) (k + 1) := by
                    conv_lhs => unfold stLoop
                    rw [hak]
                    simp only []
                    rw [hga]
                  rw [hst, ← hst1]
                  exact ih st1 (k + 1) _ acc' st' h

/-- Length bound for a duplicate-free list of members of another. -/
theorem nodup_subset_length {l m : List Nat} (hd : l.Nodup)
    (hsub : ∀ x ∈ l, x ∈ m) : l.length ≤ m.length := by
  have h1 : l.toFinset.card = l.length := List.toFinset_card_of_nodup hd
  have h2 : l.toFinset ⊆ m.toFinset := by
    intro x hx
    simp only [List.mem_toFinset] at hx ⊢
    exact hsub x hx
  have h3 := Finset.card_le_card h2
  have h4 : m.toFinset.card ≤ m.length := m.toFinset_card_le
  omega

/-- The state projection does not depend on the fuel once the fuel
covers the worst-case number of remaining steps, measured against any
duplicate-free reference-closed universe `u` the assignment lives in. -/
theorem stLoop_fuel_eq (g : List TNode) (u : List Nat)
    (hclos : ∀ a ∈ u, ∀ nd, g[a]? = some nd →
      ∀ i : Nat, ERef.ent i ∈ nodeRefs nd → i ∈ u) :
    ∀ (fuel1 fuel2 : Nat) (st : List Nat) (k : Nat),
      st.Nodup → (∀ x ∈ st, x ∈ u) →
      u.length - k < fuel1 → u.length - k < fuel2 →
      stLoop g fuel1 st k = stLoop g fuel2 st k := by
  intro fuel1
  induction fuel1 with
  | zero => intro fuel2 st k _ _ hf1 _; exact absurd hf1 (by omega)
  | succ fuel1 ih =>
      intro fuel2 st k hd hsub hf1 hf2
      cases fuel2 with
      | zero => exact absurd hf2 (by omega)
      | succ fuel2 =>
          cases hak : st[k]? with
          | none =>
              have h1 : stLoop g (fuel1 + 1) st k = st := by
                unfold stLoop
                rw [hak]
              have h2 : stLoop g (fuel2 + 1) st k = st := by
                unfold stLoop
                rw [hak]
              rw [h1, h2]
          | some a =>
              have hk : k < st.length := by
                by_contra hge
                rw [List.getElem?_eq_none (by omega)] at hak
                exact absurd hak (by simp)
              have hlen : st.length ≤ u.length := nodup_subset_length hd hsub
              have hau : a ∈ u := hsub a (memOfGetElem hak)
              cases hga : g[a]? with
              | none =>
                  have h1 : stLoop g (fuel1 + 1) st k = st := by
                    conv_lhs => unfold stLoop
                    rw [hak]
                    simp only []
                    rw [hga]
                  have h2 : stLoop g (fuel2 + 1) st k = st := by
                    conv_lhs => unfold stLoop
                    rw [hak]
                    simp only []
                    rw [hga]
                  rw [h1, h2]
              | some nd =>
                  have h1 : stLoop g (fuel1 + 1) st k =
                      stLoop g fuel1 ((nodeRefs nd).foldl pushRef st) (k + 1) := by
                    conv_lhs => unfold stLoop
                    rw [hak]
                    simp only []
                    rw [hga]
                  have h2 : stLoop g (fuel2 + 1) st k =
                      stLoop g fuel2 ((nodeRefs nd).foldl pushRef st) (k + 1) := by
                    conv_lhs => unfold stLoop
                    rw [hak]
                    simp only []
                    rw [hga]
                  rw [h1, h2]
                  refine ih fuel2 _ (k + 1) (foldl_pushRef_nodup hd) ?_
                    (by omega) (by omega)
                  intro x hx
                  rcases foldl_pushRef_cases hx with hx1 | hx1
                  · exact hsub x hx1
                  · exact hclos a hau nd hga x hx1

/-- The first-visit assignment of a one-root export, as a function of
the graph and the root. -/
def stExp (g : List TNode) (b : Nat) : List Nat :=
  stLoop g (g.length + 1) (pushNew [] b) 0

/-- One-root export on a well-formed arena: success, with the records
determined by the first-visit assignment `stExp`, which is
duplicate-free, in range, reference-closed, and starts at the root. -/
theorem exportSat_single (g : List TNode) (hg : WfG g) (b : Nat)
    (hb : b < g.length) (v : Int) (hv : validExportVersion v = true) :
    exportSat [b] g v =
      .ok ((List.range (stExp g b).length).map (recOfD g (stExp g b))) ∧
    (stExp g b).Nodup ∧ (∀ a ∈ stExp g b, a < g.length) ∧
    (stExp g b)[0]? = some b ∧
    (∀ (p a : Nat) (nd : TNode), (stExp g b)[p]? = some a → g[a]? = some nd →
      ∀ i : Nat, ERef.ent i ∈ nodeRefs nd → i ∈ stExp g b) := by
  have hstart : pushNew ([] : List Nat) b = [b] := by
    simp [pushNew]
  obtain ⟨st', hloop, hpre, hd', hb', hclosed⟩ :=
    exportLoop_master g hg (g.length + 1) (pushNew [] b) 0 []
      (by rw [hstart]; simp) (by rw [hstart]; simpa using hb) (by omega)
  have hstf : st' = stExp g b := exportLoop_state g _ _ _ _ _ _ hloop
  subst hstf
  have h0 : (stExp g b)[0]? = some b := by
    rw [hstart] at hpre
    have h01 : (0 : Nat) < [b].length := by simp
    rw [prefixOf_getElem hpre h01]
    simp
  refine ⟨?_, hd', hb', h0, fun p a nd hpa hnd => hclosed p a nd (by omega) hpa hnd⟩
  unfold exportSat
  rw [if_pos hv]
  have hroots : exportRoots g [b] [] 0 [] =
      .ok ((((List.range' 0 ((stExp g b).length - 0)).map
        (recOfD g (stExp g b))).reverse) ++ [], stExp g b) := by
    have hrunM : exportRoots g [b] [] 0 [] =
        (match exportLoop g (g.length + 1) (pushNew [] b) 0 [] with
         | .error e => .error e
         | .ok (acc1, st2) => exportRoots g [] st2 st2.length acc1) := rfl
    rw [hrunM, hloop]
    rfl
  rw [hroots]
  simp only []
  rw [List.append_nil, List.reverse_reverse, Nat.sub_zero,
    ← List.range_eq_range']

/-- Relabel a reference along an index map. -/
def relabelRef (φ : Nat → Nat) : ERef → ERef
  | .none => .none
  | .ent i => .ent (φ i)

/-- Relabel every reference field of an entity along an index map,
keeping all non-reference data. -/
def relabelE (φ : Nat → Nat) : TEntity → TEntity
  | .body pat lu wi tr =>
      .body (relabelRef φ pat) (relabelRef φ lu) (relabelRef φ wi)
        (relabelRef φ tr)
  | .lump pat nl sh bo =>
      .lump (relabelRef φ pat) (relabelRef φ nl) (relabelRef φ sh)
        (relabelRef φ bo)
  | .shell pat ns ss fa wi lu =>
      .shell (relabelRef φ pat) (relabelRef φ ns) (relabelRef φ ss)
        (relabelRef φ fa) (relabelRef φ wi) (relabelRef φ lu)
  | .subshell pat => .subshell (relabelRef φ pat)
  | .wire pat => .wire (relabelRef φ pat)
  | .pattern => .pattern
  | .face pat nf lo sh ss su sense ds ct =>
      .face (relabelRef φ pat) (relabelRef φ nf) (relabelRef φ lo)
        (relabelRef φ sh) (relabelRef φ ss) (relabelRef φ su) sense ds ct
  | .loop pat nl co fa =>
      .loop (relabelRef φ pat) (relabelRef φ nl) (relabelRef φ co)
        (relabelRef φ fa)
  | .coedge pat nc pc partner ed sense lo unk pcv =>
      .coedge (relabelRef φ pat) (relabelRef φ nc) (relabelRef φ pc)
        (relabelRef φ partner) (relabelRef φ ed) sense (relabelRef φ lo)
        unk (relabelRef φ pcv)
  | .edge pat sv sp ev ep co cu sense cx =>
      .edge (relabelRef φ pat) (relabelRef φ sv) sp (relabelRef φ ev) ep
        (relabelRef φ co) (relabelRef φ cu) sense cx
  | .pcurve pat => .pcurve (relabelRef φ pat)
  | .vertex pat ed unk po =>
      .vertex (relabelRef φ pat) (relabelRef φ ed) unk (relabelRef φ po)
  | .curve pat b1 b2 => .curve (relabelRef φ pat) b1 b2
  | .straightCurve pat origin direction b1 b2 =>
      .straightCurve (relabelRef φ pat) origin direction b1 b2
  | .point pat loc => .point (relabelRef φ pat) loc
  | .surface pat u1 u2 v1 v2 => .surface (relabelRef φ pat) u1 u2 v1 v2
  | .plane pat origin normal ud rv u1 u2 v1 v2 =>
      .plane (relabelRef φ pat) origin normal ud rv u1 u2 v1 v2
  | .transform m => .transform m
  | .asmheader ver => .asmheader ver
  | .unsupported n => .unsupported n

/-- Relabel a field token. -/
def relabelFTok (φ : Nat → Nat) : FTok → FTok
  | .ref exp r => .ref exp (relabelRef φ r)
  | f => f

/-- Relabel a whole arena node. -/
def relabelNode (φ : Nat → Nat) (nd : TNode) : TNode :=
  ⟨relabelRef φ nd.attributes, relabelE φ nd.entity⟩

theorem kindName_relabel (φ : Nat → Nat) (e : TEntity) :
    kindName (relabelE φ e) = kindName e := by
  cases e <;> rfl

theorem serializable_relabel (φ : Nat → Nat) (e : TEntity) :
    serializable (relabelE φ e) = serializable e := by
  cases e <;> rfl

theorem relabelFTok_interval (φ : Nat → Nat) (b : Option ℚ) :
    relabelFTok φ (intervalFTok b) = intervalFTok b := by
  cases b <;> rfl

theorem fieldsOf_relabel (φ : Nat → Nat) (e : TEntity) :
    fieldsOf (relabelE φ e) = (fieldsOf e).map (relabelFTok φ) := by
  cases e with
  | face pat nf lo sh ss su sense ds ct => cases ds <;> rfl
  | curve pat b1 b2 => cases b1 <;> cases b2 <;> rfl
  | straightCurve pat origin direction b1 b2 => cases b1 <;> cases b2 <;> rfl
  | surface pat u1 u2 v1 v2 =>
      cases u1 <;> cases u2 <;> cases v1 <;> cases v2 <;> rfl
  | plane pat origin normal ud rv u1 u2 v1 v2 =>
      cases u1 <;> cases u2 <;> cases v1 <;> cases v2 <;> rfl
  | transform m =>
      show (extract12 m).map FTok.num ++ transformTrailer (extract12 m) = _
      simp [fieldsOf, relabelE, relabelFTok, transformTrailer, List.map_map,
        Function.comp]
  | _ => rfl

theorem refList_relabel (φ : Nat → Nat) (e : TEntity) :
    refList (relabelE φ e) = (refList e).map (relabelRef φ) := by
  unfold refList
  rw [fieldsOf_relabel, List.filterMap_map, List.map_filterMap]
  congr 1
  funext f
  cases f <;> rfl

theorem nodeRefs_relabel (φ : Nat → Nat) (nd : TNode) :
    nodeRefs (relabelNode φ nd) = (nodeRefs nd).map (relabelRef φ) := by
  unfold nodeRefs relabelNode
  simp [refList_relabel]

/-- The dense index of an arena index relative to a final assignment. -/
def posD (stF : List Nat) (i : Nat) : Nat :=
  (posOf stF i).getD 0

theorem posD_spec {stF : List Nat} {i : Nat} (h : i ∈ stF) :
    posOf stF i = some (posD stF i) := by
  have hs := (posOf_isSome_iff_mem stF i).mpr h
  obtain ⟨p, hp⟩ := Option.isSome_iff_exists.mp hs
  rw [hp]
  unfold posD
  rw [hp]
  rfl

theorem posD_inj {stF : List Nat} {x y : Nat} (hx : x ∈ stF) (hy : y ∈ stF)
    (hxy : posD stF x = posD stF y) : x = y := by
  have h1 := posOf_getElem (posD_spec hx)
  have h2 := posOf_getElem (posD_spec hy)
  rw [hxy] at h1
  rw [h1] at h2
  simpa using h2

theorem pushRef_map (φ : Nat → Nat) (u : List Nat)
    (hinj : ∀ x ∈ u, ∀ y ∈ u, φ x = φ y → x = y) (st : List Nat)
    (hst : ∀ x ∈ st, x ∈ u) (r : ERef) (hr : ∀ i, r = .ent i → i ∈ u) :
    pushRef (st.map φ) (relabelRef φ r) = (pushRef st r).map φ := by
  cases r with
  | none => rfl
  | ent i =>
      have hiu : i ∈ u := hr i rfl
      show pushNew (st.map φ) (φ i) = (pushNew st i).map φ
      unfold pushNew
      by_cases h : i ∈ st
      · rw [if_pos (List.mem_map_of_mem φ h), if_pos h]
      · have hnm : φ i ∉ st.map φ := by
          intro hm
          obtain ⟨x, hxst, hxφ⟩ := List.mem_map.mp hm
          exact h (hinj x (hst x hxst) i hiu hxφ ▸ hxst)
        rw [if_neg hnm, if_neg h, List.map_append]
        rfl

theorem foldl_pushRef_map (φ : Nat → Nat) (u : List Nat)
    (hinj : ∀ x ∈ u, ∀ y ∈ u, φ x = φ y → x = y) :
    ∀ (rs : List ERef) (st : List Nat), (∀ x ∈ st, x ∈ u) →
      (∀ i : Nat, ERef.ent i ∈ rs → i ∈ u) →
      (rs.map (relabelRef φ)).foldl pushRef (st.map φ) =
        (rs.foldl pushRef st).map φ := by
  intro rs
  induction rs with
  | nil => intro st _ _; rfl
  | cons r rest ih =>
      intro st hst hrs
      rw [List.map_cons, List.foldl_cons, List.foldl_cons]
      rw [pushRef_map φ u hinj st hst r
        (fun i hri => hrs i (hri ▸ List.mem_cons_self r rest))]
      refine ih (pushRef st r) ?_
        (fun i hi => hrs i (List.mem_cons_of_mem r hi))
      intro x hx
      rcases pushRef_cases hx with hx1 | hx1
      · exact hst x hx1
      · exact hrs x (hx1 ▸ List.mem_cons_self r rest)

/-- Relabeling simulation for the state projection: exporting the
relabeled arena from the relabeled assignment visits in exactly the
relabeled order. -/
theorem stLoop_relabel (g g2 : List TNode) (φ : Nat → Nat) (u : List Nat)
    (hinj : ∀ x ∈ u, ∀ y ∈ u, φ x = φ y → x = y)
    (hgdef : ∀ a ∈ u, ∃ nd, g[a]? = some nd)
    (hnode : ∀ a ∈ u, ∀ nd, g[a]? = some nd →
      g2[φ a]? = some (relabelNode φ nd))
    (hclos : ∀ a ∈ u, ∀ nd, g[a]? = some nd →
      ∀ i : Nat, ERef.ent i ∈ nodeRefs nd → i ∈ u) :
    ∀ (fuel : Nat) (st : List Nat) (k : Nat), (∀ x ∈ st, x ∈ u) →
      stLoop g2 fuel (st.map φ) k = (stLoop g fuel st k).map φ := by
  intro fuel
  induction fuel with
  | zero => intro st k _; rfl
  | succ fuel ih =>
      intro st k hst
      have hmk : (st.map φ)[k]? = (st[k]?).map φ := List.getElem?_map φ st k
      cases hak : st[k]? with
      | none =>
          have h1 : stLoop g2 (fuel + 1) (st.map φ) k = st.map φ := by
            unfold stLoop
            rw [hmk, hak]
            rfl
          have h2 : stLoop g (fuel + 1) st k = st := by
            unfold stLoop
            rw [hak]
          rw [h1, h2]
      | some a =>
          have hau : a ∈ u := hst a (memOfGetElem hak)
          obtain ⟨nd, hga⟩ := hgdef a hau
          have hg2 : g2[φ a]? = some (relabelNode φ nd) := hnode a hau nd hga
          have h1 : stLoop g2 (fuel + 1) (st.map φ) k =
              stLoop g2 fuel
                ((nodeRefs (relabelNode φ nd)).foldl pushRef (st.map φ))
                (k + 1) := by
            conv_lhs => unfold stLoop
            rw [hmk, hak]
            simp only [Option.map_some']
            rw [hg2]
          have h2 : stLoop g (fuel + 1) st k =
              stLoop g fuel ((nodeRefs nd).foldl pushRef st) (k + 1) := by
            conv_lhs => unfold stLoop
            rw [hak]
            simp only []
            rw [hga]
          rw [h1, h2, nodeRefs_relabel]
          rw [foldl_pushRef_map φ u hinj (nodeRefs nd) st hst
            (hclos a hau nd hga)]
          refine ih _ (k + 1) ?_
          intro x hx
          rcases foldl_pushRef_cases hx with hx1 | hx1
          · exact hst x hx1
          · exact hclos a hau nd hga x hx1

/-- The reload condition for one reference field: a non-null reference
is assigned a position whose record name passes the loader's
expected-suffix check. -/
def RefOk (stF : List Nat) (names : Nat → Option String) (exp : String) :
    ERef → Prop
  | .none => True
  | .ent i => ∃ q, posOf stF i = some q ∧
      ∃ nm, names q = some nm ∧ Acis.pyEndsWith nm exp = true

theorem restoreEntityRef_reload (stF : List Nat) (names : Nat → Option String)
    (exp : String) (r : ERef) (rest : List DTok)
    (hok : RefOk stF names exp r) :
    restoreEntityRef exp names (.ptr (refPtr stF r) :: rest) =
      .ok (relabelRef (posD stF) r, rest) := by
  cases r with
  | none => rfl
  | ent i =>
      obtain ⟨q, hq, nm, hnm, hend⟩ := hok
      have hpd : posD stF i = q := by
        unfold posD
        rw [hq]
        rfl
      show restoreEntityRef exp names (.ptr (posOf stF i) :: rest) =
        .ok (.ent (posD stF i), rest)
      rw [hq, hpd]
      unfold restoreEntityRef
      simp only [readPtr]
      rw [hnm]
      simp only []
      rw [if_pos hend]

theorem restorePattern_reload (v : Int) (names : Nat → Option String)
    (toks : List DTok) (hv : featPATTERN ≤ v) :
    restorePattern v names toks = restoreEntityRef "pattern" names toks := by
  unfold restorePattern
  rw [if_pos hv]

theorem readBool_boolTok (t f : String) (hne : ¬(f = t)) (b : Bool)
    (rest : List DTok) :
    readBool t f (.str (boolTok b t f) :: rest) = .ok (b, rest) := by
  cases b <;> simp [readBool, boolTok, hne]

/-- The data token of an interval field. -/
def itok : Option ℚ → DTok
  | Option.none => .str "I"
  | some q => .num q

theorem fieldDTok_interval (stF : List Nat) (b : Option ℚ) :
    fieldDTok stF (intervalFTok b) = some (itok b) := by
  cases b <;> rfl

theorem readInterval_itok (b : Option ℚ) (rest : List DTok) :
    readInterval (itok b :: rest) = .ok (b, rest) := by
  cases b <;> simp [readInterval, itok]

/-- Reload-exactness: the entity states the writer does not reproduce
verbatim are excluded — a single-sided face stores no containment flag
(the loader restores `false`), the Coedge/Vertex `unknown` integers are
not stored in SAT (the loader restores 0), and a transform must carry a
well-formed 16-entry matrix with the fixed fourth column the loader
rebuilds. -/
def normalizedE : TEntity → Bool
  | .face _ _ _ _ _ _ _ ds ct => ds || !ct
  | .coedge _ _ _ _ _ _ _ unk _ => decide (unk = 0)
  | .vertex _ _ unk _ => decide (unk = 0)
  | .transform m => decide (m =
      [getQ m 0, getQ m 1, getQ m 2, 0, getQ m 4, getQ m 5, getQ m 6, 0,
       getQ m 8, getQ m 9, getQ m 10, 0, getQ m 12, getQ m 13, getQ m 14, 1])
  | _ => true

theorem restoreByName_eq_body (v : Int) (names : Nat → Option String)
    (toks : List DTok) : restoreByName "body" v names toks =
      restoreBody v names toks := rfl

theorem restoreByName_eq_lump (v : Int) (names : Nat → Option String)
    (toks : List DTok) : restoreByName "lump" v names toks =
      restoreLump v names toks := rfl

theorem restoreByName_eq_shell (v : Int) (names : Nat → Option String)
    (toks : List DTok) : restoreByName "shell" v names toks =
      restoreShell v names toks := rfl

theorem restoreByName_eq_subshell (v : Int) (names : Nat → Option String)
    (toks : List DTok) : restoreByName "subshell" v names toks =
      restorePatternOnly TEntity.subshell v names toks := rfl

theorem restoreByName_eq_wire (v : Int) (names : Nat → Option String)
    (toks : List DTok) : restoreByName "wire" v names toks =
      restorePatternOnly TEntity.wire v names toks := rfl

theorem restoreByName_eq_face (v : Int) (names : Nat → Option String)
    (toks : List DTok) : restoreByName "face" v names toks =
      restoreFace v names toks := rfl

theorem restoreByName_eq_loop (v : Int) (names : Nat → Option String)
    (toks : List DTok) : restoreByName "loop" v names toks =
      restoreLoop v names toks := rfl

theorem restoreByName_eq_coedge (v : Int) (names : Nat → Option String)
    (toks : List DTok) : restoreByName "coedge" v names toks =
      restoreCoedge v names toks := rfl

theorem restoreByName_eq_edge (v : Int) (names : Nat → Option String)
    (toks : List DTok) : restoreByName "edge" v names toks =
      restoreEdge v names toks := rfl

theorem restoreByName_eq_pcurve (v : Int) (names : Nat → Option String)
    (toks : List DTok) : restoreByName "pcurve" v names toks =
      restorePatternOnly TEntity.pcurve v names toks := rfl

theorem restoreByName_eq_vertex (v : Int) (names : Nat → Option String)
    (toks : List DTok) : restoreByName "vertex" v names toks =
      restoreVertex v names toks := rfl

theorem restoreByName_eq_curve (v : Int) (names : Nat → Option String)
    (toks : List DTok) : restoreByName "curve" v names toks =
      restoreCurve v names toks := rfl

theorem restoreByName_eq_straight (v : Int) (names : Nat → Option String)
    (toks : List DTok) : restoreByName "straight-curve" v names toks =
      restoreStraightCurve v names toks := rfl

theorem restoreByName_eq_point (v : Int) (names : Nat → Option String)
    (toks : List DTok) : restoreByName "point" v names toks =
      restorePoint v names toks := rfl

theorem restoreByName_eq_surface (v : Int) (names : Nat → Option String)
    (toks : List DTok) : restoreByName "surface" v names toks =
      restoreSurface v names toks := rfl

theorem restoreByName_eq_plane (v : Int) (names : Nat → Option String)
    (toks : List DTok) : restoreByName "plane-surface" v names toks =
      restorePlane v names toks := rfl

theorem restoreByName_eq_transform (v : Int) (names : Nat → Option String)
    (toks : List DTok) : restoreByName "transform" v names toks =
      restoreTransform v names toks := rfl

theorem restoreByName_eq_asmheader (v : Int) (names : Nat → Option String)
    (toks : List DTok) : restoreByName "asmheader" v names toks =
      restoreAsmHeader v names toks := rfl

theorem readDouble_num (q : ℚ) (rest : List DTok) :
    readDouble (.num q :: rest) = .ok (q, rest) := rfl

theorem readStr_str (s : String) (rest : List DTok) :
    readStr (.str s :: rest) = .ok (s, rest) := rfl

theorem readVec3_nums (w : V3) (rest : List DTok) :
    readVec3 (.num w.x :: .num w.y :: .num w.z :: rest) = .ok (w, rest) := rfl

theorem fieldDToks_cons_ref (stF : List Nat) (exp : String) (r : ERef)
    (fs : List FTok) : fieldDToks stF (.ref exp r :: fs) =
      .ptr (refPtr stF r) :: fieldDToks stF fs := rfl

theorem fieldDToks_cons_num (stF : List Nat) (q : ℚ) (fs : List FTok) :
    fieldDToks stF (.num q :: fs) = .num q :: fieldDToks stF fs := rfl

theorem fieldDToks_cons_str (stF : List Nat) (s : String) (fs : List FTok) :
    fieldDToks stF (.str s :: fs) = .str s :: fieldDToks stF fs := rfl

theorem fieldDToks_cons_skip (stF : List Nat) (fs : List FTok) :
    fieldDToks stF (.skipInt :: fs) = fieldDToks stF fs := rfl

theorem fieldDToks_cons_interval (stF : List Nat) (b : Option ℚ)
    (fs : List FTok) : fieldDToks stF (intervalFTok b :: fs) =
      itok b :: fieldDToks stF fs := by
  cases b <;> rfl

theorem fieldDToks_nil (stF : List Nat) : fieldDToks stF [] = [] := rfl

/-- Restoring an exported record body yields exactly the relabeled
entity: the loader reads back what the writer emitted, with every
reference renamed to its dense position, provided every reference passes
the expected-suffix check, the version admits the pattern and tolerance
features, and the entity is reload-exact. -/
theorem restore_reload (stF : List Nat) (names : Nat → Option String)
    (v : Int) (e : TEntity) (hser : serializable e = true)
    (hv6 : featPATTERN ≤ v) (hv7 : featTOL_MODELING ≤ v)
    (hrefs : ∀ exp r, FTok.ref exp r ∈ fieldsOf e → RefOk stF names exp r)
    (hnorm : normalizedE e = true) :
    restoreByName (kindName e) v names (fieldDToks stF (fieldsOf e)) =
      .ok (relabelE (posD stF) e) := by
  cases e with
  | body pat lu wi tr =>
      have h1 := hrefs "pattern" pat (by simp [fieldsOf])
      have h2 := hrefs "lump" lu (by simp [fieldsOf])
      have h3 := hrefs "wire" wi (by simp [fieldsOf])
      have h4 := hrefs "transform" tr (by simp [fieldsOf])
      simp only [kindName]
      rw [restoreByName_eq_body]
      simp only [fieldsOf, fieldDToks_cons_ref, fieldDToks_nil]
      unfold restoreBody
      rw [restorePattern_reload v names _ hv6,
        restoreEntityRef_reload stF names "pattern" pat _ h1]
      simp only []
      rw [restoreEntityRef_reload stF names "lump" lu _ h2]
      simp only []
      rw [restoreEntityRef_reload stF names "wire" wi _ h3]
      simp only []
      rw [restoreEntityRef_reload stF names "transform" tr _ h4]
      rfl
  | lump pat nl sh bo =>
      have h1 := hrefs "pattern" pat (by simp [fieldsOf])
      have h2 := hrefs "lump" nl (by simp [fieldsOf])
      have h3 := hrefs "shell" sh (by simp [fieldsOf])
      have h4 := hrefs "body" bo (by simp [fieldsOf])
      simp only [kindName]
      rw [restoreByName_eq_lump]
      simp only [fieldsOf, fieldDToks_cons_ref, fieldDToks_nil]
      unfold restoreLump
      rw [restorePattern_reload v names _ hv6,
        restoreEntityRef_reload stF names "pattern" pat _ h1]
      simp only []
      rw [restoreEntityRef_reload stF names "lump" nl _ h2]
      simp only []
      rw [restoreEntityRef_reload stF names "shell" sh _ h3]
      simp only []
      rw [restoreEntityRef_reload stF names "body" bo _ h4]
      rfl
  | shell pat ns ss fa wi lu =>
      have h1 := hrefs "pattern" pat (by simp [fieldsOf])
      have h2 := hrefs "next_shell" ns (by simp [fieldsOf])
      have h3 := hrefs "subshell" ss (by simp [fieldsOf])
      have h4 := hrefs "face" fa (by simp [fieldsOf])
      have h5 := hrefs "wire" wi (by simp [fieldsOf])
      have h6 := hrefs "lump" lu (by simp [fieldsOf])
      simp only [kindName]
      rw [restoreByName_eq_shell]
      simp only [fieldsOf, fieldDToks_cons_ref, fieldDToks_nil]
      unfold restoreShell
      rw [restorePattern_reload v names _ hv6,
        restoreEntityRef_reload stF names "pattern" pat _ h1]
      simp only []
      rw [restoreEntityRef_reload stF names "next_shell" ns _ h2]
      simp only []
      rw [restoreEntityRef_reload stF names "subshell" ss _ h3]
      simp only []
      rw [restoreEntityRef_reload stF names "face" fa _ h4]
      simp only []
      rw [restoreEntityRef_reload stF names "wire" wi _ h5]
      simp only []
      rw [restoreEntityRef_reload stF names "lump" lu _ h6]
      rfl
  | subshell pat =>
      have h1 := hrefs "pattern" pat (by simp [fieldsOf])
      simp only [kindName]
      rw [restoreByName_eq_subshell]
      simp only [fieldsOf, fieldDToks_cons_ref, fieldDToks_nil]
      unfold restorePatternOnly
      rw [restorePattern_reload v names _ hv6,
        restoreEntityRef_reload stF names "pattern" pat _ h1]
      rfl
  | wire pat =>
      have h1 := hrefs "pattern" pat (by simp [fieldsOf])
      simp only [kindName]
      rw [restoreByName_eq_wire]
      simp only [fieldsOf, fieldDToks_cons_ref, fieldDToks_nil]
      unfold restorePatternOnly
      rw [restorePattern_reload v names _ hv6,
        restoreEntityRef_reload stF names "pattern" pat _ h1]
      rfl
  | pattern => exact absurd hser (by simp [serializable])
  | face pat nf lo sh ss su sense ds ct =>
      have h1 := hrefs "pattern" pat (by simp [fieldsOf])
      have h2 := hrefs "face" nf (by simp [fieldsOf])
      have h3 := hrefs "loop" lo (by simp [fieldsOf])
      have h4 := hrefs "shell" sh (by simp [fieldsOf])
      have h5 := hrefs "subshell" ss (by simp [fieldsOf])
      have h6 := hrefs "surface" su (by simp [fieldsOf])
      simp only [kindName]
      rw [restoreByName_eq_face]
      cases ds with
      | true =>
          rw [show fieldsOf (TEntity.face pat nf lo sh ss su sense true ct) =
            [FTok.ref "pattern" pat, FTok.ref "face" nf, FTok.ref "loop" lo,
             FTok.ref "shell" sh, FTok.ref "subshell" ss,
             FTok.ref "surface" su,
             FTok.str (boolTok sense "reversed" "forward"),
             FTok.str (boolTok true "double" "single"),
             FTok.str (boolTok ct "in" "out")] from rfl]
          simp only [fieldDToks_cons_ref, fieldDToks_cons_str, fieldDToks_nil]
          unfold restoreFace
          rw [restorePattern_reload v names _ hv6,
            restoreEntityRef_reload stF names "pattern" pat _ h1]
          simp only []
          rw [restoreEntityRef_reload stF names "face" nf _ h2]
          simp only []
          rw [restoreEntityRef_reload stF names "loop" lo _ h3]
          simp only []
          rw [restoreEntityRef_reload stF names "shell" sh _ h4]
          simp only []
          rw [restoreEntityRef_reload stF names "subshell" ss _ h5]
          simp only []
          rw [restoreEntityRef_reload stF names "surface" su _ h6]
          simp only []
          rw [readBool_boolTok "reversed" "forward" (by decide) sense _]
          simp only []
          rw [readBool_boolTok "double" "single" (by decide) true _]
          simp only [if_pos]
          rw [readBool_boolTok "in" "out" (by decide) ct _]
          rfl
      | false =>
          have hct : ct = false := by
            simpa [normalizedE] using hnorm
          subst hct
          rw [show fieldsOf (TEntity.face pat nf lo sh ss su sense false
              false) =
            [FTok.ref "pattern" pat, FTok.ref "face" nf, FTok.ref "loop" lo,
             FTok.ref "shell" sh, FTok.ref "subshell" ss,
             FTok.ref "surface" su,
             FTok.str (boolTok sense "reversed" "forward"),
             FTok.str (boolTok false "double" "single")] from rfl]
          simp only [fieldDToks_cons_ref, fieldDToks_cons_str, fieldDToks_nil]
          unfold restoreFace
          rw [restorePattern_reload v names _ hv6,
            restoreEntityRef_reload stF names "pattern" pat _ h1]
          simp only []
          rw [restoreEntityRef_reload stF names "face" nf _ h2]
          simp only []
          rw [restoreEntityRef_reload stF names "loop" lo _ h3]
          simp only []
          rw [restoreEntityRef_reload stF names "shell" sh _ h4]
          simp only []
          rw [restoreEntityRef_reload stF names "subshell" ss _ h5]
          simp only []
          rw [restoreEntityRef_reload stF names "surface" su _ h6]
          simp only []
          rw [readBool_boolTok "reversed" "forward" (by decide) sense _]
          simp only []
          rw [readBool_boolTok "double" "single" (by decide) false _]
          rfl
  | loop pat nl co fa =>
      have h1 := hrefs "pattern" pat (by simp [fieldsOf])
      have h2 := hrefs "loop" nl (by simp [fieldsOf])
      have h3 := hrefs "coedge" co (by simp [fieldsOf])
      have h4 := hrefs "face" fa (by simp [fieldsOf])
      simp only [kindName]
      rw [restoreByName_eq_loop]
      simp only [fieldsOf, fieldDToks_cons_ref, fieldDToks_nil]
      unfold restoreLoop
      rw [restorePattern_reload v names _ hv6,
        restoreEntityRef_reload stF names "pattern" pat _ h1]
      simp only []
      rw [restoreEntityRef_reload stF names "loop" nl _ h2]
      simp only []
      rw [restoreEntityRef_reload stF names "coedge" co _ h3]
      simp only []
      rw [restoreEntityRef_reload stF names "face" fa _ h4]
      rfl
  | coedge pat nc pc partner ed sense lo unk pcv =>
      have hunk : unk = 0 := by
        simpa [normalizedE] using hnorm
      subst hunk
      have h1 := hrefs "pattern" pat (by simp [fieldsOf])
      have h2 := hrefs "coedge" nc (by simp [fieldsOf])
      have h3 := hrefs "coedge" pc (by simp [fieldsOf])
      have h4 := hrefs "coedge" partner (by simp [fieldsOf])
      have h5 := hrefs "edge" ed (by simp [fieldsOf])
      have h6 := hrefs "loop" lo (by simp [fieldsOf])
      have h7 := hrefs "pcurve" pcv (by simp [fieldsOf])
      simp only [kindName]
      rw [restoreByName_eq_coedge]
      simp only [fieldsOf, fieldDToks_cons_ref, fieldDToks_cons_str,
        fieldDToks_cons_skip, fieldDToks_nil]
      unfold restoreCoedge
      rw [restorePattern_reload v names _ hv6,
        restoreEntityRef_reload stF names "pattern" pat _ h1]
      simp only []
      rw [restoreEntityRef_reload stF names "coedge" nc _ h2]
      simp only []
      rw [restoreEntityRef_reload stF names "coedge" pc _ h3]
      simp only []
      rw [restoreEntityRef_reload stF names "coedge" partner _ h4]
      simp only []
      rw [restoreEntityRef_reload stF names "edge" ed _ h5]
      simp only []
      rw [readBool_boolTok "reversed" "forward" (by decide) sense _]
      simp only []
      rw [restoreEntityRef_reload stF names "loop" lo _ h6]
      simp only [readIntSkipSat]
      rw [restoreEntityRef_reload stF names "pcurve" pcv _ h7]
      rfl
  | edge pat sv sp ev ep co cu sense cx =>
      have h1 := hrefs "pattern" pat (by simp [fieldsOf])
      have h2 := hrefs "vertex" sv (by simp [fieldsOf])
      have h3 := hrefs "vertex" ev (by simp [fieldsOf])
      have h4 := hrefs "coedge" co (by simp [fieldsOf])
      have h5 := hrefs "curve" cu (by simp [fieldsOf])
      simp only [kindName]
      rw [restoreByName_eq_edge]
      simp only [fieldsOf, fieldDToks_cons_ref, fieldDToks_cons_num,
        fieldDToks_cons_str, fieldDToks_nil]
      unfold restoreEdge
      rw [restorePattern_reload v names _ hv6,
        restoreEntityRef_reload stF names "pattern" pat _ h1]
      simp only []
      rw [restoreEntityRef_reload stF names "vertex" sv _ h2]
      simp only []
      rw [if_pos hv7, readDouble_num]
      simp only []
      rw [restoreEntityRef_reload stF names "vertex" ev _ h3]
      simp only []
      rw [if_pos hv7, readDouble_num]
      simp only []
      rw [restoreEntityRef_reload stF names "coedge" co _ h4]
      simp only []
      rw [restoreEntityRef_reload stF names "curve" cu _ h5]
      simp only []
      rw [readBool_boolTok "reversed" "forward" (by decide) sense _]
      simp only []
      rw [if_pos hv7, readStr_str]
      rfl
  | pcurve pat =>
      have h1 := hrefs "pattern" pat (by simp [fieldsOf])
      simp only [kindName]
      rw [restoreByName_eq_pcurve]
      simp only [fieldsOf, fieldDToks_cons_ref, fieldDToks_nil]
      unfold restorePatternOnly
      rw [restorePattern_reload v names _ hv6,
        restoreEntityRef_reload stF names "pattern" pat _ h1]
      rfl
  | vertex pat ed unk po =>
      have hunk : unk = 0 := by
        simpa [normalizedE] using hnorm
      subst hunk
      have h1 := hrefs "pattern" pat (by simp [fieldsOf])
      have h2 := hrefs "edge" ed (by simp [fieldsOf])
      have h3 := hrefs "point" po (by simp [fieldsOf])
      simp only [kindName]
      rw [restoreByName_eq_vertex]
      simp only [fieldsOf, fieldDToks_cons_ref, fieldDToks_cons_skip,
        fieldDToks_nil]
      unfold restoreVertex
      rw [restorePattern_reload v names _ hv6,
        restoreEntityRef_reload stF names "pattern" pat _ h1]
      simp only []
      rw [restoreEntityRef_reload stF names "edge" ed _ h2]
      simp only [readIntSkipSat]
      rw [restoreEntityRef_reload stF names "point" po _ h3]
      rfl
  | curve pat b1 b2 =>
      have h1 := hrefs "pattern" pat (by simp [fieldsOf])
      simp only [kindName]
      rw [restoreByName_eq_curve]
      simp only [fieldsOf, fieldDToks_cons_ref, fieldDToks_cons_interval,
        fieldDToks_nil]
      unfold restoreCurve
      rw [restorePattern_reload v names _ hv6,
        restoreEntityRef_reload stF names "pattern" pat _ h1]
      simp only []
      rw [readInterval_itok b1]
      simp only []
      rw [readInterval_itok b2]
      rfl
  | straightCurve pat origin direction b1 b2 =>
      have h1 := hrefs "pattern" pat (by simp [fieldsOf])
      simp only [kindName]
      rw [restoreByName_eq_straight]
      simp only [fieldsOf, fieldDToks_cons_ref, fieldDToks_cons_num,
        fieldDToks_cons_interval, fieldDToks_nil]
      unfold restoreStraightCurve
      rw [restorePattern_reload v names _ hv6,
        restoreEntityRef_reload stF names "pattern" pat _ h1]
      simp only []
      rw [readVec3_nums origin]
      simp only []
      rw [readVec3_nums direction]
      simp only []
      rw [readInterval_itok b1]
      simp only []
      rw [readInterval_itok b2]
      rfl
  | point pat loc =>
      have h1 := hrefs "pattern" pat (by simp [fieldsOf])
      simp only [kindName]
      rw [restoreByName_eq_point]
      simp only [fieldsOf, fieldDToks_cons_ref, fieldDToks_cons_num,
        fieldDToks_nil]
      unfold restorePoint
      rw [restorePattern_reload v names _ hv6,
        restoreEntityRef_reload stF names "pattern" pat _ h1]
      simp only []
      rw [readVec3_nums loc]
      rfl
  | surface pat u1 u2 v1 v2 =>
      have h1 := hrefs "pattern" pat (by simp [fieldsOf])
      simp only [kindName]
      rw [restoreByName_eq_surface]
      simp only [fieldsOf, fieldDToks_cons_ref, fieldDToks_cons_interval,
        fieldDToks_nil]
      unfold restoreSurface
      rw [restorePattern_reload v names _ hv6,
        restoreEntityRef_reload stF names "pattern" pat _ h1]
      simp only []
      rw [readInterval_itok u1]
      simp only []
      rw [readInterval_itok u2]
      simp only []
      rw [readInterval_itok v1]
      simp only []
      rw [readInterval_itok v2]
      rfl
  | plane pat origin normal ud rv u1 u2 v1 v2 =>
      have h1 := hrefs "pattern" pat (by simp [fieldsOf])
      simp only [kindName]
      rw [restoreByName_eq_plane]
      simp only [fieldsOf, fieldDToks_cons_ref, fieldDToks_cons_num,
        fieldDToks_cons_str, fieldDToks_cons_interval, fieldDToks_nil]
      unfold restorePlane
      rw [restorePattern_reload v names _ hv6,
        restoreEntityRef_reload stF names "pattern" pat _ h1]
      simp only []
      rw [readVec3_nums origin]
      simp only []
      rw [readVec3_nums normal]
      simp only []
      rw [readVec3_nums ud]
      simp only []
      rw [readBool_boolTok "reverse_v" "forward_v" (by decide) rv _]
      simp only []
      rw [readInterval_itok u1]
      simp only []
      rw [readInterval_itok u2]
      simp only []
      rw [readInterval_itok v1]
      simp only []
      rw [readInterval_itok v2]
      rfl
  | transform m =>
      have hm : m = [getQ m 0, getQ m 1, getQ m 2, 0, getQ m 4, getQ m 5,
          getQ m 6, 0, getQ m 8, getQ m 9, getQ m 10, 0, getQ m 12,
          getQ m 13, getQ m 14, 1] := by
        simpa [normalizedE] using hnorm
      simp only [kindName]
      rw [restoreByName_eq_transform]
      rw [show restoreTransform v names
          (fieldDToks stF (fieldsOf (.transform m))) =
          .ok (.transform [getQ m 0, getQ m 1, getQ m 2, 0, getQ m 4,
            getQ m 5, getQ m 6, 0, getQ m 8, getQ m 9, getQ m 10, 0,
            getQ m 12, getQ m 13, getQ m 14, 1]) from rfl]
      rw [show relabelE (posD stF) (.transform m) = .transform m from rfl,
        ← hm]
  | asmheader ver =>
      simp only [kindName]
      rw [restoreByName_eq_asmheader]
      simp only [fieldsOf, fieldDToks_cons_str, fieldDToks_nil]
      unfold restoreAsmHeader
      rw [readStr_str]
      rfl
  | unsupported n => exact absurd hser (by simp [serializable])

theorem validExportVersion_features {v : Int}
    (h : validExportVersion v = true) :
    featPATTERN ≤ v ∧ featTOL_MODELING ≤ v := by
  have h2 : v = 700 ∨ v = 20800 := by
    simpa [validExportVersion] using h
  rcases h2 with rfl | rfl <;> exact ⟨by decide, by decide⟩

/-- Export-reload well-formedness of an arena, executable: every entity
is serializable and reload-exact, every attribute back-reference is in
range, and every reference field's target kind passes the loader's
expected-suffix check. -/
def wfExport (g : List TNode) : Bool :=
  g.all (fun nd =>
    serializable nd.entity && normalizedE nd.entity &&
    (match nd.attributes with
     | .none => true
     | .ent i => decide (i < g.length)) &&
    (fieldsOf nd.entity).all (fun f =>
      match f with
      | .ref exp (.ent i) =>
          (match g[i]? with
           | some nd2 => Acis.pyEndsWith (kindName nd2.entity) exp
           | Option.none => false)
      | _ => true))

theorem wfExport_spec {g : List TNode} (h : wfExport g = true) :
    ∀ nd ∈ g, serializable nd.entity = true ∧ normalizedE nd.entity = true ∧
      (∀ i : Nat, nd.attributes = .ent i → i < g.length) ∧
      (∀ exp r, FTok.ref exp r ∈ fieldsOf nd.entity → ∀ i : Nat,
        r = .ent i → ∃ nd2, g[i]? = some nd2 ∧
          Acis.pyEndsWith (kindName nd2.entity) exp = true) := by
  intro nd hnd
  have h1 := List.all_eq_true.mp h nd hnd
  simp only [Bool.and_eq_true] at h1
  obtain ⟨⟨⟨hser, hnorm⟩, hattr⟩, hfields⟩ := h1
  refine ⟨hser, hnorm, ?_, ?_⟩
  · intro i hi
    rw [hi] at hattr
    simpa using hattr
  · intro exp r hf i hri
    subst hri
    have h2 := List.all_eq_true.mp hfields _ hf
    simp only [] at h2
    cases hgi : g[i]? with
    | none => rw [hgi] at h2; exact absurd h2 (by simp)
    | some nd2 =>
        rw [hgi] at h2
        exact ⟨nd2, rfl, h2⟩

theorem wfExport_WfG {g : List TNode} (h : wfExport g = true) : WfG g := by
  intro nd hnd
  obtain ⟨hser, -, hattr, hfields⟩ := wfExport_spec h nd hnd
  refine ⟨hser, ?_⟩
  intro i hi
  unfold nodeRefs at hi
  rcases List.mem_cons.mp hi with hattr1 | hfl
  · exact hattr i hattr1.symm
  · unfold refList at hfl
    obtain ⟨f, hf, hrf⟩ := List.mem_filterMap.mp hfl
    cases f with
    | ref exp r =>
        simp only [refOfFTok, Option.some.injEq] at hrf
        obtain ⟨nd2, hnd2, -⟩ := hfields exp r hf i hrf
        by_contra hge
        rw [List.getElem?_eq_none (by omega)] at hnd2
        exact absurd hnd2 (by simp)
    | num q => simp [refOfFTok] at hrf
    | str s => simp [refOfFTok] at hrf
    | skipInt => simp [refOfFTok] at hrf

theorem mapE_ok_pointwise {β : Type} (f : SRecord → Except PyErr β) :
    ∀ (l : List SRecord) (out : List β), l.length = out.length →
      (∀ (q : Nat) (x : SRecord), l[q]? = some x →
        ∃ y, out[q]? = some y ∧ f x = .ok y) →
      Acis.mapE f l = .ok out := by
  intro l
  induction l with
  | nil =>
      intro out hlen _
      cases out with
      | nil => rfl
      | cons y ys => simp at hlen
  | cons a as ih =>
      intro out hlen hpt
      cases out with
      | nil => simp at hlen
      | cons y ys =>
          obtain ⟨y1, hy1, hfa⟩ := hpt 0 a (by simp)
          simp only [List.getElem?_cons_zero, Option.some.injEq] at hy1
          subst hy1
          have hrest : Acis.mapE f as = .ok ys := by
            refine ih ys (by simpa using hlen) ?_
            intro q x hqx
            have h2 := hpt (q + 1) x (by simpa using hqx)
            simpa using h2
          show Acis.mapE f (a :: as) = .ok (y :: ys)
          unfold Acis.mapE
          rw [hfa]
          simp only []
          rw [hrest]

/-- The record list of a one-root export, as a function of the final
assignment. -/
def recsOf (g : List TNode) (stF : List Nat) : List SRecord :=
  (List.range stF.length).map (recOfD g stF)

/-- The arena the loader rebuilds from an export: one node per record
position, each the relabeling of its source node to dense positions. -/
def reloadG (g : List TNode) (stF : List Nat) : List TNode :=
  (List.range stF.length).map (fun p =>
    match stF[p]? with
    | some a =>
        match g[a]? with
        | some nd => relabelNode (posD stF) nd
        | Option.none => ⟨.none, .pattern⟩
    | Option.none => ⟨.none, .pattern⟩)

theorem closure_mem {g : List TNode} {stF : List Nat}
    (hclos : ∀ (p a : Nat) (nd : TNode), stF[p]? = some a →
      g[a]? = some nd → ∀ i : Nat, ERef.ent i ∈ nodeRefs nd → i ∈ stF) :
    ∀ a ∈ stF, ∀ nd, g[a]? = some nd →
      ∀ i : Nat, ERef.ent i ∈ nodeRefs nd → i ∈ stF := by
  intro a ha nd hnd i hi
  have hps := (posOf_isSome_iff_mem stF a).mpr ha
  obtain ⟨p, hp⟩ := Option.isSome_iff_exists.mp hps
  exact hclos p a nd (posOf_getElem hp) hnd i hi

theorem lt_of_getElem_some {α : Type} {l : List α} {q : Nat} {x : α}
    (h : l[q]? = some x) : q < l.length := by
  by_contra hge
  rw [List.getElem?_eq_none (by omega)] at h
  exact absurd h (by simp)

theorem recOfD_eq {g : List TNode} {stF : List Nat} {q a : Nat} {nd : TNode}
    (hq : stF[q]? = some a) (hnd : g[a]? = some nd) :
    recOfD g stF q = ⟨kindName nd.entity, refPtr stF nd.attributes, (q : Int),
      fieldDToks stF (fieldsOf nd.entity)⟩ := by
  unfold recOfD
  rw [hq]
  simp only []
  rw [hnd]

theorem recsOf_getElem {g : List TNode} {stF : List Nat} {q : Nat}
    (hq : q < stF.length) :
    (recsOf g stF)[q]? = some (recOfD g stF q) := by
  unfold recsOf
  rw [List.getElem?_map, List.getElem?_range hq]
  rfl

theorem recNames_recsOf {g : List TNode} {stF : List Nat} {q a : Nat}
    {nd : TNode} (hq : stF[q]? = some a) (hnd : g[a]? = some nd) :
    recNames (recsOf g stF) q = some (kindName nd.entity) := by
  unfold recNames
  rw [recsOf_getElem (lt_of_getElem_some hq), recOfD_eq hq hnd]
  rfl

theorem refOk_of_field {g : List TNode} {stF : List Nat}
    (hclosM : ∀ a ∈ stF, ∀ nd, g[a]? = some nd →
      ∀ i : Nat, ERef.ent i ∈ nodeRefs nd → i ∈ stF)
    (hbound : ∀ a ∈ stF, a < g.length)
    (hend : ∀ nd ∈ g, ∀ exp r, FTok.ref exp r ∈ fieldsOf nd.entity →
      ∀ i : Nat, r = .ent i → ∃ nd2, g[i]? = some nd2 ∧
        Acis.pyEndsWith (kindName nd2.entity) exp = true)
    {a : Nat} {nd : TNode} (ha : a ∈ stF) (hnd : g[a]? = some nd) :
    ∀ exp r, FTok.ref exp r ∈ fieldsOf nd.entity →
      RefOk stF (recNames (recsOf g stF)) exp r := by
  intro exp r hf
  cases r with
  | none => trivial
  | ent i =>
      have hiref : ERef.ent i ∈ nodeRefs nd := by
        unfold nodeRefs refList
        exact List.mem_cons_of_mem _ (List.mem_filterMap.mpr ⟨_, hf, rfl⟩)
      have histf : i ∈ stF := hclosM a ha nd hnd i hiref
      have hps := posD_spec histf
      refine ⟨posD stF i, hps, ?_⟩
      have hqi : stF[posD stF i]? = some i := posOf_getElem hps
      obtain ⟨nd2, hnd2, hend2⟩ :=
        hend nd (memOfGetElem hnd) exp (.ent i) hf i rfl
      exact ⟨kindName nd2.entity, recNames_recsOf hqi hnd2, hend2⟩

theorem loadNodes_reload (g : List TNode) (stF : List Nat) (v : Int)
    (hwf : wfExport g = true) (hv : validExportVersion v = true)
    (hbound : ∀ a ∈ stF, a < g.length)
    (hclosM : ∀ a ∈ stF, ∀ nd, g[a]? = some nd →
      ∀ i : Nat, ERef.ent i ∈ nodeRefs nd → i ∈ stF) :
    loadNodes v (recsOf g stF) = .ok (reloadG g stF) := by
  obtain ⟨hv6, hv7⟩ := validExportVersion_features hv
  unfold loadNodes
  refine mapE_ok_pointwise _ (recsOf g stF) (reloadG g stF)
    (by simp [recsOf, reloadG]) ?_
  intro q r hqr
  have hqlt : q < stF.length := by
    have := lt_of_getElem_some hqr
    simpa [recsOf] using this
  rw [recsOf_getElem hqlt] at hqr
  simp only [Option.some.injEq] at hqr
  cases hsq : stF[q]? with
  | none => exact absurd hsq (by rw [List.getElem?_eq_getElem hqlt]; simp)
  | some a =>
      have halt : a < g.length := hbound a (memOfGetElem hsq)
      cases hga : g[a]? with
      | none => exact absurd hga (by rw [List.getElem?_eq_getElem halt]; simp)
      | some nd =>
          obtain ⟨hser, hnorm, -, -⟩ :=
            wfExport_spec hwf nd (memOfGetElem hga)
          refine ⟨relabelNode (posD stF) nd, ?_, ?_⟩
          · unfold reloadG
            rw [List.getElem?_map, List.getElem?_range hqlt]
            simp only [Option.map_some']
            rw [hsq]
            simp only []
            rw [hga]
          · rw [← hqr, recOfD_eq hsq hga]
            simp only []
            rw [restore_reload stF (recNames (recsOf g stF)) v nd.entity hser
              hv6 hv7
              (refOk_of_field hclosM hbound
                (fun nd2 hnd2 => (wfExport_spec hwf nd2 hnd2).2.2.2)
                (memOfGetElem hsq) hga)
              hnorm]
            simp only []
            rcases hattr : nd.attributes with - | j
            · rw [show relabelNode (posD stF) nd =
                ⟨relabelRef (posD stF) nd.attributes,
                 relabelE (posD stF) nd.entity⟩ from rfl, hattr]
              rfl
            · have hjstf : j ∈ stF := by
                refine hclosM a (memOfGetElem hsq) nd hga j ?_
                unfold nodeRefs
                rw [← hattr]
                exact List.mem_cons_self _ _
              rw [show relabelNode (posD stF) nd =
                ⟨relabelRef (posD stF) nd.attributes,
                 relabelE (posD stF) nd.entity⟩ from rfl, hattr]
              show Except.ok ⟨match refPtr stF (.ent j) with
                | some i => ERef.ent i
                | Option.none => ERef.none, relabelE (posD stF) nd.entity⟩ =
                Except.ok (⟨relabelRef (posD stF) (.ent j),
                  relabelE (posD stF) nd.entity⟩ : TNode)
              rw [show refPtr stF (.ent j) = posOf stF j from rfl,
                posD_spec hjstf]
              rfl

theorem wfRecPtrs_recsOf (g : List TNode) (stF : List Nat) :
    wfRecPtrs (recsOf g stF) = true := by
  unfold wfRecPtrs
  refine List.all_eq_true.mpr ?_
  intro r hr
  obtain ⟨p, hp, hrp⟩ := List.mem_map.mp hr
  subst hrp
  have hlen : (recsOf g stF).length = stF.length := by simp [recsOf]
  rw [Bool.and_eq_true]
  refine ⟨?_, ?_⟩
  · unfold recOfD
    cases hsq : stF[p]? with
    | none => rfl
    | some a =>
        simp only []
        cases hga : g[a]? with
        | none => rfl
        | some nd =>
            simp only []
            cases hattr : nd.attributes with
            | none => rfl
            | ent j =>
                simp only [refPtr]
                cases hpj : posOf stF j with
                | none => rfl
                | some q =>
                    have hqlt := posOf_lt_length hpj
                    simp only []
                    rw [hlen]
                    exact decide_eq_true hqlt
  · refine List.all_eq_true.mpr ?_
    intro t ht
    have hdata : t ∈ (recOfD g stF p).data := ht
    unfold recOfD at hdata
    cases hsq : stF[p]? with
    | none => rw [hsq] at hdata; simp at hdata
    | some a =>
        rw [hsq] at hdata
        simp only [] at hdata
        cases hga : g[a]? with
        | none => rw [hga] at hdata; simp at hdata
        | some nd =>
            rw [hga] at hdata
            simp only [] at hdata
            obtain ⟨f, hf, hft⟩ := List.mem_filterMap.mp hdata
            cases f with
            | ref exp rr =>
                simp only [fieldDTok, Option.some.injEq] at hft
                subst hft
                cases rr with
                | none => rfl
                | ent j =>
                    simp only [refPtr]
                    cases hpj : posOf stF j with
                    | none => rfl
                    | some q =>
                        have hqlt := posOf_lt_length hpj
                        simp only []
                        rw [hlen]
                        exact decide_eq_true hqlt
            | num q =>
                simp only [fieldDTok, Option.some.injEq] at hft
                subst hft
                rfl
            | str s =>
                simp only [fieldDTok, Option.some.injEq] at hft
                subst hft
                rfl
            | skipInt => simp [fieldDTok] at hft

theorem nodup_getElem_inj {l : List Nat} (hd : l.Nodup) {p q a : Nat}
    (hp : l[p]? = some a) (hq : l[q]? = some a) : p = q := by
  have h1 := posOf_nodup_getElem hd hp
  have h2 := posOf_nodup_getElem hd hq
  rw [h1] at h2
  simpa using h2

theorem reloadG_getElem {g : List TNode} {stF : List Nat} {p a : Nat}
    {nd : TNode} (hq : stF[p]? = some a) (hnd : g[a]? = some nd) :
    (reloadG g stF)[p]? = some (relabelNode (posD stF) nd) := by
  unfold reloadG
  rw [List.getElem?_map, List.getElem?_range (lt_of_getElem_some hq)]
  simp only [Option.map_some']
  rw [hq]
  simp only []
  rw [hnd]

theorem creationOrderAux_grows :
    ∀ (pairs : List (Nat × TNode)) (acc : List Nat),
      PrefixOf acc (creationOrderAux pairs acc) := by
  intro pairs
  induction pairs with
  | nil => intro acc; exact prefixOf_rfl acc
  | cons pr rest ih =>
      intro acc
      obtain ⟨i, nd⟩ := pr
      exact prefixOf_trans
        (prefixOf_trans
          (prefixOf_trans (pushNew_grows acc i) (pushRef_grows _ _))
          (foldl_pushRef_grows _ _))
        (ih _)

theorem creationOrderAux_nodup :
    ∀ (pairs : List (Nat × TNode)) (acc : List Nat), acc.Nodup →
      (creationOrderAux pairs acc).Nodup := by
  intro pairs
  induction pairs with
  | nil => intro acc hd; exact hd
  | cons pr rest ih =>
      intro acc hd
      obtain ⟨i, nd⟩ := pr
      exact ih _ (foldl_pushRef_nodup (pushRef_nodup (pushNew_nodup hd)))

theorem creationOrderAux_mem :
    ∀ (pairs : List (Nat × TNode)) (acc : List Nat) (i : Nat) (nd : TNode),
      (i, nd) ∈ pairs → i ∈ creationOrderAux pairs acc := by
  intro pairs
  induction pairs with
  | nil => intro acc i nd h; simp at h
  | cons pr rest ih =>
      intro acc i nd h
      obtain ⟨j, nd2⟩ := pr
      rcases List.mem_cons.mp h with h1 | h1
      · have hij : i = j := by
          simpa using congrArg Prod.fst h1
        subst hij
        refine prefixOf_mem (creationOrderAux_grows rest _) ?_
        refine prefixOf_mem (foldl_pushRef_grows _ _) ?_
        exact prefixOf_mem (pushRef_grows _ _) (mem_pushNew acc i)
      · exact ih _ i nd h1

theorem creationOrder_mem_range (g : List TNode) (p : Nat)
    (hp : p < g.length) : p ∈ creationOrder g := by
  unfold creationOrder
  refine creationOrderAux_mem g.enum [] p (g.get ⟨p, hp⟩) ?_
  have hx : g.enum[p]? = some (p, g.get ⟨p, hp⟩) := by
    rw [List.getElem?_enum, List.getElem?_eq_getElem hp]
    rfl
  exact memOfGetElem hx

theorem filter_eq_singleton {l : List Nat} {a : Nat} {P : Nat → Bool}
    (hd : l.Nodup) (ha : a ∈ l) (hP : ∀ x, P x = true ↔ x = a) :
    l.filter P = [a] := by
  induction l with
  | nil => simp at ha
  | cons b rest ih =>
      rw [List.filter_cons]
      by_cases hb : b = a
      · subst hb
        rw [if_pos ((hP b).mpr rfl)]
        have hbni : b ∉ rest := (List.nodup_cons.mp hd).1
        have hrest : rest.filter P = [] := by
          rw [List.filter_eq_nil_iff]
          intro x hx hPx
          exact hbni ((hP x).mp hPx ▸ hx)
        rw [hrest]
      · rw [if_neg (fun hPb => hb ((hP b).mp hPb))]
        refine ih (List.nodup_cons.mp hd).2 ?_
        rcases List.mem_cons.mp ha with h1 | h1
        · exact absurd h1.symm hb
        · exact h1

/-- Is the entity a `Body`? -/
def isBodyE : TEntity → Bool
  | .body _ _ _ _ => true
  | _ => false

theorem isBodyE_relabel (φ : Nat → Nat) (e : TEntity) :
    isBodyE (relabelE φ e) = isBodyE e := by
  cases e <;> rfl

theorem isBodyIdx_eq (g : List TNode) (i : Nat) :
    isBodyIdx g i = (match g[i]? with
      | some nd => isBodyE nd.entity
      | Option.none => false) := by
  unfold isBodyIdx
  cases g[i]? with
  | none => rfl
  | some nd => cases hnd : nd.entity <;> simp [isBodyE]

/-- Loading the records of a one-root export of a single-body arena
succeeds and yields the dense relabeling of the reached sub-arena, with
the body list the single dense index 0 of the root. -/
theorem loadSatRecords_reload (g : List TNode) (stF : List Nat) (v : Int)
    (b : Nat) (hwf : wfExport g = true) (hv : validExportVersion v = true)
    (hnodup : stF.Nodup) (hbound : ∀ a ∈ stF, a < g.length)
    (hclosM : ∀ a ∈ stF, ∀ nd, g[a]? = some nd →
      ∀ i : Nat, ERef.ent i ∈ nodeRefs nd → i ∈ stF)
    (h0 : stF[0]? = some b) (hbody : isBodyIdx g b = true)
    (honly : ∀ i : Nat, isBodyIdx g i = true → i = b) :
    loadSatRecords v (recsOf g stF) = .ok (reloadG g stF, [0]) := by
  unfold loadSatRecords
  rw [if_pos (wfRecPtrs_recsOf g stF),
    loadNodes_reload g stF v hwf hv hbound hclosM]
  simp only []
  have hlen2 : (reloadG g stF).length = stF.length := by simp [reloadG]
  have hn0 : 0 < stF.length := lt_of_getElem_some h0
  have hbp : ∀ p : Nat, isBodyIdx (reloadG g stF) p = true ↔ p = 0 := by
    intro p
    constructor
    · intro hp
      rw [isBodyIdx_eq] at hp
      cases hg2 : (reloadG g stF)[p]? with
      | none => rw [hg2] at hp; exact absurd hp (by simp)
      | some nd2 =>
          have hplt : p < stF.length := by
            have := lt_of_getElem_some hg2
            omega
          cases hsq : stF[p]? with
          | none =>
              exact absurd hsq
                (by rw [List.getElem?_eq_getElem hplt]; simp)
          | some a =>
              have halt : a < g.length := hbound a (memOfGetElem hsq)
              cases hga : g[a]? with
              | none =>
                  exact absurd hga
                    (by rw [List.getElem?_eq_getElem halt]; simp)
              | some nd =>
                  rw [reloadG_getElem hsq hga] at hg2
                  simp only [Option.some.injEq] at hg2
                  subst hg2
                  rw [reloadG_getElem hsq hga] at hp
                  have hpe : isBodyE nd.entity = true := by
                    have h3 := isBodyE_relabel (posD stF) nd.entity
                    simpa [relabelNode, h3] using hp
                  have hab : a = b := by
                    refine honly a ?_
                    rw [isBodyIdx_eq, hga]
                    exact hpe
                  subst hab
                  exact nodup_getElem_inj hnodup hsq h0
    · intro hp
      subst hp
      have halt : b < g.length := hbound b (memOfGetElem h0)
      cases hgb : g[b]? with
      | none =>
          exact absurd hgb (by rw [List.getElem?_eq_getElem halt]; simp)
      | some nd =>
          rw [isBodyIdx_eq, reloadG_getElem h0 hgb]
          simp only []
          rw [show (relabelNode (posD stF) nd).entity =
            relabelE (posD stF) nd.entity from rfl, isBodyE_relabel]
          rw [isBodyIdx_eq, hgb] at hbody
          exact hbody
  have h0mem : 0 ∈ creationOrder (reloadG g stF) :=
    creationOrder_mem_range _ 0 (by omega)
  have hndCO : (creationOrder (reloadG g stF)).Nodup :=
    creationOrderAux_nodup _ [] (by simp)
  rw [filter_eq_singleton hndCO h0mem hbp]

theorem reloadG_WfG (g : List TNode) (stF : List Nat)
    (hwf : wfExport g = true) (hbound : ∀ a ∈ stF, a < g.length)
    (hclosM : ∀ a ∈ stF, ∀ nd, g[a]? = some nd →
      ∀ i : Nat, ERef.ent i ∈ nodeRefs nd → i ∈ stF) :
    WfG (reloadG g stF) := by
  intro nd2 hnd2
  obtain ⟨p, hp, hfn⟩ := List.mem_map.mp hnd2
  have hplt : p < stF.length := List.mem_range.mp hp
  cases hsq : stF[p]? with
  | none => exact absurd hsq (by rw [List.getElem?_eq_getElem hplt]; simp)
  | some a =>
      have hastf : a ∈ stF := memOfGetElem hsq
      have halt : a < g.length := hbound a hastf
      cases hga : g[a]? with
      | none => exact absurd hga (by rw [List.getElem?_eq_getElem halt]; simp)
      | some nd =>
          rw [hsq] at hfn
          simp only [] at hfn
          rw [hga] at hfn
          simp only [] at hfn
          subst hfn
          obtain ⟨hser, -, -, -⟩ := wfExport_spec hwf nd (memOfGetElem hga)
          constructor
          · rw [show (relabelNode (posD stF) nd).entity =
              relabelE (posD stF) nd.entity from rfl, serializable_relabel]
            exact hser
          · intro i hi
            rw [nodeRefs_relabel] at hi
            obtain ⟨r, hrmem, hrr⟩ := List.mem_map.mp hi
            cases r with
            | none => exact absurd hrr (by simp [relabelRef])
            | ent j =>
                have hji : posD stF j = i := by
                  simpa [relabelRef] using hrr
                have hjstf : j ∈ stF := hclosM a hastf nd hga j hrmem
                have hlt := posOf_lt_length (posD_spec hjstf)
                rw [← hji]
                have hlen2 : (reloadG g stF).length = stF.length := by
                  simp [reloadG]
                omega

theorem stExp_reload_eq_range (g : List TNode) (b : Nat) (stF : List Nat)
    (hstF : stF = stExp g b) (hnodup : stF.Nodup)
    (hbound : ∀ a ∈ stF, a < g.length)
    (hclosM : ∀ a ∈ stF, ∀ nd, g[a]? = some nd →
      ∀ i : Nat, ERef.ent i ∈ nodeRefs nd → i ∈ stF)
    (h0 : stF[0]? = some b) :
    stExp (reloadG g stF) 0 = List.range stF.length := by
  have hbmem : b ∈ stF := memOfGetElem h0
  have hφb : posD stF b = 0 := by
    unfold posD
    rw [posOf_nodup_getElem hnodup h0]
    rfl
  have hgdef : ∀ a ∈ stF, ∃ nd, g[a]? = some nd := by
    intro a ha
    have halt := hbound a ha
    exact ⟨g[a], List.getElem?_eq_getElem halt⟩
  have hnode : ∀ a ∈ stF, ∀ nd, g[a]? = some nd →
      (reloadG g stF)[posD stF a]? = some (relabelNode (posD stF) nd) := by
    intro a ha nd hnd
    exact reloadG_getElem (posOf_getElem (posD_spec ha)) hnd
  have hinj : ∀ x ∈ stF, ∀ y ∈ stF, posD stF x = posD stF y → x = y :=
    fun x hx y hy => posD_inj hx hy
  have hlen2 : (reloadG g stF).length = stF.length := by simp [reloadG]
  have hlenle : stF.length ≤ g.length := nodup_bounded_length hnodup hbound
  have hstart0 : pushNew ([] : List Nat) 0 = [0] := by simp [pushNew]
  have hstartb : pushNew ([] : List Nat) b = [b] := by simp [pushNew]
  have hsim := stLoop_relabel g (reloadG g stF) (posD stF) stF hinj hgdef
    hnode hclosM (stF.length + 1) [b] 0
    (by intro x hx; rw [List.mem_singleton.mp hx]; exact hbmem)
  have hmapb : ([b].map (posD stF)) = [0] := by
    simp [hφb]
  unfold stExp
  rw [hlen2, hstart0, ← hmapb, hsim]
  have hfuel := stLoop_fuel_eq g stF hclosM (stF.length + 1) (g.length + 1)
    [b] 0 (by simp)
    (by intro x hx; rw [List.mem_singleton.mp hx]; exact hbmem)
    (by omega) (by omega)
  rw [hfuel]
  have hback : stLoop g (g.length + 1) [b] 0 = stF := by
    rw [hstF]
    unfold stExp
    rw [hstartb]
  rw [hback]
  refine List.ext_getElem (by simp) ?_
  intro p hp1 hp2
  rw [List.getElem_map, List.getElem_range]
  have hplt : p < stF.length := by simpa using hp1
  have hsq : stF[p]? = some stF[p] := List.getElem?_eq_getElem hplt
  unfold posD
  rw [posOf_nodup_getElem hnodup hsq]
  rfl

theorem refPtr_range {stF : List Nat} {r : ERef}
    (hr : ∀ j : Nat, r = .ent j → j ∈ stF) :
    refPtr (List.range stF.length) (relabelRef (posD stF) r) = refPtr stF r := by
  cases r with
  | none => rfl
  | ent j =>
      have hjstf : j ∈ stF := hr j rfl
      have hps := posD_spec hjstf
      have hlt := posOf_lt_length hps
      show posOf (List.range stF.length) (posD stF j) = posOf stF j
      rw [posOf_range hlt, hps]

theorem recOfD_reload (g : List TNode) (stF : List Nat)
    (hbound : ∀ a ∈ stF, a < g.length)
    (hclosM : ∀ a ∈ stF, ∀ nd, g[a]? = some nd →
      ∀ i : Nat, ERef.ent i ∈ nodeRefs nd → i ∈ stF)
    (p : Nat) (hplt : p < stF.length) :
    recOfD (reloadG g stF) (List.range stF.length) p = recOfD g stF p := by
  cases hsq : stF[p]? with
  | none => exact absurd hsq (by rw [List.getElem?_eq_getElem hplt]; simp)
  | some a =>
      have hastf : a ∈ stF := memOfGetElem hsq
      have halt : a < g.length := hbound a hastf
      cases hga : g[a]? with
      | none => exact absurd hga (by rw [List.getElem?_eq_getElem halt]; simp)
      | some nd =>
          have hrefs := hclosM a hastf nd hga
          rw [recOfD_eq hsq hga]
          have hq2 : (List.range stF.length)[p]? = some p :=
            List.getElem?_range hplt
          have hnd2 : (reloadG g stF)[p]? =
              some (relabelNode (posD stF) nd) := reloadG_getElem hsq hga
          rw [recOfD_eq hq2 hnd2]
          have hattr : refPtr (List.range stF.length)
              (relabelNode (posD stF) nd).attributes =
              refPtr stF nd.attributes := by
            rw [show (relabelNode (posD stF) nd).attributes =
              relabelRef (posD stF) nd.attributes from rfl]
            refine refPtr_range ?_
            intro j hj
            refine hrefs j ?_
            unfold nodeRefs
            rw [← hj]
            exact List.mem_cons_self _ _
          have hdata : fieldDToks (List.range stF.length)
              (fieldsOf (relabelNode (posD stF) nd).entity) =
              fieldDToks stF (fieldsOf nd.entity) := by
            rw [show (relabelNode (posD stF) nd).entity =
              relabelE (posD stF) nd.entity from rfl, fieldsOf_relabel]
            unfold fieldDToks
            rw [List.filterMap_map]
            refine List.filterMap_congr ?_
            intro f hf
            cases f with
            | ref exp r =>
                show some (DTok.ptr (refPtr (List.range stF.length)
                  (relabelRef (posD stF) r))) =
                  some (DTok.ptr (refPtr stF r))
                rw [refPtr_range ?_]
                intro j hj
                refine hrefs j ?_
                unfold nodeRefs refList
                refine List.mem_cons_of_mem _ ?_
                refine List.mem_filterMap.mpr ⟨.ref exp r, hf, ?_⟩
                rw [hj]
                rfl
            | num q => rfl
            | str s => rfl
            | skipInt => rfl
          rw [hattr, hdata, show kindName (relabelNode (posD stF) nd).entity =
            kindName nd.entity from kindName_relabel (posD stF) nd.entity]

/-- C1 counterexample: a graph built only from supported kinds (body,
lump, shell) whose first shell links a second shell through `next_shell`
exports fine, but loading the exported records fails — the loader's
`Shell.restore_common` expects the type name suffix `"next_shell"` while
the exporter's own target record is of type `"shell"` (the C8 bug), so
`export(load(export))` cannot return an isomorphic graph. -/
theorem C1_counterexample :
    ∃ recs, exportSat [0]
      [⟨.none, .body .none (.ent 1) .none .none⟩,
       ⟨.none, .lump .none .none (.ent 2) (.ent 0)⟩,
       ⟨.none, .shell .none (.ent 3) .none .none .none (.ent 1)⟩,
       ⟨.none, .shell .none .none .none .none .none (.ent 1)⟩] 700 =
        .ok recs ∧
      loadSatRecords 700 recs =
        .error (.parsingError "expected entity type next_shell, got shell") :=
  ⟨[⟨"body", Option.none, 0,
      [.ptr Option.none, .ptr (some 1), .ptr Option.none, .ptr Option.none]⟩,
    ⟨"lump", Option.none, 1,
      [.ptr Option.none, .ptr Option.none, .ptr (some 2), .ptr (some 0)]⟩,
    ⟨"shell", Option.none, 2,
      [.ptr Option.none, .ptr (some 3), .ptr Option.none, .ptr Option.none,
       .ptr Option.none, .ptr (some 1)]⟩,
    ⟨"shell", Option.none, 3,
      [.ptr Option.none, .ptr Option.none, .ptr Option.none,
       .ptr Option.none, .ptr Option.none, .ptr (some 1)]⟩],
   rfl, rfl⟩

/-- C1 (amended): on an arena whose entities are all serializable,
reload-exact and suffix-check-clean (`wfExport`), with exactly one body
`b`, exporting at a valid version, loading the records and exporting the
loaded body again reproduces the record list verbatim (hence an
isomorphic graph: same kind sequence, field values and topology; only
the arena indices changed to dense positions). -/
theorem C1_roundtrip_amended (g : List TNode) (b : Nat) (v : Int)
    (hwf : wfExport g = true) (hb : isBodyIdx g b = true)
    (honly : (List.range g.length).all
      (fun i => !(isBodyIdx g i) || decide (i = b)) = true)
    (hv : validExportVersion v = true) :
    ∃ recs g2, exportSat [b] g v = .ok recs ∧
      loadSatRecords v recs = .ok (g2, [0]) ∧
      exportSat [0] g2 v = .ok recs := by
  have hg : WfG g := wfExport_WfG hwf
  have hblt : b < g.length := by
    by_contra hge
    rw [isBodyIdx_eq, List.getElem?_eq_none (by omega)] at hb
    exact absurd hb (by simp)
  have honlyP : ∀ i : Nat, isBodyIdx g i = true → i = b := by
    intro i hi
    by_cases hilt : i < g.length
    · have h2 := List.all_eq_true.mp honly i (List.mem_range.mpr hilt)
      rw [hi] at h2
      simpa using h2
    · rw [isBodyIdx_eq, List.getElem?_eq_none (by omega)] at hi
      exact absurd hi (by simp)
  obtain ⟨hexp, hnodup, hbound, h0, hclos⟩ :=
    exportSat_single g hg b hblt v hv
  have hclosM := closure_mem hclos
  refine ⟨recsOf g (stExp g b), reloadG g (stExp g b), hexp, ?_, ?_⟩
  · exact loadSatRecords_reload g (stExp g b) v b hwf hv hnodup hbound
      hclosM h0 hb honlyP
  · have hG2wf : WfG (reloadG g (stExp g b)) :=
      reloadG_WfG g (stExp g b) hwf hbound hclosM
    have hlen2 : (reloadG g (stExp g b)).length = (stExp g b).length := by
      simp [reloadG]
    have h0lt : 0 < (reloadG g (stExp g b)).length := by
      have := lt_of_getElem_some h0
      omega
    obtain ⟨hexp2, -, -, -, -⟩ :=
      exportSat_single (reloadG g (stExp g b)) hG2wf 0 h0lt v hv
    rw [hexp2]
    have hst2 : stExp (reloadG g (stExp g b)) 0 =
        List.range (stExp g b).length :=
      stExp_reload_eq_range g b (stExp g b) rfl hnodup hbound hclosM h0
    rw [hst2]
    have hrec : (List.range (List.range (stExp g b).length).length).map
        (recOfD (reloadG g (stExp g b)) (List.range (stExp g b).length)) =
        recsOf g (stExp g b) := by
      rw [List.length_range]
      unfold recsOf
      refine List.map_congr_left ?_
      intro p hp
      exact recOfD_reload g (stExp g b) hbound hclosM p (List.mem_range.mp hp)
    rw [hrec]

theorem C1_roundtrip_amended_witness :
    ∃ recs g2, exportSat [0]
      [⟨.none, .body .none (.ent 1) .none .none⟩,
       ⟨.none, .lump .none .none (.ent 2) (.ent 0)⟩,
       ⟨.none, .shell .none .none .none .none .none (.ent 1)⟩] 700 =
        .ok recs ∧
      loadSatRecords 700 recs = .ok (g2, [0]) ∧
      exportSat [0] g2 700 = .ok recs :=
  C1_roundtrip_amended
    [⟨.none, .body .none (.ent 1) .none .none⟩,
     ⟨.none, .lump .none .none (.ent 2) (.ent 0)⟩,
     ⟨.none, .shell .none .none .none .none .none (.ent 1)⟩] 0 700
    (by decide) (by decide) (by decide) (by decide)

end AcisEnt














